import Mathlib

/-!
# etschash (`libethash/internal.c`): shallow embedding and verified properties

The definitions below follow `src/libethash/internal.c` function by function.

Conventions of the embedding

* Machine integers are natural numbers; every place where C truncates to 32 bits
  (`uint32_t`, `unsigned`) is written with `u32`.
* A `node` (the 64-byte union of `internal.h`) is the list of its 16 32-bit words as a
  little-endian host sees them; `node_bytes` is its `bytes` view.  On such a host
  `fix_endian32`, `fix_endian64` and `fix_endian_arr32` do nothing.
* An array of nodes (the cache, the DAG region) is a `List node`.
* Keccak (`sha3.h`, resp. the CryptoPP wrapper of `sha3_cryptopp.cpp`) is a parameter:
  two arbitrary fixed functions on byte strings, bundled in `Sha3`.
* The epoch tables of `data_sizes.h` are parameters (`Nat → Nat`, indexed by epoch).
* Code that can trap returns `Except Fault _`; a nullable pointer is an `Option`.  A division
  or remainder by zero is a trap (`umod`).
* The file and mmap collaborators of `etschash_full_new_internal` (`io.h`, `mmap.h`, libc)
  are parameters, bundled in `Collab`; an execution records the calls made as a list of
  `Action`.
* `etschash_hash_be` is `etschash_hash` as a big-endian host runs it, where
  `fix_endian64` and `fix_endian_arr32` swap bytes.
-/

namespace Etschash

/-! ## Machine integers, bytes -/

/-- Truncation to `uint32_t` / `unsigned`. -/
def u32 (x : Nat) : Nat := x % 4294967296

/-- The four bytes of a 32-bit word, least significant first. -/
def le32 (w : Nat) : List Nat :=
  [w % 256, w / 256 % 256, w / 65536 % 256, w / 16777216 % 256]

/-- The eight bytes of a 64-bit word, least significant first
(`fix_endian64` followed by a store, resp. `memcpy(.., &nonce, 8)`). -/
def le64 (x : Nat) : List Nat :=
  (List.range 8).map (fun k => x / 256 ^ k % 256)

/-- The byte image of an array of 32-bit words on a little-endian host. -/
def words_bytes (ws : List Nat) : List Nat := ws.flatMap le32

/-! ## Constants of `etschash.h` -/

def ETSCHASH_EPOCH_LENGTH : Nat := 30000
def ETSCHASH_MIX_BYTES : Nat := 128
def ETSCHASH_HASH_BYTES : Nat := 64
def ETSCHASH_DATASET_PARENTS : Nat := 256
def ETSCHASH_CACHE_ROUNDS : Nat := 3
def ETSCHASH_ACCESSES : Nat := 64

/-- Modelled from the spec: `internal.h` is not among the sources; a node is 64 bytes,
that is 16 32-bit words (spec section 3). -/
def NODE_WORDS : Nat := 16

/-- Modelled from the spec: `internal.h` is not among the sources; the mix state has
`MIX_WORDS = 32` 32-bit words (spec section 3). -/
def MIX_WORDS : Nat := 32

/-- Modelled from the spec: `internal.h` is not among the sources; the mix state has
`MIX_NODES = 2` nodes (spec section 3). -/
def MIX_NODES : Nat := 2

/-- Modelled from the spec: `fnv.h` is not among the sources;
`FNV_PRIME = 0x01000193` (spec section 4.B). -/
def FNV_PRIME : Nat := 0x01000193

/-- Modelled from the spec: `fnv.h` is not among the sources;
`fnv(x, y) = (x * FNV_PRIME) XOR y`, all arithmetic mod 2^32 (spec section 4.B). -/
def fnv_hash (x y : Nat) : Nat := u32 (u32 (x * FNV_PRIME) ^^^ y)

/-! ## Data model -/

/-- The 64-byte `node` union, as its 16 little-endian 32-bit words. -/
abbrev node := List Nat

/-- A 256-bit digest `etschash_h256_t`, as its 32 bytes. -/
abbrev etschash_h256_t := List Nat

/-- The `words` view of a node: exactly `NODE_WORDS` words. -/
def node_words (n : node) : List Nat :=
  (List.range NODE_WORDS).map (fun w => n.getD w 0)

/-- The `bytes` view of a node (64 bytes). -/
def node_bytes (n : node) : List Nat := words_bytes (node_words n)

/-- Keccak, taken as a parameter.  `SHA3_256 data` is the 32-byte digest of the byte
string `data`; `SHA3_512 data` is the 64-byte digest, held as the node it is written to. -/
structure Sha3 where
  SHA3_256 : List Nat → etschash_h256_t
  SHA3_512 : List Nat → node

/-- The runtime traps of the embedding. -/
inductive Fault
  | out_of_bounds
  | division_by_zero
  | null_dereference
  | assertion_failed
  | out_of_fuel
  deriving DecidableEq, Repr

deriving instance DecidableEq for Except

/-- The record `struct etschash_light` (`internal.h`): the cache, its size in bytes and
the block number the handle was created for. -/
structure etschash_light where
  cache : List node
  cache_size : Nat
  block_number : Nat

/-- The record `etschash_return_value_t` of `etschash.h`. -/
structure etschash_return_value_t where
  result : etschash_h256_t
  mix_hash : etschash_h256_t
  success : Bool
  deriving DecidableEq

/-- The part of `struct etschash_full` that `etschash_full_compute` reads. -/
structure etschash_full where
  file_size : Nat
  data : List node

/-- On a little-endian host `fix_endian_arr32` leaves the words as they are. -/
def fix_endian_arr32 {α : Type} (words : α) : α := words

/-! ## Memory access and loops -/

/-- A checked read of `nodes[i]`. -/
def node_read (nodes : List node) (i : Nat) : Except Fault node :=
  match nodes[i]? with
  | some v => .ok v
  | none => .error .out_of_bounds

/-- A checked store to `nodes[i]`. -/
def node_write (nodes : List node) (i : Nat) (v : node) : Except Fault (List node) :=
  if i < nodes.length then .ok (nodes.set i v) else .error .out_of_bounds

/-- The loop `for (uint32_t i = start; i != stop; ++i) body`, the counter wrapping
modulo 2^32.  A 32-bit counter reaches any 32-bit `stop` within 2^32 steps, so the callers
pass 2^32 as fuel. -/
def for_ne {σ : Type} (body : Nat → σ → Except Fault σ) (stop : Nat) :
    Nat → Nat → σ → Except Fault σ
  | 0, _, _ => .error .out_of_fuel
  | fuel + 1, i, s =>
    if i = stop then .ok s
    else body i s >>= for_ne body stop fuel (u32 (i + 1))

/-- The operator `%` of C on unsigned operands: a zero divisor is a trap. -/
def umod (a b : Nat) : Except Fault Nat :=
  if b = 0 then .error .division_by_zero else .ok (a % b)

/-- The word loop `for (w = 0; w != NODE_WORDS; ++w) dst[off + w] = fnv_hash(dst[off + w],
src->words[w])` shared by `etschash_calculate_dag_item` (`off = 0`) and `etschash_hash`
(`off = NODE_WORDS * n`, the node `mix[n]`). -/
def fnv_words (dst : List Nat) (off : Nat) (src : node) : List Nat :=
  (List.range NODE_WORDS).foldl
    (fun d w => d.set (off + w) (fnv_hash (d.getD (off + w) 0) (src.getD w 0))) dst

/-! ## Epoch sizing (`etschash_get_datasize`, `etschash_get_cachesize`) -/

def etschash_get_datasize (dag_sizes : Nat → Nat) (block_number : Nat) : Except Fault Nat :=
  if block_number / ETSCHASH_EPOCH_LENGTH < 2048 then
    .ok (dag_sizes (block_number / ETSCHASH_EPOCH_LENGTH))
  else .error .assertion_failed

def etschash_get_cachesize (cache_sizes : Nat → Nat) (block_number : Nat) : Except Fault Nat :=
  if block_number / ETSCHASH_EPOCH_LENGTH < 2048 then
    .ok (cache_sizes (block_number / ETSCHASH_EPOCH_LENGTH))
  else .error .assertion_failed

/-! ## Cache builder (`etschash_compute_cache_nodes`) -/

/-- The body of the first loop: `SHA3_512(nodes[i].bytes, nodes[i - 1].bytes, 64)`. -/
def cache_chain_body (H : Sha3) (i : Nat) (nodes : List node) : Except Fault (List node) := do
  let prev ← node_read nodes (i - 1)
  node_write nodes i (H.SHA3_512 (node_bytes prev))

/-- The loop `for (w = 0; w != NODE_WORDS; ++w) data.words[w] ^= other.words[w]`. -/
def xor_words (data other : node) : node :=
  (List.range NODE_WORDS).foldl
    (fun d w => d.set w (d.getD w 0 ^^^ other.getD w 0)) data

/-- The body of the inner loop of a round: `idx`, the copy `data`, the XOR and the hash. -/
def cache_round_body (H : Sha3) (num_nodes : Nat) (i : Nat) (nodes : List node) :
    Except Fault (List node) := do
  let cur ← node_read nodes i
  let idx := cur.getD 0 0 % num_nodes
  let data ← node_read nodes (u32 (num_nodes - 1 + i) % num_nodes)
  let other ← node_read nodes idx
  node_write nodes i (H.SHA3_512 (node_bytes (xor_words data other)))

/-- The function `etschash_compute_cache_nodes`.  `nodes` is the buffer the caller
allocated; the result is the returned flag and the buffer afterwards. -/
def etschash_compute_cache_nodes (H : Sha3) (nodes : List node) (cache_size : Nat)
    (seed : etschash_h256_t) : Except Fault (Bool × List node) :=
  if cache_size % 64 ≠ 0 then .ok (false, nodes)
  else do
    let num_nodes := u32 (cache_size / 64)
    let nodes ← node_write nodes 0 (H.SHA3_512 seed)
    let nodes ← for_ne (cache_chain_body H) num_nodes 4294967296 1 nodes
    let nodes ← (List.range ETSCHASH_CACHE_ROUNDS).foldlM
      (fun nodes _ => for_ne (cache_round_body H num_nodes) num_nodes 4294967296 0 nodes) nodes
    pure (true, fix_endian_arr32 nodes)

/-! ## DAG item (`etschash_calculate_dag_item`) -/

/-- The node count `num_parent_nodes = (uint32_t)(light->cache_size / sizeof(node))`. -/
def num_parent_nodes (light : etschash_light) : Nat := u32 (light.cache_size / 64)

/-- One iteration of the parent loop of `etschash_calculate_dag_item`:
`parent_index = fnv_hash(node_index ^ i, ret->words[i % NODE_WORDS]) % num_parent_nodes`, then
the word loop over the parent node. -/
def dag_item_round (light : etschash_light) (node_index : Nat) (ret : node) (i : Nat) :
    Except Fault node := do
  let parent_index ←
    umod (fnv_hash (node_index ^^^ i) (ret.getD (i % NODE_WORDS) 0)) (num_parent_nodes light)
  let parent := light.cache.getD parent_index []
  pure (fnv_words ret 0 parent)

/-- The function `etschash_calculate_dag_item` (scalar path); the result is `*ret`.  The
remainders `node_index % num_parent_nodes` and, in the parent loop, `.. % num_parent_nodes`
trap when `num_parent_nodes` is 0. -/
def etschash_calculate_dag_item (H : Sha3) (node_index : Nat) (light : etschash_light) :
    Except Fault node := do
  let init_index ← umod node_index (num_parent_nodes light)
  let init := light.cache.getD init_index []
  let ret := init
  let ret := ret.set 0 (ret.getD 0 0 ^^^ node_index)
  let ret := H.SHA3_512 (node_bytes ret)
  let ret ← (List.range ETSCHASH_DATASET_PARENTS).foldlM (dag_item_round light node_index) ret
  pure (H.SHA3_512 (node_bytes ret))

/-! ## Full DAG (`etschash_compute_full_data`) -/

/-- What `etschash_compute_full_data` does, in order: a call of the progress callback at
loop index `n` with argument `arg` returning `ret`, or the computation and store of DAG
node `n`. -/
inductive Event
  | callback (n : Nat) (arg : Nat) (ret : Int)
  | dag_item (n : Nat)
  deriving DecidableEq, Repr

/-- The state threaded through the loop: the region `full_nodes`, the state of the
callback (a C callback may keep state of its own) and the events so far. -/
structure full_state (σ : Type) where
  full_nodes : List node
  cb : σ
  trace : List Event

/-- The test `callback && n % (max_n / 100) == 0 && callback(..) != 0` of one iteration;
the flag says whether the function returns `false` here.  `pct n` stands for the value
`(unsigned)ceil(progress * 100.0f)` at iteration `n` (floating point is not modelled). -/
def progress_check {σ : Type} (callback : Option (σ → Nat → Int × σ)) (pct : Nat → Nat)
    (max_n n : Nat) (st : full_state σ) : Except Fault (Bool × full_state σ) :=
  match callback with
  | none => .ok (false, st)
  | some cb =>
    if max_n / 100 = 0 then .error .division_by_zero
    else if n % (max_n / 100) ≠ 0 then .ok (false, st)
    else
      let r := cb st.cb (pct n)
      .ok (decide (r.1 ≠ 0),
        { st with cb := r.2, trace := st.trace ++ [Event.callback n (pct n) r.1] })

/-- The loop `for (uint32_t n = 0; n != max_n; ++n)` of `etschash_compute_full_data`.  The
call `etschash_calculate_dag_item(&(full_nodes[n]), n, light)` first reduces `n` modulo the
node count of the cache and then stores into `full_nodes[n]`. -/
def compute_full_loop {σ : Type} (H : Sha3) (light : etschash_light)
    (callback : Option (σ → Nat → Int × σ)) (pct : Nat → Nat) (max_n : Nat) :
    Nat → Nat → full_state σ → Except Fault (Bool × full_state σ)
  | 0, _, _ => .error .out_of_fuel
  | fuel + 1, n, st =>
    if n = max_n then .ok (true, st)
    else do
      let (cancelled, st) ← progress_check callback pct max_n n st
      if cancelled then pure (false, st)
      else
        let item ← etschash_calculate_dag_item H n light
        let nodes ← node_write st.full_nodes n item
        compute_full_loop H light callback pct max_n fuel (u32 (n + 1))
          { st with full_nodes := nodes, trace := st.trace ++ [Event.dag_item n] }

/-- The function `etschash_compute_full_data`.  `mem` is the region to fill, `callback`
is `none` for a NULL callback, `cb0` the callback's initial state. -/
def etschash_compute_full_data {σ : Type} (H : Sha3) (mem : List node) (full_size : Nat)
    (light : etschash_light) (callback : Option (σ → Nat → Int × σ)) (pct : Nat → Nat)
    (cb0 : σ) : Except Fault (Bool × full_state σ) :=
  if full_size % (4 * MIX_WORDS) ≠ 0 ∨ full_size % 64 ≠ 0 then
    .ok (false, ⟨mem, cb0, []⟩)
  else
    compute_full_loop H light callback pct (u32 (full_size / 64)) 4294967296 0 ⟨mem, cb0, []⟩

/-! ## Hashimoto (`etschash_hash`) -/

/-- The page count `num_full_pages = (unsigned)(full_size / page_size)`. -/
def num_full_pages (full_size : Nat) : Nat := u32 (full_size / (4 * MIX_WORDS))

/-- The DAG node the inner loop works with: read from `full_nodes` when that pointer is
not NULL, computed from the light client otherwise. -/
def hash_dag_node (H : Sha3) (full_nodes : Option (List node)) (light : etschash_light)
    (index n : Nat) : Except Fault node :=
  match full_nodes with
  | some nodes => .ok (nodes.getD (u32 (MIX_NODES * index + n)) [])
  | none => etschash_calculate_dag_item H (u32 (index * MIX_NODES + n)) light

/-- One of the `ETSCHASH_ACCESSES` iterations.  `s` is `s_mix[0]`, `mix` the 32 words of
`s_mix[1..2]`.  The remainder `.. % num_full_pages` traps when the page count is 0. -/
def hash_round (H : Sha3) (full_nodes : Option (List node)) (light : etschash_light)
    (full_size : Nat) (s : node) (mix : List Nat) (i : Nat) : Except Fault (List Nat) := do
  let index ←
    umod (fnv_hash (s.getD 0 0 ^^^ i) (mix.getD (i % MIX_WORDS) 0)) (num_full_pages full_size)
  (List.range MIX_NODES).foldlM
    (fun mix n => do
      let dag_node ← hash_dag_node H full_nodes light index n
      pure (fnv_words mix (NODE_WORDS * n) dag_node)) mix

/-- One iteration of the compression loop, at word `w`. -/
def compress_step (mix : List Nat) (w : Nat) : List Nat :=
  let reduction := mix.getD (w + 0) 0
  let reduction := u32 (u32 (reduction * FNV_PRIME) ^^^ mix.getD (w + 1) 0)
  let reduction := u32 (u32 (reduction * FNV_PRIME) ^^^ mix.getD (w + 2) 0)
  let reduction := u32 (u32 (reduction * FNV_PRIME) ^^^ mix.getD (w + 3) 0)
  mix.set (w / 4) reduction

/-- The loop `for (w = 0; w != MIX_WORDS; w += 4)`. -/
def compress_mix (mix : List Nat) : List Nat :=
  (List.range' 0 (MIX_WORDS / 4) 4).foldl compress_step mix

/-- The state of `mix` after the replication loop and the `ETSCHASH_ACCESSES` rounds.  The
two nodes `s_mix[1..2]` start uninitialised; every word is stored before it is read. -/
def hash_mix (H : Sha3) (full_nodes : Option (List node)) (light : etschash_light)
    (full_size : Nat) (s : node) : Except Fault (List Nat) :=
  let mix := (List.range MIX_WORDS).foldl
    (fun mix w => mix.set w (s.getD (w % NODE_WORDS) 0)) (List.replicate MIX_WORDS 0)
  (List.range ETSCHASH_ACCESSES).foldlM (hash_round H full_nodes light full_size s) mix

/-- The function `etschash_hash`: the returned flag and `*ret` afterwards. -/
def etschash_hash (H : Sha3) (ret : etschash_return_value_t)
    (full_nodes : Option (List node)) (light : etschash_light) (full_size : Nat)
    (header_hash : etschash_h256_t) (nonce : Nat) :
    Except Fault (Bool × etschash_return_value_t) :=
  if full_size % MIX_WORDS ≠ 0 then .ok (false, ret)
  else do
    let s := fix_endian_arr32 (H.SHA3_512 (header_hash ++ le64 nonce))
    let mix ← hash_mix H full_nodes light full_size s
    let mix := compress_mix mix
    let mix_hash := words_bytes (fix_endian_arr32 (mix.take (MIX_WORDS / 4)))
    pure (true, { ret with
      mix_hash := mix_hash
      result := H.SHA3_256 (node_bytes s ++ mix_hash) })

/-! ## Quick verification, seed hash -/

/-- The function `etschash_quick_hash`; the result is `*return_hash`. -/
def etschash_quick_hash (H : Sha3) (header_hash : etschash_h256_t) (nonce : Nat)
    (mix_hash : etschash_h256_t) : etschash_h256_t :=
  let buf := header_hash ++ le64 nonce
  let buf := node_bytes (H.SHA3_512 buf)
  let buf := buf ++ mix_hash
  H.SHA3_256 buf

/-- Modelled from the spec: `etschash_h256_reset` is declared in the missing `internal.h`;
the seed hash of epoch 0 is 32 zero bytes (spec section 3). -/
def etschash_h256_reset : etschash_h256_t := List.replicate 32 0

/-- The loop `for (uint32_t i = 0; i < epochs; ++i) SHA3_256(&ret, (uint8_t*)&ret, 32)`:
`i` is 32 bits wide and wraps, `epochs` is 64 bits wide. -/
def seedhash_loop (H : Sha3) (epochs : Nat) :
    Nat → Nat → etschash_h256_t → Except Fault etschash_h256_t
  | 0, _, _ => .error .out_of_fuel
  | fuel + 1, i, ret =>
    if i < epochs then seedhash_loop H epochs fuel (u32 (i + 1)) (H.SHA3_256 ret)
    else .ok ret

/-- The function `etschash_get_seedhash`, with `fuel` bounding the number of loop tests. -/
def etschash_get_seedhash (H : Sha3) (fuel : Nat) (block_number : Nat) :
    Except Fault etschash_h256_t :=
  seedhash_loop H (block_number / ETSCHASH_EPOCH_LENGTH) fuel 0 etschash_h256_reset

/-! ## Light client -/

/-- What the allocator answers inside `etschash_light_new_internal`: whether `calloc`
succeeds, and for `malloc` either NULL or the arbitrary initial contents of the buffer. -/
structure Alloc where
  calloc_ok : Bool
  malloc : Option (Nat → node)

/-- The function `etschash_light_new_internal`; `none` is the NULL handle. -/
def etschash_light_new_internal (H : Sha3) (A : Alloc) (cache_size : Nat)
    (seed : etschash_h256_t) : Except Fault (Option etschash_light) :=
  if !A.calloc_ok then .ok none
  else
    match A.malloc with
    | none => .ok none
    | some junk => do
      let nodes := (List.range (cache_size / 64)).map junk
      let (ok, nodes) ← etschash_compute_cache_nodes H nodes cache_size seed
      if !ok then pure none
      else pure (some { cache := nodes, cache_size := cache_size, block_number := 0 })

/-- The function `etschash_light_new`. -/
def etschash_light_new (H : Sha3) (cache_sizes : Nat → Nat) (A : Alloc) (fuel : Nat)
    (block_number : Nat) : Except Fault (Option etschash_light) := do
  let seedhash ← etschash_get_seedhash H fuel block_number
  let cache_size ← etschash_get_cachesize cache_sizes block_number
  let ret ← etschash_light_new_internal H A cache_size seedhash
  match ret with
  | none => .error .null_dereference
  | some light => pure (some { light with block_number := block_number })

/-- The function `etschash_light_compute_internal`; `uninit` is the content of the
uninitialised local `ret`. -/
def etschash_light_compute_internal (H : Sha3) (uninit : etschash_return_value_t)
    (light : etschash_light) (full_size : Nat) (header_hash : etschash_h256_t)
    (nonce : Nat) : Except Fault etschash_return_value_t := do
  let ret := { uninit with success := true }
  let r ← etschash_hash H ret none light full_size header_hash nonce
  if !r.1 then pure { r.2 with success := false } else pure r.2

/-- The function `etschash_light_compute`. -/
def etschash_light_compute (H : Sha3) (dag_sizes : Nat → Nat)
    (uninit : etschash_return_value_t) (light : etschash_light)
    (header_hash : etschash_h256_t) (nonce : Nat) : Except Fault etschash_return_value_t := do
  let full_size ← etschash_get_datasize dag_sizes light.block_number
  etschash_light_compute_internal H uninit light full_size header_hash nonce

/-- The function `etschash_full_compute`. -/
def etschash_full_compute (H : Sha3) (uninit : etschash_return_value_t)
    (full : etschash_full) (light : etschash_light) (header_hash : etschash_h256_t)
    (nonce : Nat) : Except Fault etschash_return_value_t := do
  let ret := { uninit with success := true }
  let r ← etschash_hash H ret (some full.data) light full.file_size header_hash nonce
  if !r.1 then pure { r.2 with success := false } else pure r.2

/-! ## Values: the functions where no division traps

The definitions of this section are the functions above with `%` taken as the total
operation of `Nat`: they give the value a function returns when none of its divisors is
zero (lemmas `calculate_dag_item_eq_value`, `etschash_hash_eq_value`,
`compute_full_data_eq_value`), and they are what the proofs compute with. -/

/-- The value of `dag_item_round` for a node count that is not zero. -/
def dag_item_round_value (light : etschash_light) (node_index : Nat) (ret : node) (i : Nat) :
    node :=
  let parent_index :=
    fnv_hash (node_index ^^^ i) (ret.getD (i % NODE_WORDS) 0) % num_parent_nodes light
  let parent := light.cache.getD parent_index []
  fnv_words ret 0 parent

/-- The value of `etschash_calculate_dag_item` for a node count that is not zero. -/
def calculate_dag_item_value (H : Sha3) (node_index : Nat) (light : etschash_light) :
    node :=
  let init := light.cache.getD (node_index % num_parent_nodes light) []
  let ret := init
  let ret := ret.set 0 (ret.getD 0 0 ^^^ node_index)
  let ret := H.SHA3_512 (node_bytes ret)
  let ret :=
    (List.range ETSCHASH_DATASET_PARENTS).foldl (dag_item_round_value light node_index) ret
  H.SHA3_512 (node_bytes ret)

/-- The loop `compute_full_loop` with the values of the DAG items. -/
def compute_full_loop_value {σ : Type} (H : Sha3) (light : etschash_light)
    (callback : Option (σ → Nat → Int × σ)) (pct : Nat → Nat) (max_n : Nat) :
    Nat → Nat → full_state σ → Except Fault (Bool × full_state σ)
  | 0, _, _ => .error .out_of_fuel
  | fuel + 1, n, st =>
    if n = max_n then .ok (true, st)
    else do
      let (cancelled, st) ← progress_check callback pct max_n n st
      if cancelled then pure (false, st)
      else
        let nodes ← node_write st.full_nodes n (calculate_dag_item_value H n light)
        compute_full_loop_value H light callback pct max_n fuel (u32 (n + 1))
          { st with full_nodes := nodes, trace := st.trace ++ [Event.dag_item n] }

/-- The function `etschash_compute_full_data` with the values of the DAG items. -/
def compute_full_data_value {σ : Type} (H : Sha3) (mem : List node) (full_size : Nat)
    (light : etschash_light) (callback : Option (σ → Nat → Int × σ)) (pct : Nat → Nat)
    (cb0 : σ) : Except Fault (Bool × full_state σ) :=
  if full_size % (4 * MIX_WORDS) ≠ 0 ∨ full_size % 64 ≠ 0 then
    .ok (false, ⟨mem, cb0, []⟩)
  else
    compute_full_loop_value H light callback pct (u32 (full_size / 64)) 4294967296 0
      ⟨mem, cb0, []⟩

/-- The value of `hash_dag_node`. -/
def hash_dag_node_value (H : Sha3) (full_nodes : Option (List node)) (light : etschash_light)
    (index n : Nat) : node :=
  match full_nodes with
  | some nodes => nodes.getD (u32 (MIX_NODES * index + n)) []
  | none => calculate_dag_item_value H (u32 (index * MIX_NODES + n)) light

/-- The value of `hash_round` for a page count that is not zero. -/
def hash_round_value (H : Sha3) (full_nodes : Option (List node)) (light : etschash_light)
    (full_size : Nat) (s : node) (mix : List Nat) (i : Nat) : List Nat :=
  let index :=
    fnv_hash (s.getD 0 0 ^^^ i) (mix.getD (i % MIX_WORDS) 0) % num_full_pages full_size
  (List.range MIX_NODES).foldl
    (fun mix n =>
      fnv_words mix (NODE_WORDS * n) (hash_dag_node_value H full_nodes light index n)) mix

/-- The value of `hash_mix`. -/
def hash_mix_value (H : Sha3) (full_nodes : Option (List node)) (light : etschash_light)
    (full_size : Nat) (s : node) : List Nat :=
  let mix := (List.range MIX_WORDS).foldl
    (fun mix w => mix.set w (s.getD (w % NODE_WORDS) 0)) (List.replicate MIX_WORDS 0)
  (List.range ETSCHASH_ACCESSES).foldl (hash_round_value H full_nodes light full_size s) mix

/-- The value of `etschash_hash`: the returned flag and `*ret` afterwards. -/
def etschash_hash_value (H : Sha3) (ret : etschash_return_value_t)
    (full_nodes : Option (List node)) (light : etschash_light) (full_size : Nat)
    (header_hash : etschash_h256_t) (nonce : Nat) : Bool × etschash_return_value_t :=
  if full_size % MIX_WORDS ≠ 0 then (false, ret)
  else
    let s := fix_endian_arr32 (H.SHA3_512 (header_hash ++ le64 nonce))
    let mix := hash_mix_value H full_nodes light full_size s
    let mix := compress_mix mix
    let mix_hash := words_bytes (fix_endian_arr32 (mix.take (MIX_WORDS / 4)))
    (true, { ret with
      mix_hash := mix_hash
      result := H.SHA3_256 (node_bytes s ++ mix_hash) })

/-- The value of `etschash_light_compute_internal`. -/
def light_compute_internal_value (H : Sha3) (uninit : etschash_return_value_t)
    (light : etschash_light) (full_size : Nat) (header_hash : etschash_h256_t)
    (nonce : Nat) : etschash_return_value_t :=
  let ret := { uninit with success := true }
  let r := etschash_hash_value H ret none light full_size header_hash nonce
  if !r.1 then { r.2 with success := false } else r.2

/-- The value of `etschash_light_compute`, with the assertion of `etschash_get_datasize`. -/
def light_compute_value (H : Sha3) (dag_sizes : Nat → Nat)
    (uninit : etschash_return_value_t) (light : etschash_light)
    (header_hash : etschash_h256_t) (nonce : Nat) : Except Fault etschash_return_value_t := do
  let full_size ← etschash_get_datasize dag_sizes light.block_number
  pure (light_compute_internal_value H uninit light full_size header_hash nonce)

/-- The value of `etschash_full_compute`. -/
def full_compute_value (H : Sha3) (uninit : etschash_return_value_t)
    (full : etschash_full) (light : etschash_light) (header_hash : etschash_h256_t)
    (nonce : Nat) : etschash_return_value_t :=
  let ret := { uninit with success := true }
  let r := etschash_hash_value H ret (some full.data) light full.file_size header_hash nonce
  if !r.1 then { r.2 with success := false } else r.2

/-! ## Closed forms of the cache builder -/

/-- The contents of the cache after the first loop of `etschash_compute_cache_nodes`:
`SHA3_512(seed)` followed by the chain of its successive `SHA3_512` images. -/
def cache_chain (H : Sha3) (seed : etschash_h256_t) (N : Nat) : List node :=
  List.iterate (fun v => H.SHA3_512 (node_bytes v)) (H.SHA3_512 seed) N

/-- The index `(num_nodes - 1 + i) % num_nodes` as the code computes it, the sum being
taken in 32-bit arithmetic. -/
def cache_prev_index (N i : Nat) : Nat := u32 (N - 1 + i) % N

/-- The effect of one iteration of the inner loop of a round on the array, `prev` giving
the index of the node that is copied into `data`. -/
def cache_round_step (H : Sha3) (N : Nat) (prev : Nat → Nat) (nodes : List node) (i : Nat) :
    List node :=
  nodes.set i (H.SHA3_512 (node_bytes
    (xor_words (nodes.getD (prev i) []) (nodes.getD ((nodes.getD i []).getD 0 0 % N) []))))

/-- The effect of the `ETSCHASH_CACHE_ROUNDS` rounds on the array. -/
def cache_rounds (H : Sha3) (N : Nat) (prev : Nat → Nat) (nodes : List node) : List node :=
  (List.range ETSCHASH_CACHE_ROUNDS).foldl
    (fun nodes _ => (List.range N).foldl (cache_round_step H N prev) nodes) nodes

/-! ## Reference functions, written from the spec -/

/-- The DAG item of spec section 4.G, over a cache of `N_c` nodes, for node index `k`:
`mix <- cache[k mod N_c]`, `mix.word[0] <- mix.word[0] XOR k`, `mix <- Keccak-512(mix)`, then
for `i` in `0..255`: `p <- fnv(k XOR i, mix.word[i mod 16]) mod N_c` and every word `w` of
`mix` becomes `fnv(mix.word[w], cache[p].word[w])`; the result is `Keccak-512(mix)`. -/
def dag_item_ref (H : Sha3) (cache : List node) (N_c : Nat) (k : Nat) : node :=
  let mix := cache.getD (k % N_c) []
  let mix := mix.set 0 (mix.getD 0 0 ^^^ k)
  let mix := H.SHA3_512 (node_bytes mix)
  let mix := (List.range 256).foldl (fun mix i =>
    let p := fnv_hash (k ^^^ i) (mix.getD (i % 16) 0) % N_c
    (List.range 16).map (fun w => fnv_hash (mix.getD w 0) ((cache.getD p []).getD w 0))) mix
  H.SHA3_512 (node_bytes mix)

/-- The cache of spec section 4.F over `N_c` nodes: `node[0] <- Keccak-512(seed)`,
`node[i] <- Keccak-512(node[i-1])`, then three passes in which, for `i` in `0..N_c-1` in
order, `idx <- node[i].word[0] mod N_c`,
`data <- node[(i + N_c - 1) mod N_c] XOR node[idx]` and `node[i] <- Keccak-512(data)`, on the
array as the pass has left it so far. -/
def cache_ref (H : Sha3) (seed : etschash_h256_t) (N_c : Nat) : List node :=
  let nodes := List.iterate (fun v => H.SHA3_512 (node_bytes v)) (H.SHA3_512 seed) N_c
  (List.range 3).foldl (fun nodes _ =>
    (List.range N_c).foldl (fun nodes i =>
      let idx := (nodes.getD i []).getD 0 0 % N_c
      let data := List.zipWith (· ^^^ ·) (nodes.getD ((i + N_c - 1) % N_c) [])
        (nodes.getD idx [])
      nodes.set i (H.SHA3_512 (words_bytes data))) nodes) nodes

/-- The mix state of spec section 4.I after `n` rounds: `mix` starts as
`s.word[w mod 16]` for `w` in `0..31`; round `i` takes
`p <- fnv(s.word[0] XOR i, mix.word[i mod 32]) mod pages` and replaces word `16n + w` by
`fnv(mix.word[16n + w], node(p, n).word[w])`, `page_node p n` being node `n` of page `p`. -/
def hashimoto_rounds (page_node : Nat → Nat → node) (pages : Nat) (s : node) (n : Nat) :
    List Nat :=
  (List.range n).foldl (fun mix i =>
    let p := fnv_hash (s.getD 0 0 ^^^ i) (mix.getD (i % 32) 0) % pages
    (List.range 32).map
      (fun j => fnv_hash (mix.getD j 0) ((page_node p (j / 16)).getD (j % 16) 0)))
    ((List.range 32).map (fun w => s.getD (w % 16) 0))

/-- The 4-to-1 FNV compression of spec section 4.I, step 5: word `j` of the mix hash is
`fnv(fnv(fnv(mix[4j], mix[4j+1]), mix[4j+2]), mix[4j+3])`. -/
def compress_ref (mix : List Nat) : List Nat :=
  (List.range 8).map (fun j =>
    fnv_hash (fnv_hash (fnv_hash (mix.getD (4 * j) 0) (mix.getD (4 * j + 1) 0))
      (mix.getD (4 * j + 2) 0)) (mix.getD (4 * j + 3) 0))

/-- Hashimoto as spec section 4.I states it, over a DAG-node resolver `dag`: the pair
`(result, mix_hash)`.  `s = Keccak-512(header | nonce as 8 little-endian bytes)`, 64 rounds
over `pages = dataset_size / 128` pages reading the nodes `dag (2p + n)`, the compression,
and `result = Keccak-256(s | mix_hash)`. -/
def hashimoto_ref (H : Sha3) (dag : Nat → node) (dataset_size : Nat)
    (header_hash : etschash_h256_t) (nonce : Nat) : etschash_h256_t × etschash_h256_t :=
  let s := H.SHA3_512 (header_hash ++ le64 nonce)
  let mix := hashimoto_rounds (fun p n => dag (2 * p + n)) (dataset_size / 128) s 64
  let mix_hash := words_bytes (compress_ref mix)
  (H.SHA3_256 (node_bytes s ++ mix_hash), mix_hash)

/-- The DAG-node resolver `etschash_hash` works with: the region when `full_nodes` is not
NULL, otherwise the node `etschash_calculate_dag_item` yields on the light client. -/
def hash_resolver (H : Sha3) (full_nodes : Option (List node)) (light : etschash_light)
    (k : Nat) : node :=
  match full_nodes with
  | some nodes => nodes.getD k []
  | none => calculate_dag_item_value H k light

/-! ## Concrete inputs -/

/-- A stand-in for Keccak whose `SHA3_512` exposes one byte of its input: the digest is zero
except for its last word, which is byte 60 of the input when that is not zero and byte 56
plus one otherwise. -/
def probe : Sha3 where
  SHA3_256 := fun data => data
  SHA3_512 := fun data =>
    List.replicate 15 0 ++ [if data.getD 60 0 ≠ 0 then data.getD 60 0 else data.getD 56 0 + 1]

/-- A light client whose cache has `2^32 + 1` nodes: all zero, except that word 14 of node 1
is 1. -/
def light_big : etschash_light where
  cache := [0, 0, 0, 0, 0, 0, 0, 0, 0, 0, 0, 0, 0, 0, 0, 0] ::
    [0, 0, 0, 0, 0, 0, 0, 0, 0, 0, 0, 0, 0, 0, 1, 0] ::
    List.replicate 4294967295 [0, 0, 0, 0, 0, 0, 0, 0, 0, 0, 0, 0, 0, 0, 0, 0]
  cache_size := 64 * 4294967297
  block_number := 0

/-- A light client whose cache has `2^32` nodes, all zero: the node count
`(uint32_t)(cache_size / sizeof(node))` is 0. -/
def light_wrap : etschash_light where
  cache := List.replicate 4294967296 [0, 0, 0, 0, 0, 0, 0, 0, 0, 0, 0, 0, 0, 0, 0, 0]
  cache_size := 64 * 4294967296
  block_number := 0

/-- A stand-in for Keccak whose `SHA3_512` is the zero node and whose `SHA3_256` returns its
input. -/
def null_hash : Sha3 where
  SHA3_256 := fun data => data
  SHA3_512 := fun _ => [0, 0, 0, 0, 0, 0, 0, 0, 0, 0, 0, 0, 0, 0, 0, 0]

/-- A DAG region of `2 * (2^32 + 1)` nodes, that is `128 * (2^32 + 1)` bytes: nodes 0 and 1
have word 0 equal to 64, every other word of the region is 0. -/
def dag_big : List node :=
  [64, 0, 0, 0, 0, 0, 0, 0, 0, 0, 0, 0, 0, 0, 0, 0] ::
  [64, 0, 0, 0, 0, 0, 0, 0, 0, 0, 0, 0, 0, 0, 0, 0] ::
  List.replicate 8589934592 [0, 0, 0, 0, 0, 0, 0, 0, 0, 0, 0, 0, 0, 0, 0, 0]

/-- Word 0 of the mix after `i` rounds over `dag_big` when every round reads page 0. -/
def page0_word (i : Nat) : Nat := (fun x => fnv_hash x 64)^[i] 0

/-- Word 0 of the mix after `i` rounds over `dag_big` when only round 0 reads page 0. -/
def spread_word : Nat → Nat
  | 0 => 0
  | i + 1 => if i = 0 then fnv_hash (spread_word i) 64 else fnv_hash (spread_word i) 0

/-- One of the two digests of `flip_hash`. -/
def flip_P : node := [0, 2, 0, 0, 0, 0, 0, 0, 0, 0, 0, 0, 0, 0, 0, 0]

/-- The other digest of `flip_hash`. -/
def flip_Q : node := [0, 1, 0, 0, 0, 0, 0, 0, 0, 0, 0, 0, 0, 0, 0, 0]

/-- A stand-in for Keccak whose `SHA3_512` tells a zero input from a non-zero one: the digest
is `flip_Q` for an input of zero bytes only and `flip_P` otherwise. -/
def flip_hash : Sha3 where
  SHA3_256 := fun data => data
  SHA3_512 := fun data => if data.sum = 0 then flip_Q else flip_P

/-- The digest of the XOR of two digests of `flip_hash`. -/
def flip_xor (a b : node) : node := if a = b then flip_Q else flip_P

/-- The node that a round over digests of `flip_hash` leaves at index `i`, `1 <= i`, while
the node before `i` is the one copied: `a` is the new node 0. -/
def flip_pattern (a : node) (i : Nat) : node :=
  if a = flip_P ∧ i % 2 = 0 then flip_P else flip_Q

/-- A light client with a cache of one node. -/
def light_one : etschash_light where
  cache := [[1, 2, 3, 4, 5, 6, 7, 8, 9, 10, 11, 12, 13, 14, 15, 16]]
  cache_size := 64
  block_number := 0

/-- An allocator that succeeds and hands out zeroed memory. -/
def alloc_zero : Alloc where
  calloc_ok := true
  malloc := some (fun _ => [])

/-- An allocator that succeeds and hands out memory with arbitrary contents. -/
def alloc_junk : Alloc where
  calloc_ok := true
  malloc := some (fun k => [k, 7])

/-- A callback that counts its calls and never cancels. -/
def never_cancel (calls : Nat) (_pct : Nat) : Int × Nat :=
  (0, calls + 1)

/-- A progress callback with a counter as its state: it returns 1 on its third call. -/
def cancel_third (calls : Nat) (_pct : Nat) : Int × Nat :=
  (if calls = 2 then 1 else 0, calls + 1)

/-- A small stand-in for Keccak used to run the definitions on concrete inputs. -/
def toy : Sha3 where
  SHA3_256 := fun data => (List.range 32).map (fun k => (data.sum + 7 * k + 1) % 256)
  SHA3_512 := fun data => (List.range 16).map (fun k => (data.sum * 2654435761 + k) % 4294967296)

/-! ## Quick hash as the spec writes it -/

/-- The quick hash as spec section 4.L writes it:
`Keccak-256(header32 | Keccak-512(header32 | nonce_le8)[0..64] | mix_hash32)`. -/
def quick_hash_ref (H : Sha3) (header_hash : etschash_h256_t) (nonce : Nat)
    (mix_hash : etschash_h256_t) : etschash_h256_t :=
  H.SHA3_256 (header_hash ++ node_bytes (H.SHA3_512 (header_hash ++ le64 nonce)) ++ mix_hash)

/-! ## Full client construction (`etschash_full_new_internal`) -/

/-- Modelled from the spec: `io.h` is not among the sources; the four answers of the
collaborator `etschash_io_prepare` (spec sections 4.K and 6), under the names the code uses. -/
inductive etschash_io_rc
  | ETSCHASH_IO_FAIL
  | ETSCHASH_IO_MEMO_SIZE_MISMATCH
  | ETSCHASH_IO_MEMO_MISMATCH
  | ETSCHASH_IO_MEMO_MATCH
  deriving DecidableEq, Repr

/-- The collaborators of `etschash_full_new_internal`, as the answers they give: whether
`calloc` succeeds; the answer of `etschash_io_prepare` for each value of its `force` flag
together with the file it stores in `f` (a number stands for the `FILE*`); the answer of
`etschash_mmap` on a file (`none` when it returns false, otherwise the contents of the mapped
region from byte 8 on); whether `fseek`, `fwrite` and `fflush` succeed. -/
structure Collab where
  calloc_ok : Bool
  io_prepare : Bool → etschash_io_rc × Nat
  mmap : Nat → Option (List node)
  fseek_ok : Bool
  fwrite_ok : Bool
  fflush_ok : Bool

/-- The calls `etschash_full_new_internal` makes, in order.  `compute_full_data ok` is a call
of `etschash_compute_full_data` that returned `ok`; `fwrite_magic` is the `fwrite` of the
8-byte magic number. -/
inductive Action
  | calloc
  | io_prepare (force : Bool)
  | mmap (file : Nat)
  | compute_full_data (ok : Bool)
  | fseek (file : Nat)
  | fwrite_magic (file : Nat)
  | fflush (file : Nat)
  | munmap
  | fclose (file : Nat)
  | free
  deriving DecidableEq, Repr

/-- An execution of `etschash_full_new_internal`: the calls made and the returned handle
(`none` is NULL), or the trap that ended the execution. -/
structure full_new_run where
  trace : List Action
  ret : Except Fault (Option etschash_full)

/-- The exit path from the label `fail_free_full_data`. -/
def fail_free_full_data (f : Nat) (trace : List Action) : full_new_run :=
  ⟨trace ++ [Action.munmap, Action.fclose f, Action.free], .ok none⟩

/-- The exit path from the label `fail_close_file`. -/
def fail_close_file (f : Nat) (trace : List Action) : full_new_run :=
  ⟨trace ++ [Action.fclose f, Action.free], .ok none⟩

/-- The exit path from the label `fail_free_full`. -/
def fail_free_full (trace : List Action) : full_new_run :=
  ⟨trace ++ [Action.free], .ok none⟩

/-- The part of `etschash_full_new_internal` after the `switch`: materialisation of the DAG
into the mapped region `data`, then `fseek`, the `fwrite` of the magic number and `fflush`. -/
def full_new_finish {σ : Type} (H : Sha3) (E : Collab) (f : Nat) (data : List node)
    (full_size : Nat) (light : etschash_light) (callback : Option (σ → Nat → Int × σ))
    (pct : Nat → Nat) (cb0 : σ) (trace : List Action) : full_new_run :=
  match etschash_compute_full_data H data full_size light callback pct cb0 with
  | .error e => ⟨trace, .error e⟩
  | .ok (false, _) => fail_free_full_data f (trace ++ [Action.compute_full_data false])
  | .ok (true, st) =>
    let trace := trace ++ [Action.compute_full_data true, Action.fseek f]
    if !E.fseek_ok then fail_free_full_data f trace
    else
      let trace := trace ++ [Action.fwrite_magic f]
      if !E.fwrite_ok then fail_free_full_data f trace
      else
        let trace := trace ++ [Action.fflush f]
        if !E.fflush_ok then fail_free_full_data f trace
        else ⟨trace, .ok (some { file_size := full_size, data := st.full_nodes })⟩

/-- The `case ETSCHASH_IO_MEMO_MISMATCH` of the `switch` and what follows it. -/
def full_new_mismatch {σ : Type} (H : Sha3) (E : Collab) (f : Nat) (full_size : Nat)
    (light : etschash_light) (callback : Option (σ → Nat → Int × σ)) (pct : Nat → Nat)
    (cb0 : σ) (trace : List Action) : full_new_run :=
  match E.mmap f with
  | none => fail_close_file f (trace ++ [Action.mmap f])
  | some data =>
    full_new_finish H E f data full_size light callback pct cb0 (trace ++ [Action.mmap f])

/-- The function `etschash_full_new_internal`.  `dirname` and `seed_hash` only reach
`etschash_io_prepare`, whose answers are in `E`. -/
def etschash_full_new_internal {σ : Type} (H : Sha3) (E : Collab) (full_size : Nat)
    (light : etschash_light) (callback : Option (σ → Nat → Int × σ)) (pct : Nat → Nat)
    (cb0 : σ) : full_new_run :=
  if !E.calloc_ok then ⟨[Action.calloc], .ok none⟩
  else
    let trace := [Action.calloc, Action.io_prepare false]
    match E.io_prepare false with
    | (.ETSCHASH_IO_FAIL, _) => fail_free_full trace
    | (.ETSCHASH_IO_MEMO_MATCH, f) =>
      match E.mmap f with
      | none => fail_close_file f (trace ++ [Action.mmap f])
      | some data =>
        ⟨trace ++ [Action.mmap f], .ok (some { file_size := full_size, data := data })⟩
    | (.ETSCHASH_IO_MEMO_SIZE_MISMATCH, _) =>
      let trace := trace ++ [Action.io_prepare true]
      match E.io_prepare true with
      | (.ETSCHASH_IO_MEMO_MISMATCH, f) =>
        full_new_mismatch H E f full_size light callback pct cb0 trace
      | _ => fail_free_full trace
    | (.ETSCHASH_IO_MEMO_MISMATCH, f) =>
      full_new_mismatch H E f full_size light callback pct cb0 trace

/-! ## Big-endian host -/

/-- Modelled from the spec: `endian.h` is not among the sources; the byte swap of a 32-bit
word, which `fix_endian32` and `fix_endian_arr32` apply on a big-endian host (spec
section 4.C). -/
def etschash_swap_u32 (w : Nat) : Nat :=
  w % 256 * 16777216 + w / 256 % 256 * 65536 + w / 65536 % 256 * 256 + w / 16777216 % 256

/-- Modelled from the spec: `endian.h` is not among the sources; the byte swap of a 64-bit
word, which `fix_endian64` applies on a big-endian host (spec section 4.C). -/
def etschash_swap_u64 (x : Nat) : Nat :=
  ((List.range 8).map (fun k => x / 256 ^ k % 256 * 256 ^ (7 - k))).sum

/-- Modelled from the spec: `endian.h` is not among the sources; on a big-endian host
`fix_endian_arr32` byte-swaps each word of the array in place (spec section 4.C). -/
def fix_endian_arr32_be (words : List Nat) : List Nat := words.map etschash_swap_u32

/-- The four bytes of a 32-bit word as a big-endian host stores it, most significant first. -/
def be32 (w : Nat) : List Nat :=
  [w / 16777216 % 256, w / 65536 % 256, w / 256 % 256, w % 256]

/-- The eight bytes of a 64-bit word as a big-endian host stores it. -/
def be64 (x : Nat) : List Nat :=
  (List.range 8).map (fun k => x / 256 ^ (7 - k) % 256)

/-- The byte image of an array of 32-bit words on a big-endian host. -/
def words_bytes_be (ws : List Nat) : List Nat := ws.flatMap be32

/-- The `words` view, on a big-endian host, of a node whose 64 `bytes` are given. -/
def node_words_be (bytes : List Nat) : List Nat :=
  (List.range NODE_WORDS).map (fun w =>
    bytes.getD (4 * w) 0 * 16777216 + bytes.getD (4 * w + 1) 0 * 65536 +
      bytes.getD (4 * w + 2) 0 * 256 + bytes.getD (4 * w + 3) 0)

/-- The function `etschash_hash` on a big-endian host, for `full_nodes` not NULL.  Memory
holds bytes; `H.SHA3_512 data` is the digest as a little-endian host reads it, so the bytes
Keccak writes are `node_bytes (H.SHA3_512 data)`.  The final `SHA3_256` reads the 96 bytes of
`s_mix`: the words of `s_mix[0]` as this host stores them, then the eight words of the
compressed mix. -/
def etschash_hash_be (H : Sha3) (ret : etschash_return_value_t) (full_nodes : List node)
    (light : etschash_light) (full_size : Nat) (header_hash : etschash_h256_t)
    (nonce : Nat) : Except Fault (Bool × etschash_return_value_t) :=
  if full_size % MIX_WORDS ≠ 0 then .ok (false, ret)
  else do
    let buf := header_hash ++ be64 (etschash_swap_u64 nonce)
    let s := node_words_be (node_bytes (H.SHA3_512 buf))
    let s := fix_endian_arr32_be s
    let mix ← hash_mix H (some full_nodes) light full_size s
    let mix := compress_mix mix
    let mix := fix_endian_arr32_be (mix.take (MIX_WORDS / 4))
    let mix_hash := words_bytes_be mix
    pure (true, { ret with
      mix_hash := mix_hash
      result := H.SHA3_256 (words_bytes_be s ++ mix_hash) })

/-- The value of `etschash_hash_be` for a page count that is not zero. -/
def etschash_hash_be_value (H : Sha3) (ret : etschash_return_value_t) (full_nodes : List node)
    (light : etschash_light) (full_size : Nat) (header_hash : etschash_h256_t)
    (nonce : Nat) : Bool × etschash_return_value_t :=
  if full_size % MIX_WORDS ≠ 0 then (false, ret)
  else
    let buf := header_hash ++ be64 (etschash_swap_u64 nonce)
    let s := node_words_be (node_bytes (H.SHA3_512 buf))
    let s := fix_endian_arr32_be s
    let mix := hash_mix_value H (some full_nodes) light full_size s
    let mix := compress_mix mix
    let mix := fix_endian_arr32_be (mix.take (MIX_WORDS / 4))
    let mix_hash := words_bytes_be mix
    (true, { ret with
      mix_hash := mix_hash
      result := H.SHA3_256 (words_bytes_be s ++ mix_hash) })

/-! ## The progress callback: its calls in order -/

/-- The state of the callback before iteration `n` of `etschash_compute_full_data` when no
earlier call has cancelled: the callback is called at the indices that are multiples of
`step`, in order, each call starting from the state the previous one left. -/
def callback_state {σ : Type} (cb : σ → Nat → Int × σ) (pct : Nat → Nat) (step : Nat)
    (cb0 : σ) : Nat → σ
  | 0 => cb0
  | n + 1 =>
    if n % step = 0 then (cb (callback_state cb pct step cb0 n) (pct n)).2
    else callback_state cb pct step cb0 n

/-- The value the callback returns when it is called at index `n`. -/
def callback_ret {σ : Type} (cb : σ → Nat → Int × σ) (pct : Nat → Nat) (step : Nat)
    (cb0 : σ) (n : Nat) : Int :=
  (cb (callback_state cb pct step cb0 n) (pct n)).1

/-- The events of the iterations `0 .. m - 1` when no call cancels: at each multiple of
`step` a call of the callback that returns 0, then the DAG item of the index. -/
def progress_trace (pct : Nat → Nat) (step : Nat) (m : Nat) : List Event :=
  (List.range m).flatMap (fun n =>
    (if n % step = 0 then [Event.callback n (pct n) 0] else []) ++ [Event.dag_item n])

/-! ## The seed-hash loop with its iterations counted -/

/-- The loop of `etschash_get_seedhash` as in `seedhash_loop`, with the number `count` of
executions of its body `SHA3_256(&ret, (uint8_t*)&ret, 32)` carried along: the result is
`ret` and that number when the test `i < epochs` fails. -/
def seedhash_loop_count (H : Sha3) (epochs : Nat) :
    Nat → Nat → etschash_h256_t → Nat → Except Fault (etschash_h256_t × Nat)
  | 0, _, _, _ => .error .out_of_fuel
  | fuel + 1, i, ret, count =>
    if i < epochs then
      seedhash_loop_count H epochs fuel (u32 (i + 1)) (H.SHA3_256 ret) (count + 1)
    else .ok (ret, count)

/-! ## More concrete inputs -/

/-- Collaborators that all succeed; `etschash_io_prepare` answers `rc` to the call without
`force` and `ETSCHASH_IO_MEMO_MISMATCH` to the forced one, the mapped region has two nodes. -/
def collab_ok (rc : etschash_io_rc) : Collab where
  calloc_ok := true
  io_prepare := fun force => if force then (.ETSCHASH_IO_MEMO_MISMATCH, 2) else (rc, 1)
  mmap := fun _ => some [[], []]
  fseek_ok := true
  fwrite_ok := true
  fflush_ok := true

theorem node_write_ok (nodes : List node) (i : Nat) (v : node) (h : i < nodes.length) :
    node_write nodes i v = .ok (nodes.set i v) := by
  simp [node_write, h]

theorem node_read_ok (nodes : List node) (i : Nat) (h : i < nodes.length) :
    node_read nodes i = .ok (nodes.getD i []) := by
  simp [node_read, List.getElem?_eq_getElem h, List.getD_eq_getElem?_getD]

theorem u32_of_lt {x : Nat} (h : x < 4294967296) : u32 x = x := by
  unfold u32; omega

/-- Without a callback the loop from `n` stores the DAG items `n .. max_n - 1`, in order,
and nothing else. -/
theorem compute_full_loop_none (H : Sha3) (light : etschash_light) (pct : Nat → Nat)
    (max_n : Nat) (hmax : max_n < 4294967296) :
    ∀ (fuel n : Nat) (st : full_state Unit), n ≤ max_n → max_n - n < fuel →
      max_n ≤ st.full_nodes.length →
      ∃ st', compute_full_loop_value H light none pct max_n fuel n st = .ok (true, st') ∧
        st'.trace = st.trace ++ (List.range' n (max_n - n)).map Event.dag_item ∧
        st'.full_nodes.length = st.full_nodes.length ∧
        (∀ k, n ≤ k → k < max_n →
          st'.full_nodes[k]? = some (calculate_dag_item_value H k light)) ∧
        (∀ k, k < n ∨ max_n ≤ k → st'.full_nodes[k]? = st.full_nodes[k]?) := by
  intro fuel
  induction fuel with
  | zero => intro n st _ h; omega
  | succ fuel ih =>
    intro n st hn hf hlen
    by_cases hnm : n = max_n
    · subst hnm
      refine ⟨st, ?_, ?_, rfl, ?_, ?_⟩
      · simp [compute_full_loop_value]
      · simp
      · intro k h1 h2; omega
      · intro k _; rfl
    · have hlt : n < max_n := by omega
      have hw := node_write_ok st.full_nodes n (calculate_dag_item_value H n light) (by omega)
      obtain ⟨st', h1, h2, h3, h4, h5⟩ := ih (n + 1)
        { st with full_nodes := st.full_nodes.set n (calculate_dag_item_value H n light),
                  trace := st.trace ++ [Event.dag_item n] }
        (by omega) (by omega) (by simpa using hlen)
      refine ⟨st', ?_, ?_, ?_, ?_, ?_⟩
      · rw [compute_full_loop_value]
        simp only [hnm, if_false, progress_check, bind, Except.bind, hw, pure, Except.pure]
        rw [u32_of_lt (by omega)]
        simpa using h1
      · rw [h2]
        have : max_n - n = (max_n - (n + 1)) + 1 := by omega
        rw [this, List.range'_succ]
        simp
      · simpa using h3
      · intro k hk1 hk2
        by_cases hkn : k = n
        · subst hkn
          rw [h5 k (Or.inl (by omega))]
          simp [List.getElem?_set, hw]; omega
        · exact h4 k (by omega) hk2
      · intro k hk
        rw [h5 k (by omega)]
        simp only [List.getElem?_set]
        have : n ≠ k := by omega
        simp [this]

theorem compute_full_data_none_ok (H : Sha3) (light : etschash_light) (mem : List node)
    (full_size : Nat) (pct : Nat → Nat) (h64 : full_size % 64 = 0) (h128 : full_size % 128 = 0)
    (hNd : full_size / 64 < 4294967296) (hlen : full_size / 64 ≤ mem.length) :
    ∃ st, compute_full_data_value H mem full_size light
        (none : Option (Unit → Nat → Int × Unit)) pct () = .ok (true, st) ∧
      st.trace = (List.range (full_size / 64)).map Event.dag_item ∧
      st.full_nodes = (List.range (full_size / 64)).map
        (fun k => calculate_dag_item_value H k light) ++ mem.drop (full_size / 64) := by
  obtain ⟨st, h1, h2, h3, h4, h5⟩ := compute_full_loop_none H light pct (full_size / 64) hNd
    4294967296 0 ⟨mem, (), []⟩ (Nat.zero_le _) (by omega) hlen
  refine ⟨st, ?_, ?_, ?_⟩
  · unfold compute_full_data_value
    have : ¬ (full_size % (4 * MIX_WORDS) ≠ 0 ∨ full_size % 64 ≠ 0) := by
      simp [MIX_WORDS, h64, h128]
    rw [if_neg this, u32_of_lt hNd]
    exact h1
  · simpa [List.range_eq_range'] using h2
  · apply List.ext_getElem?
    intro k
    by_cases hk : k < full_size / 64
    · rw [h4 k (Nat.zero_le _) hk, List.getElem?_append_left (by simpa using hk)]
      simp [hk]
    · rw [h5 k (Or.inr (by omega)), List.getElem?_append_right (by simp; omega)]
      simp
      congr 1
      omega

/-- Inside the filled region the stored node is the one the light path computes. -/
theorem hash_dag_node_filled (H : Sha3) (light : etschash_light) (mem : List node)
    (N index n : Nat) (hN : N < 4294967296) (h : 2 * index + n < N) :
    hash_dag_node_value H (some ((List.range N).map
        (fun k => calculate_dag_item_value H k light) ++ mem)) light index n =
      hash_dag_node_value H none light index n := by
  have e1 : u32 (MIX_NODES * index + n) = 2 * index + n := by
    rw [MIX_NODES]; exact u32_of_lt (by omega)
  have e2 : u32 (index * MIX_NODES + n) = 2 * index + n := by
    rw [MIX_NODES, Nat.mul_comm]; exact u32_of_lt (by omega)
  simp only [hash_dag_node_value, e1, e2, List.getD_eq_getElem?_getD]
  rw [List.getElem?_append_left (by simpa using h)]
  simp [h]

/-- On the values. Light/Full equivalence: for a light client with `N_c >= 1` cache nodes and a
dataset size that is a positive multiple of 128 with `dataset_size / 64 < 2^32`,
`compute_full_data_value` without a callback fills the region, and `etschash_hash_value`
reading that region returns the same flag, result and mix hash as `etschash_hash_value` with
`full_nodes = NULL`, for every header hash and nonce. -/
theorem value_light_full_equiv (H : Sha3) (light : etschash_light) (mem : List node)
    (full_size : Nat) (pct : Nat → Nat) (ret : etschash_return_value_t)
    (header_hash : etschash_h256_t) (nonce : Nat)
    (_hNc : 1 ≤ light.cache_size / 64)
    (hpos : 0 < full_size) (h128 : full_size % 128 = 0)
    (hNd : full_size / 64 < 4294967296) (hlen : full_size / 64 ≤ mem.length) :
    ∃ st, compute_full_data_value H mem full_size light
        (none : Option (Unit → Nat → Int × Unit)) pct () = .ok (true, st) ∧
      etschash_hash_value H ret (some st.full_nodes) light full_size header_hash nonce =
        etschash_hash_value H ret none light full_size header_hash nonce := by
  obtain ⟨st, h1, _, h3⟩ := compute_full_data_none_ok H light mem full_size pct
    (by omega) h128 hNd hlen
  refine ⟨st, h1, ?_⟩
  have hpages : num_full_pages full_size = full_size / 128 := by
    unfold num_full_pages; rw [MIX_WORDS]
    exact u32_of_lt (by omega)
  have hround : ∀ s mix i,
      hash_round_value H (some st.full_nodes) light full_size s mix i =
        hash_round_value H none light full_size s mix i := by
    intro s mix i
    unfold hash_round_value
    apply List.foldl_ext
    intro a n hn
    have hn2 : n < 2 := by simpa [MIX_NODES] using hn
    have hidx : ∀ x, x % num_full_pages full_size < full_size / 128 := by
      intro x; rw [hpages]; exact Nat.mod_lt _ (by omega)
    rw [h3, hash_dag_node_filled H light _ _ _ n hNd (by have := hidx (fnv_hash (s.getD 0 0 ^^^ i) (mix.getD (i % MIX_WORDS) 0)); omega)]
  have hmix : ∀ s, hash_mix_value H (some st.full_nodes) light full_size s =
      hash_mix_value H none light full_size s := by
    intro s
    unfold hash_mix_value
    apply List.foldl_ext
    intro a i _
    exact hround s a i
  unfold etschash_hash_value
  simp only [hmix]

/-- The successful branch of `etschash_hash_value`. -/
theorem etschash_hash_ok (H : Sha3) (ret : etschash_return_value_t)
    (full_nodes : Option (List node)) (light : etschash_light) (full_size : Nat)
    (header_hash : etschash_h256_t) (nonce : Nat) (h : full_size % MIX_WORDS = 0) :
    etschash_hash_value H ret full_nodes light full_size header_hash nonce =
      (true, { ret with
        mix_hash := words_bytes ((compress_mix (hash_mix_value H full_nodes light full_size
          (H.SHA3_512 (header_hash ++ le64 nonce)))).take (MIX_WORDS / 4))
        result := H.SHA3_256 (node_bytes (H.SHA3_512 (header_hash ++ le64 nonce)) ++
          words_bytes ((compress_mix (hash_mix_value H full_nodes light full_size
            (H.SHA3_512 (header_hash ++ le64 nonce)))).take (MIX_WORDS / 4))) }) := by
  unfold etschash_hash_value
  rw [if_neg (by simp [h])]
  simp only [fix_endian_arr32]

/-- The failing branch of `etschash_hash_value`. -/
theorem etschash_hash_fail (H : Sha3) (ret : etschash_return_value_t)
    (full_nodes : Option (List node)) (light : etschash_light) (full_size : Nat)
    (header_hash : etschash_h256_t) (nonce : Nat) (h : full_size % MIX_WORDS ≠ 0) :
    etschash_hash_value H ret full_nodes light full_size header_hash nonce = (false, ret) := by
  unfold etschash_hash_value
  rw [if_pos h]

/-- While the 32-bit counter can reach `epochs`, the seed-hash loop applies `SHA3_256`
once per remaining epoch and returns. -/
theorem seedhash_loop_ok (H : Sha3) (epochs : Nat) (he : epochs < 4294967296) :
    ∀ (fuel i : Nat) (ret : etschash_h256_t), i ≤ epochs → epochs - i < fuel →
      seedhash_loop H epochs fuel i ret = .ok (H.SHA3_256^[epochs - i] ret) := by
  intro fuel
  induction fuel with
  | zero => intro i ret _ h; omega
  | succ fuel ih =>
    intro i ret hi hf
    rw [seedhash_loop]
    by_cases hlt : i < epochs
    · rw [if_pos hlt, u32_of_lt (by omega), ih (i + 1) _ (by omega) (by omega)]
      have : epochs - i = (epochs - (i + 1)) + 1 := by omega
      rw [this, Function.iterate_succ_apply]
    · rw [if_neg hlt]
      have : epochs - i = 0 := by omega
      rw [this, Function.iterate_zero_apply]

/-- With `epochs >= 2^32` the wrapping 32-bit counter stays below `epochs`: the loop never
leaves, whatever the fuel. -/
theorem seedhash_loop_diverges (H : Sha3) (epochs : Nat) (he : 4294967296 ≤ epochs) :
    ∀ (fuel i : Nat) (ret : etschash_h256_t), i < 4294967296 →
      seedhash_loop H epochs fuel i ret = .error .out_of_fuel := by
  intro fuel
  induction fuel with
  | zero => intro i ret _; rfl
  | succ fuel ih =>
    intro i ret hi
    rw [seedhash_loop, if_pos (by omega)]
    exact ih _ _ (by unfold u32; omega)

/-- For a block number below `30000 * 2^32` and enough fuel, `etschash_get_seedhash` returns
`SHA3_256` applied `block_number / 30000` times to the zero digest. -/
theorem get_seedhash_ok (H : Sha3) (fuel block_number : Nat)
    (hb : block_number / 30000 < 4294967296) (hf : block_number / 30000 < fuel) :
    etschash_get_seedhash H fuel block_number =
      .ok (H.SHA3_256^[block_number / 30000] (List.replicate 32 0)) := by
  unfold etschash_get_seedhash
  rw [ETSCHASH_EPOCH_LENGTH, seedhash_loop_ok H _ hb fuel 0 _ (Nat.zero_le _) (by omega),
    Nat.sub_zero]
  rfl

/-- C3 (failing input). At `block_number = 30000 * 2^32`, a 64-bit value, the loop of
`etschash_get_seedhash` compares a wrapping 32-bit counter with `epochs = 2^32` and never
ends: no amount of fuel yields a seed hash. -/
theorem get_seedhash_diverges (H : Sha3) (fuel : Nat) :
    128849018880000 < 2 ^ 64 ∧
    etschash_get_seedhash H fuel 128849018880000 = .error .out_of_fuel := by
  refine ⟨by norm_num, ?_⟩
  unfold etschash_get_seedhash
  exact seedhash_loop_diverges H _ (by norm_num [ETSCHASH_EPOCH_LENGTH]) fuel 0 _ (by norm_num)

/-! ## The cache builder -/

/-- Invariant rule for `for_ne`: a body that succeeds and re-establishes the invariant at
every index below `stop` makes the loop succeed with the invariant at `stop`. -/
theorem for_ne_inv {σ : Type} (body : Nat → σ → Except Fault σ) (stop : Nat)
    (Inv : Nat → σ → Prop) (hstop : stop < 4294967296)
    (hstep : ∀ i s, i < stop → Inv i s → ∃ s', body i s = .ok s' ∧ Inv (i + 1) s') :
    ∀ (fuel i : Nat) (s : σ), i ≤ stop → stop - i < fuel → Inv i s →
      ∃ s', for_ne body stop fuel i s = .ok s' ∧ Inv stop s' := by
  intro fuel
  induction fuel with
  | zero => intro i s _ h; omega
  | succ fuel ih =>
    intro i s hi hf hinv
    rw [for_ne]
    by_cases his : i = stop
    · subst his
      exact ⟨s, by simp, hinv⟩
    · obtain ⟨s1, hb, hinv1⟩ := hstep i s (by omega) hinv
      obtain ⟨s2, hl, hinv2⟩ := ih (i + 1) s1 (by omega) (by omega) hinv1
      refine ⟨s2, ?_, hinv2⟩
      rw [if_neg his, hb, u32_of_lt (by omega)]
      exact hl

/-- The first loop builds the hash chain, whatever the buffer held before. -/
theorem cache_chain_loop (H : Sha3) (seed : etschash_h256_t) (N : Nat) (nodes : List node)
    (hN1 : 1 ≤ N) (hN : N < 4294967296) (hlen : nodes.length = N) :
    for_ne (cache_chain_body H) N 4294967296 1 (nodes.set 0 (H.SHA3_512 seed)) =
      .ok (cache_chain H seed N) := by
  obtain ⟨s', h1, _, h2, h3⟩ := for_ne_inv (cache_chain_body H) N
    (fun i s => 1 ≤ i ∧ s.length = N ∧
      ∀ j, j < i → s[j]? = some ((fun v => H.SHA3_512 (node_bytes v))^[j] (H.SHA3_512 seed)))
    hN
    (by
      intro i s hi ⟨h1, h2, h3⟩
      refine ⟨s.set i (H.SHA3_512 (node_bytes
        ((fun v => H.SHA3_512 (node_bytes v))^[i - 1] (H.SHA3_512 seed)))), ?_, by omega,
        by simpa using h2, ?_⟩
      · have hr : node_read s (i - 1) =
            .ok ((fun v => H.SHA3_512 (node_bytes v))^[i - 1] (H.SHA3_512 seed)) := by
          simp [node_read, h3 (i - 1) (by omega)]
        simp only [cache_chain_body, hr, bind, Except.bind]
        exact node_write_ok _ _ _ (by omega)
      · intro j hj
        by_cases hji : j = i
        · subst hji
          have : j = (j - 1) + 1 := by omega
          rw [List.getElem?_set_self (by omega)]
          conv_rhs => rw [this, Function.iterate_succ_apply']
        · rw [List.getElem?_set_ne (by omega)]
          exact h3 j (by omega))
    4294967296 1 (nodes.set 0 (H.SHA3_512 seed)) hN1 (by omega)
    ⟨le_refl _, by simpa using hlen, by
      intro j hj
      have : j = 0 := by omega
      subst this
      rw [List.getElem?_set_self (by omega)]
      rfl⟩
  rw [h1]
  congr 1
  apply List.ext_getElem?
  intro j
  by_cases hj : j < N
  · rw [h3 j hj, cache_chain, List.getElem?_iterate _ _ _ _ hj]
  · rw [List.getElem?_eq_none (by omega), List.getElem?_eq_none (by simp [cache_chain]; omega)]

theorem cache_round_step_length (H : Sha3) (N : Nat) (prev : Nat → Nat) (nodes : List node)
    (i : Nat) : (cache_round_step H N prev nodes i).length = nodes.length := by
  simp [cache_round_step]

theorem cache_round_fold_length (H : Sha3) (N : Nat) (prev : Nat → Nat) (l : List Nat) :
    ∀ nodes : List node, (l.foldl (cache_round_step H N prev) nodes).length = nodes.length := by
  induction l with
  | nil => intro nodes; rfl
  | cons a l ih => intro nodes; rw [List.foldl_cons, ih, cache_round_step_length]

/-- The inner loop of one round performs `cache_round_step` at `0, 1, .., N - 1`. -/
theorem cache_round_loop (H : Sha3) (N : Nat) (nodes : List node)
    (hN : N < 4294967296) (hlen : nodes.length = N) :
    for_ne (cache_round_body H N) N 4294967296 0 nodes =
      .ok ((List.range N).foldl (cache_round_step H N (cache_prev_index N)) nodes) := by
  obtain ⟨s', h1, h2⟩ := for_ne_inv (cache_round_body H N) N
    (fun i s => s = (List.range i).foldl (cache_round_step H N (cache_prev_index N)) nodes)
    hN
    (by
      intro i s hi hs
      have hsl : s.length = N := by rw [hs, cache_round_fold_length, hlen]
      refine ⟨cache_round_step H N (cache_prev_index N) s i, ?_, ?_⟩
      · have hp : cache_prev_index N i < s.length := by
          rw [hsl]; exact Nat.mod_lt _ (by omega)
        have hx : (s.getD i []).getD 0 0 % N < s.length := by
          rw [hsl]; exact Nat.mod_lt _ (by omega)
        simp only [cache_round_body, bind, Except.bind, node_read_ok s i (by omega)]
        rw [← cache_prev_index, node_read_ok s _ hp]
        simp only [node_read_ok s _ hx]
        rw [node_write_ok _ _ _ (by omega)]
        rfl
      · show _ = List.foldl _ nodes (List.range (i + 1))
        rw [List.range_succ, List.foldl_append, ← hs]
        rfl)
    4294967296 0 nodes (Nat.zero_le _) (by omega) (by simp)
  rw [h1, h2]

/-- Characterisation of `etschash_compute_cache_nodes` on a buffer of `N` nodes,
`1 <= N < 2^32`: it succeeds, and the buffer then holds the rounds applied to the hash
chain, whatever it held before. -/
theorem compute_cache_nodes_ok (H : Sha3) (nodes : List node) (cache_size : Nat)
    (seed : etschash_h256_t) (h64 : cache_size % 64 = 0) (hN1 : 1 ≤ cache_size / 64)
    (hN : cache_size / 64 < 4294967296) (hlen : nodes.length = cache_size / 64) :
    etschash_compute_cache_nodes H nodes cache_size seed =
      .ok (true, cache_rounds H (cache_size / 64) (cache_prev_index (cache_size / 64))
        (cache_chain H seed (cache_size / 64))) := by
  unfold etschash_compute_cache_nodes
  rw [if_neg (by simp [h64]), u32_of_lt hN]
  have hw := node_write_ok nodes 0 (H.SHA3_512 seed) (by omega)
  have hc := cache_chain_loop H seed _ nodes hN1 hN hlen
  have hcl : (cache_chain H seed (cache_size / 64)).length = cache_size / 64 := by
    simp [cache_chain]
  have hr := fun s hs => cache_round_loop H (cache_size / 64) s hN hs
  simp only [bind, Except.bind, hw, hc]
  have e : List.range ETSCHASH_CACHE_ROUNDS = [0, 1, 2] := by decide
  simp only [e, List.foldlM_cons, List.foldlM_nil, bind, Except.bind, pure, Except.pure,
    cache_rounds, List.foldl_cons, List.foldl_nil, fix_endian_arr32]
  rw [hr _ hcl]
  simp only []
  rw [hr _ (by rw [cache_round_fold_length, hcl])]
  simp only []
  rw [hr _ (by rw [cache_round_fold_length, cache_round_fold_length, hcl])]

/-- A size that is a multiple of 64 never makes `etschash_compute_cache_nodes` return
`false`. -/
theorem compute_cache_nodes_not_false (H : Sha3) (nodes : List node) (cache_size : Nat)
    (seed : etschash_h256_t) (h64 : cache_size % 64 = 0) (r : List node) :
    etschash_compute_cache_nodes H nodes cache_size seed ≠ .ok (false, r) := by
  unfold etschash_compute_cache_nodes
  rw [if_neg (by simp [h64])]
  intro h
  simp only [bind, Except.bind, pure, Except.pure] at h
  split at h
  · exact absurd h (by simp)
  · split at h
    · exact absurd h (by simp)
    · split at h
      · exact absurd h (by simp)
      · simp at h

/-- C8 (amended). `etschash_compute_cache_nodes` returns `false`, leaving the buffer as it
was, exactly when `cache_size` is not a multiple of 64; for a multiple of 64 with
`1 <= cache_size / 64 < 2^32` it succeeds on a buffer of `cache_size / 64` nodes with every
read and store inside the buffer, and the resulting cache has `cache_size / 64` nodes, each
of them stored by the function (the result does not depend on what the buffer held). -/
theorem compute_cache_nodes_size_contract (H : Sha3) (nodes : List node) (cache_size : Nat)
    (seed : etschash_h256_t) :
    (cache_size % 64 ≠ 0 →
      etschash_compute_cache_nodes H nodes cache_size seed = .ok (false, nodes)) ∧
    (cache_size % 64 = 0 →
      ∀ r, etschash_compute_cache_nodes H nodes cache_size seed ≠ .ok (false, r)) ∧
    (cache_size % 64 = 0 → 1 ≤ cache_size / 64 → cache_size / 64 < 4294967296 →
      nodes.length = cache_size / 64 →
      ∃ cache, etschash_compute_cache_nodes H nodes cache_size seed = .ok (true, cache) ∧
        cache.length = cache_size / 64 ∧
        ∀ nodes₂ : List node, nodes₂.length = cache_size / 64 →
          etschash_compute_cache_nodes H nodes₂ cache_size seed = .ok (true, cache)) := by
  refine ⟨?_, ?_, ?_⟩
  · intro h
    unfold etschash_compute_cache_nodes
    rw [if_pos h]
  · intro h r
    exact compute_cache_nodes_not_false H nodes cache_size seed h r
  · intro h64 hN1 hN hlen
    refine ⟨_, compute_cache_nodes_ok H nodes cache_size seed h64 hN1 hN hlen, ?_, ?_⟩
    · simp only [cache_rounds]
      have e : List.range ETSCHASH_CACHE_ROUNDS = [0, 1, 2] := by decide
      simp only [e, List.foldl_cons, List.foldl_nil, cache_round_fold_length]
      simp [cache_chain]
    · intro nodes₂ h2
      exact compute_cache_nodes_ok H nodes₂ cache_size seed h64 hN1 hN h2

/-- C8 (witness). An instance of `compute_cache_nodes_size_contract`: sizes 1 and 64. -/
theorem compute_cache_nodes_size_contract_witness :
    etschash_compute_cache_nodes toy [] 1 [] = .ok (false, []) ∧
    (∀ r, etschash_compute_cache_nodes toy [[]] 64 [] ≠ .ok (false, r)) ∧
    (∃ cache, etschash_compute_cache_nodes toy [[]] 64 [] = .ok (true, cache) ∧
      cache.length = 64 / 64 ∧
      ∀ nodes₂ : List node, nodes₂.length = 64 / 64 →
        etschash_compute_cache_nodes toy nodes₂ 64 [] = .ok (true, cache)) :=
  ⟨(compute_cache_nodes_size_contract toy [] 1 []).1 (by decide),
   (compute_cache_nodes_size_contract toy [[]] 64 []).2.1 (by decide),
   (compute_cache_nodes_size_contract toy [[]] 64 []).2.2 (by decide) (by decide) (by decide)
     (by decide)⟩

/-! ## The light client -/

/-- The DAG item depends on the light client through its cache and cache size only. -/
theorem etschash_hash_light_congr (H : Sha3) (ret : etschash_return_value_t)
    (cache : List node) (cache_size b1 b2 full_size : Nat) (header_hash : etschash_h256_t)
    (nonce : Nat) :
    etschash_hash_value H ret none ⟨cache, cache_size, b1⟩ full_size header_hash nonce =
      etschash_hash_value H ret none ⟨cache, cache_size, b2⟩ full_size header_hash nonce := by
  have h1 : dag_item_round_value ⟨cache, cache_size, b1⟩ = dag_item_round_value ⟨cache, cache_size, b2⟩ := by
    funext k r i
    simp only [dag_item_round_value, num_parent_nodes]
  have h2 : ∀ k, calculate_dag_item_value H k ⟨cache, cache_size, b1⟩ =
      calculate_dag_item_value H k ⟨cache, cache_size, b2⟩ := by
    intro k
    simp only [calculate_dag_item_value, h1, num_parent_nodes]
  have h3 : hash_dag_node_value H none ⟨cache, cache_size, b1⟩ =
      hash_dag_node_value H none ⟨cache, cache_size, b2⟩ := by
    funext index n
    simp only [hash_dag_node_value, h2]
  have h4 : hash_round_value H none ⟨cache, cache_size, b1⟩ =
      hash_round_value H none ⟨cache, cache_size, b2⟩ := by
    funext fs s mix i
    simp only [hash_round_value, h3]
  simp only [etschash_hash_value, hash_mix_value, h4]

/-- What `etschash_light_new` returns when the allocator succeeds and the table entry is a
multiple of 64 with between 1 and `2^32 - 1` nodes. -/
theorem light_new_ok (H : Sha3) (cache_sizes : Nat → Nat) (A : Alloc) (junk : Nat → node)
    (fuel b : Nat) (h2048 : b / 30000 < 2048) (hfuel : 2048 ≤ fuel)
    (hc : A.calloc_ok = true) (hm : A.malloc = some junk)
    (h64 : cache_sizes (b / 30000) % 64 = 0) (hN1 : 1 ≤ cache_sizes (b / 30000) / 64)
    (hN : cache_sizes (b / 30000) / 64 < 4294967296) :
    etschash_light_new H cache_sizes A fuel b = .ok (some
      { cache := cache_rounds H (cache_sizes (b / 30000) / 64)
          (cache_prev_index (cache_sizes (b / 30000) / 64))
          (cache_chain H (H.SHA3_256^[b / 30000] (List.replicate 32 0))
            (cache_sizes (b / 30000) / 64))
        cache_size := cache_sizes (b / 30000)
        block_number := b }) := by
  unfold etschash_light_new
  rw [get_seedhash_ok H fuel b (by omega) (by omega)]
  simp only [etschash_get_cachesize, ETSCHASH_EPOCH_LENGTH, h2048, if_true, bind, Except.bind,
    etschash_light_new_internal, hc, hm, Bool.not_true]
  rw [compute_cache_nodes_ok H _ _ _ h64 hN1 hN (by simp)]
  rfl

/-- On a valid table entry `light_compute_value` succeeds, and what it returns depends
neither on the uninitialised local nor on the block number beyond its epoch. -/
theorem light_compute_ok (H : Sha3) (dag_sizes : Nat → Nat) (u : etschash_return_value_t)
    (cache : List node) (cache_size b : Nat) (header_hash : etschash_h256_t) (nonce : Nat)
    (h2048 : b / 30000 < 2048) (h32 : dag_sizes (b / 30000) % MIX_WORDS = 0) :
    light_compute_value H dag_sizes u ⟨cache, cache_size, b⟩ header_hash nonce =
      .ok (etschash_hash_value H ⟨[], [], true⟩ none ⟨cache, cache_size, 0⟩
        (dag_sizes (b / 30000)) header_hash nonce).2 := by
  simp only [light_compute_value, etschash_get_datasize, ETSCHASH_EPOCH_LENGTH, h2048,
    if_true, bind, Except.bind, pure, Except.pure, light_compute_internal_value]
  rw [etschash_hash_light_congr H _ _ _ b 0,
    etschash_hash_ok H _ none _ _ header_hash nonce h32,
    etschash_hash_ok H _ none _ _ header_hash nonce h32]
  rfl

/-! ## Cancellation of the DAG computation -/

/-- One iteration of `compute_full_loop_value` below `max_n`, once the progress test has been
evaluated. -/
theorem compute_full_loop_step {σ : Type} (H : Sha3) (light : etschash_light)
    (callback : Option (σ → Nat → Int × σ)) (pct : Nat → Nat) (max_n fuel n : Nat)
    (st st1 : full_state σ) (c : Bool) (hn : n < max_n) (hmax : max_n < 4294967296)
    (hlen : max_n ≤ st1.full_nodes.length)
    (hp : progress_check callback pct max_n n st = .ok (c, st1)) :
    compute_full_loop_value H light callback pct max_n (fuel + 1) n st =
      if c then .ok (false, st1)
      else compute_full_loop_value H light callback pct max_n fuel (n + 1)
        { st1 with
          full_nodes := st1.full_nodes.set n (calculate_dag_item_value H n light)
          trace := st1.trace ++ [Event.dag_item n] } := by
  rw [compute_full_loop_value, if_neg (by omega)]
  simp only [bind, Except.bind, hp, pure, Except.pure]
  cases c
  · simp only [Bool.false_eq_true, if_false]
    rw [node_write_ok _ _ _ (by omega), u32_of_lt (by omega)]
  · simp

/-- With a callback and `max_n / 100 >= 1`, the loop ends; it returns `true` when every call
of the callback returned 0, and `false` right after the first call that did not. -/
theorem compute_full_loop_callback {σ : Type} (H : Sha3) (light : etschash_light)
    (cb : σ → Nat → Int × σ) (pct : Nat → Nat) (max_n : Nat) (hmax : max_n < 4294967296)
    (h100 : 100 ≤ max_n) :
    ∀ (fuel n : Nat) (st : full_state σ), n ≤ max_n → max_n - n < fuel →
      max_n ≤ st.full_nodes.length →
      (∀ m a r, Event.callback m a r ∈ st.trace → r = 0) →
      (∀ k, Event.dag_item k ∈ st.trace → k < n) →
      ∃ ok st', compute_full_loop_value H light (some cb) pct max_n fuel n st = .ok (ok, st') ∧
        ((ok = true ∧ ∀ m a r, Event.callback m a r ∈ st'.trace → r = 0) ∨
         (ok = false ∧ ∃ pre m a r, st'.trace = pre ++ [Event.callback m a r] ∧ r ≠ 0 ∧
            (∀ m' a' r', Event.callback m' a' r' ∈ pre → r' = 0) ∧
            ∀ k, Event.dag_item k ∈ pre → k < m)) := by
  have hdiv : ¬ max_n / 100 = 0 := by omega
  intro fuel
  induction fuel with
  | zero => intro n st _ h; omega
  | succ fuel ih =>
    intro n st hn hf hlen hcb hdag
    by_cases hnm : n = max_n
    · subst hnm
      exact ⟨true, st, by simp [compute_full_loop_value], Or.inl ⟨rfl, hcb⟩⟩
    · have hlt : n < max_n := by omega
      by_cases hmod : n % (max_n / 100) ≠ 0
      · have hp : progress_check (some cb) pct max_n n st = .ok (false, st) := by
          simp only [progress_check, if_neg hdiv, if_pos hmod]
        rw [compute_full_loop_step H light (some cb) pct max_n fuel n st st false hlt hmax hlen hp]
        simp only [Bool.false_eq_true, if_false]
        apply ih (n + 1) _ (by omega) (by omega) (by simpa using hlen)
        · intro m a r hm
          simp only [List.mem_append, List.mem_singleton] at hm
          rcases hm with hm | hm
          · exact hcb m a r hm
          · cases hm
        · intro k hk
          simp only [List.mem_append, List.mem_singleton] at hk
          rcases hk with hk | hk
          · have := hdag k hk; omega
          · cases hk; omega
      · have hp : progress_check (some cb) pct max_n n st =
            .ok (decide ((cb st.cb (pct n)).1 ≠ 0),
              { st with cb := (cb st.cb (pct n)).2,
                        trace := st.trace ++ [Event.callback n (pct n) (cb st.cb (pct n)).1] }) := by
          simp only [progress_check, if_neg hdiv, if_neg hmod]
        rw [compute_full_loop_step H light (some cb) pct max_n fuel n st _ _ hlt hmax
          (by simpa using hlen) hp]
        by_cases hr : (cb st.cb (pct n)).1 ≠ 0
        · rw [if_pos (by simpa using hr)]
          exact ⟨false, _, rfl, Or.inr ⟨rfl, st.trace, n, pct n, _, rfl, hr, hcb, hdag⟩⟩
        · rw [if_neg (by simpa using hr)]
          apply ih (n + 1) _ (by omega) (by omega) (by simpa using hlen)
          · intro m a r hm
            simp only [List.mem_append, List.mem_singleton] at hm
            rcases hm with (hm | hm) | hm
            · exact hcb m a r hm
            · cases hm; simpa using hr
            · cases hm
          · intro k hk
            simp only [List.mem_append, List.mem_singleton] at hk
            rcases hk with (hk | hk) | hk
            · have := hdag k hk; omega
            · cases hk
            · cases hk; omega

/-- If a list ends with `e` and also contains `a` at some position, then `a` is that last
element or it occurs before it. -/
theorem append_cons_eq_concat {α : Type} (l m p : List α) (a e : α)
    (h : l ++ a :: m = p ++ [e]) : (m = [] ∧ l = p ∧ a = e) ∨ a ∈ p := by
  rcases List.eq_nil_or_concat m with hm | ⟨m', x, hm⟩
  · subst hm
    have := List.append_inj' h rfl
    left
    exact ⟨rfl, this.1, by simpa using this.2⟩
  · subst hm
    right
    have h' : (l ++ a :: m') ++ [x] = p ++ [e] := by simpa using h
    have := List.append_inj' h' rfl
    rw [← this.1]
    simp

/-! ## Word loops -/

theorem fold_set_length (f : Nat → Nat → Nat) (off : Nat) (n : Nat) (d : List Nat) :
    ((List.range n).foldl (fun d w => d.set (off + w) (f w (d.getD (off + w) 0))) d).length =
      d.length := by
  induction n with
  | zero => rfl
  | succ n ih => rw [List.range_succ, List.foldl_append]; simpa using ih

theorem fold_set_getElem? (f : Nat → Nat → Nat) (off : Nat) (n : Nat) (d : List Nat) (j : Nat) :
    ((List.range n).foldl (fun d w => d.set (off + w) (f w (d.getD (off + w) 0))) d)[j]? =
      if off ≤ j ∧ j < off + n then d[j]?.map (f (j - off)) else d[j]? := by
  induction n generalizing j with
  | zero => rw [if_neg (by omega)]; rfl
  | succ n ih =>
    rw [List.range_succ, List.foldl_append]
    simp only [List.foldl_cons, List.foldl_nil]
    rw [List.getElem?_set, fold_set_length]
    by_cases hj : off + n = j
    · subst hj
      have hprev := ih (off + n)
      rw [if_neg (by omega)] at hprev
      have hc : off ≤ off + n ∧ off + n < off + (n + 1) := ⟨by omega, by omega⟩
      rw [List.getD_eq_getElem?_getD, hprev]
      simp only [hc, and_self, if_true, Nat.add_sub_cancel_left]
      by_cases hl : off + n < d.length
      · simp [hl, List.getElem?_eq_getElem hl]
      · simp [hl, List.getElem?_eq_none (Nat.le_of_not_lt hl)]
    · rw [if_neg hj, ih j]
      by_cases h1 : off ≤ j ∧ j < off + n
      · rw [if_pos h1, if_pos ⟨h1.1, by omega⟩]
      · rw [if_neg h1, if_neg (by omega)]

theorem fold_set_eq_map (f : Nat → Nat → Nat) (n : Nat) (d : List Nat) (h : d.length = n) :
    (List.range n).foldl (fun d w => d.set (0 + w) (f w (d.getD (0 + w) 0))) d =
      (List.range n).map (fun w => f w (d.getD w 0)) := by
  apply List.ext_getElem?
  intro j
  rw [fold_set_getElem?]
  by_cases hj : j < n
  · rw [if_pos ⟨by omega, by omega⟩, List.getElem?_eq_getElem (by omega)]
    simp [hj, List.getD_eq_getElem?_getD, List.getElem?_eq_getElem (h ▸ hj)]
  · rw [if_neg (by omega), List.getElem?_eq_none (by omega), List.getElem?_eq_none (by simp; omega)]

/-- A fold agrees with another one along an invariant of the accumulator. -/
theorem foldl_congr_inv {α β : Type} (f g : α → β → α) (P : α → Prop)
    (hP : ∀ a b, P a → P (g a b)) (hfg : ∀ a b, P a → f a b = g a b) :
    ∀ (l : List β) (a : α), P a → l.foldl f a = l.foldl g a ∧ P (l.foldl g a) := by
  intro l
  induction l with
  | nil => intro a ha; exact ⟨rfl, ha⟩
  | cons b l ih =>
    intro a ha
    rw [List.foldl_cons, List.foldl_cons, hfg a b ha]
    exact ih _ (hP a b ha)

/-- Invariant rule for a fold over `List.range n`. -/
theorem foldl_range_inv {α : Type} (f : α → Nat → α) (Inv : Nat → α → Prop)
    (h : ∀ i a, Inv i a → Inv (i + 1) (f a i)) :
    ∀ (n : Nat) (a : α), Inv 0 a → Inv n ((List.range n).foldl f a) := by
  intro n
  induction n with
  | zero => intro a ha; exact ha
  | succ n ih =>
    intro a ha
    rw [List.range_succ, List.foldl_append]
    exact h n _ (ih a ha)

/-- On a whole node the word loop is a map over the 16 words. -/
theorem fnv_words_eq_map (ret parent : node) (h : ret.length = 16) :
    fnv_words ret 0 parent =
      (List.range 16).map (fun w => fnv_hash (ret.getD w 0) (parent.getD w 0)) :=
  fold_set_eq_map (fun w x => fnv_hash x (parent.getD w 0)) 16 ret h

/-! ## The DAG item -/

/-- The code computes the DAG item of the spec over the node count it derives itself,
`(uint32_t)(cache_size / 64)`. -/
theorem dag_item_over_u32_count (H : Sha3) (light : etschash_light) (k : Nat)
    (hK : ∀ x, (H.SHA3_512 x).length = 16) :
    calculate_dag_item_value H k light =
      dag_item_ref H light.cache (num_parent_nodes light) k := by
  unfold calculate_dag_item_value dag_item_ref
  simp only []
  have := foldl_congr_inv (dag_item_round_value light k)
    (fun mix i =>
      (List.range 16).map (fun w => fnv_hash (mix.getD w 0)
        ((light.cache.getD (fnv_hash (k ^^^ i) (mix.getD (i % 16) 0) % num_parent_nodes light)
          []).getD w 0)))
    (fun mix => mix.length = 16)
    (by intro a b _; simp)
    (by
      intro a b ha
      simp only [dag_item_round_value, NODE_WORDS]
      exact fnv_words_eq_map a _ ha)
    (List.range 256)
    (H.SHA3_512 (node_bytes ((light.cache.getD (k % num_parent_nodes light) []).set 0
      ((light.cache.getD (k % num_parent_nodes light) []).getD 0 0 ^^^ k))))
    (hK _)
  rw [ETSCHASH_DATASET_PARENTS, this.1]

/-- On the values. For every cache of `1 <= N_c < 2^32` nodes (`N_c = cache_size / 64`) and
every 32-bit node index `k`, `calculate_dag_item_value` returns the DAG item of spec
section 4.G; `SHA3_512` is any function that yields whole nodes. -/
theorem dag_item_value_eq_ref (H : Sha3) (light : etschash_light) (k : Nat)
    (hK : ∀ x, (H.SHA3_512 x).length = 16)
    (_hN1 : 1 ≤ light.cache_size / 64) (hN : light.cache_size / 64 < 4294967296)
    (_hk : k < 4294967296) :
    calculate_dag_item_value H k light =
      dag_item_ref H light.cache (light.cache_size / 64) k := by
  rw [dag_item_over_u32_count H light k hK, num_parent_nodes, u32_of_lt hN]

theorem node_bytes_getD_60 (n : node) : (node_bytes n).getD 60 0 = n.getD 15 0 % 256 := rfl

theorem node_bytes_getD_56 (n : node) : (node_bytes n).getD 56 0 = n.getD 14 0 % 256 := rfl

theorem probe_length (x : List Nat) : (probe.SHA3_512 x).length = 16 := by
  simp [probe]

theorem fnv_prime_pow_256 : FNV_PRIME ^ 256 % 256 = 1 := by
  rw [Nat.pow_mod]; rfl

/-- With `probe` for Keccak and a cache whose nodes all have word 15 equal to 0, the DAG item
of the spec is determined by word 14 of the initial cache node. -/
theorem dag_item_ref_probe (cache : List node) (N k v : Nat)
    (hc : ∀ p, (cache.getD p []).getD 15 0 = 0)
    (hv : (cache.getD (k % N) []).getD 14 0 % 256 + 1 = v) (hv256 : v < 256) :
    dag_item_ref probe cache N k = List.replicate 15 0 ++ [v] := by
  unfold dag_item_ref
  simp only []
  have h0 : probe.SHA3_512 (node_bytes ((cache.getD (k % N) []).set 0
      ((cache.getD (k % N) []).getD 0 0 ^^^ k))) = List.replicate 15 0 ++ [v] := by
    have e60 : (node_bytes ((cache.getD (k % N) []).set 0
        ((cache.getD (k % N) []).getD 0 0 ^^^ k))).getD 60 0 = 0 := by
      rw [node_bytes_getD_60, List.getD_eq_getElem?_getD, List.getElem?_set_ne (by omega),
        ← List.getD_eq_getElem?_getD, hc]
    have e56 : (node_bytes ((cache.getD (k % N) []).set 0
        ((cache.getD (k % N) []).getD 0 0 ^^^ k))).getD 56 0 + 1 = v := by
      rw [node_bytes_getD_56, List.getD_eq_getElem?_getD, List.getElem?_set_ne (by omega),
        ← List.getD_eq_getElem?_getD, hv]
    simp only [probe, e60, e56, ne_eq, not_true_eq_false, if_false]
  rw [h0]
  have hinv := foldl_range_inv
    (fun (mix : node) i =>
      (List.range 16).map (fun w => fnv_hash (mix.getD w 0)
        ((cache.getD (fnv_hash (k ^^^ i) (mix.getD (i % 16) 0) % N) []).getD w 0)))
    (fun i mix => mix.getD 15 0 % 256 = v * FNV_PRIME ^ i % 256)
    (by
      intro i a ha
      have e : ((List.range 16).map (fun w => fnv_hash (a.getD w 0)
          ((cache.getD (fnv_hash (k ^^^ i) (a.getD (i % 16) 0) % N) []).getD w 0))).getD 15 0 =
          fnv_hash (a.getD 15 0) 0 := by
        rw [List.getD_eq_getElem?_getD, List.getElem?_map, List.getElem?_range (by omega)]
        show fnv_hash (a.getD 15 0) (List.getD (cache.getD _ []) 15 0) = _
        rw [hc]
      show _ % 256 = _
      rw [e, pow_succ, ← Nat.mul_assoc, Nat.mul_mod, ← ha, ← Nat.mul_mod]
      simp only [fnv_hash, u32, Nat.xor_zero, FNV_PRIME]
      omega)
    256 (List.replicate 15 0 ++ [v]) (by simp)
  simp only [] at hinv
  have hlast : (node_bytes ((List.range 256).foldl
      (fun (mix : node) i =>
        (List.range 16).map (fun w => fnv_hash (mix.getD w 0)
          ((cache.getD (fnv_hash (k ^^^ i) (mix.getD (i % 16) 0) % N) []).getD w 0)))
      (List.replicate 15 0 ++ [v]))).getD 60 0 = v := by
    rw [node_bytes_getD_60, hinv, Nat.mul_mod, fnv_prime_pow_256, Nat.mul_one, Nat.mod_mod,
      Nat.mod_eq_of_lt hv256]
  have hv0 : v ≠ 0 := by omega
  simp only [probe, hlast, ne_eq, hv0, not_false_eq_true, if_true]

theorem light_big_word15 (p : Nat) : (light_big.cache.getD p []).getD 15 0 = 0 := by
  match p with
  | 0 => rfl
  | 1 => rfl
  | p + 2 =>
    simp only [light_big, List.getD_eq_getElem?_getD, List.getElem?_cons_succ,
      List.getElem?_replicate]
    split <;> rfl

theorem light_big_nodes :
    num_parent_nodes light_big = 1 ∧ light_big.cache_size / 64 = 4294967297 ∧
    light_big.cache.getD 0 [] = [0, 0, 0, 0, 0, 0, 0, 0, 0, 0, 0, 0, 0, 0, 0, 0] ∧
    light_big.cache.getD 1 [] = [0, 0, 0, 0, 0, 0, 0, 0, 0, 0, 0, 0, 0, 0, 1, 0] := by
  refine ⟨?_, ?_, ?_, ?_⟩
  · show u32 (64 * 4294967297 / 64) = 1
    norm_num [u32]
  · show 64 * 4294967297 / 64 = 4294967297
    norm_num
  · rfl
  · rfl

/-- On the values. A cache of `N_c = 2^32 + 1` nodes: the code reduces the node count
to 32 bits, `num_parent_nodes = 1`, and starts DAG item 1 from `cache[0]`, where the spec
takes `cache[1 mod N_c] = cache[1]`; with `probe` for Keccak the two results differ. -/
theorem dag_item_value_truncates :
    1 ≤ light_big.cache_size / 64 ∧ (1 : Nat) < 4294967296 ∧
    calculate_dag_item_value probe 1 light_big ≠
      dag_item_ref probe light_big.cache (light_big.cache_size / 64) 1 := by
  obtain ⟨h1, h2, h3, h4⟩ := light_big_nodes
  refine ⟨by rw [h2]; norm_num, by norm_num, ?_⟩
  rw [dag_item_over_u32_count probe light_big 1 probe_length,
    dag_item_ref_probe light_big.cache (num_parent_nodes light_big) 1 1 light_big_word15
      (by rw [h1, h3]; rfl) (by norm_num),
    dag_item_ref_probe light_big.cache (light_big.cache_size / 64) 1 2 light_big_word15
      (by rw [h2, show 1 % 4294967297 = 1 from rfl, h4]; rfl) (by norm_num)]
  decide

/-! ## Hashimoto -/

theorem fnv_words_length (dst : List Nat) (off : Nat) (src : node) :
    (fnv_words dst off src).length = dst.length :=
  fold_set_length (fun w x => fnv_hash x (src.getD w 0)) off 16 dst

theorem fnv_words_getElem? (dst : List Nat) (off : Nat) (src : node) (j : Nat) :
    (fnv_words dst off src)[j]? =
      if off ≤ j ∧ j < off + 16 then dst[j]?.map (fun x => fnv_hash x (src.getD (j - off) 0))
      else dst[j]? :=
  fold_set_getElem? (fun w x => fnv_hash x (src.getD w 0)) off 16 dst j

/-- One round of `etschash_hash_value`, on a mix of 32 words, as a map over the words. -/
theorem hash_round_eq_map (H : Sha3) (full_nodes : Option (List node))
    (light : etschash_light) (full_size : Nat) (s : node) (mix : List Nat) (i : Nat)
    (hlen : mix.length = 32) :
    hash_round_value H full_nodes light full_size s mix i =
      (List.range 32).map (fun j => fnv_hash (mix.getD j 0)
        ((hash_dag_node_value H full_nodes light
          (fnv_hash (s.getD 0 0 ^^^ i) (mix.getD (i % 32) 0) % num_full_pages full_size)
          (j / 16)).getD (j % 16) 0)) := by
  unfold hash_round_value
  have e : List.range MIX_NODES = [0, 1] := by decide
  simp only [e, List.foldl_cons, List.foldl_nil, MIX_WORDS, NODE_WORDS]
  apply List.ext_getElem?
  intro j
  rw [fnv_words_getElem?, fnv_words_getElem?]
  by_cases h16 : j < 16
  · have hj : j / 16 = 0 := by omega
    have hm : j % 16 = j := by omega
    rw [if_neg (by omega), if_pos ⟨by omega, by omega⟩, List.getElem?_eq_getElem (by omega)]
    simp [show j < 32 by omega, hj, hm, List.getD_eq_getElem?_getD,
      List.getElem?_eq_getElem (show j < mix.length by omega)]
  · by_cases h32 : j < 32
    · have hj : j / 16 = 1 := by omega
      have hm : j % 16 = j - 16 := by omega
      rw [if_pos ⟨by omega, by omega⟩, if_neg (by omega),
        List.getElem?_eq_getElem (by omega)]
      simp [h32, hj, hm, List.getD_eq_getElem?_getD,
        List.getElem?_eq_getElem (show j < mix.length by omega)]
    · rw [if_neg (by omega), if_neg (by omega), List.getElem?_eq_none (by omega),
        List.getElem?_eq_none (by simp; omega)]

theorem hashimoto_rounds_length (page_node : Nat → Nat → node) (pages : Nat) (s : node)
    (n : Nat) : (hashimoto_rounds page_node pages s n).length = 32 := by
  unfold hashimoto_rounds
  induction n with
  | zero => simp
  | succ n ih =>
    rw [List.range_succ n, List.foldl_append]
    simp

/-- The replication loop and the rounds of `etschash_hash_value` compute the mix state of the
spec, over the page count and the node fetch of the code. -/
theorem hash_mix_eq_rounds (H : Sha3) (full_nodes : Option (List node))
    (light : etschash_light) (full_size : Nat) (s : node) :
    hash_mix_value H full_nodes light full_size s =
      hashimoto_rounds (hash_dag_node_value H full_nodes light) (num_full_pages full_size) s 64 := by
  unfold hash_mix_value hashimoto_rounds
  have hinit : (List.range MIX_WORDS).foldl
      (fun mix w => mix.set w (s.getD (w % NODE_WORDS) 0)) (List.replicate MIX_WORDS 0) =
      (List.range 32).map (fun w => s.getD (w % 16) 0) := by
    have := fold_set_eq_map (fun w _ => s.getD (w % 16) 0) 32 (List.replicate 32 0) (by simp)
    simpa only [Nat.zero_add] using this
  simp only [hinit, ETSCHASH_ACCESSES]
  exact (foldl_congr_inv _ _ (fun mix => mix.length = 32)
    (by intro a b _; simp)
    (by intro a b ha; exact hash_round_eq_map H full_nodes light full_size s a b ha)
    (List.range 64) _ (by simp)).1

theorem compress_step_def (mix : List Nat) (w : Nat) :
    compress_step mix w = mix.set (w / 4)
      (fnv_hash (fnv_hash (fnv_hash (mix.getD w 0) (mix.getD (w + 1) 0))
        (mix.getD (w + 2) 0)) (mix.getD (w + 3) 0)) := rfl

theorem compress_step_length (mix : List Nat) (w : Nat) :
    (compress_step mix w).length = mix.length := by
  simp [compress_step]

theorem compress_fold_length (mix : List Nat) (n : Nat) :
    ((List.range n).foldl (fun m t => compress_step m (4 * t)) mix).length = mix.length := by
  induction n with
  | zero => rfl
  | succ n ih => rw [List.range_succ n, List.foldl_append]; simpa [compress_step_length] using ih

/-- The in-place compression: after the first `n` iterations, words `0 .. n - 1` hold the
compressed values of the original mix and the other words are untouched. -/
theorem compress_fold_getElem? (mix : List Nat) (hlen : mix.length = 32) (n : Nat)
    (hn : n ≤ 8) (j : Nat) :
    ((List.range n).foldl (fun m t => compress_step m (4 * t)) mix)[j]? =
      if j < n then
        some (fnv_hash (fnv_hash (fnv_hash (mix.getD (4 * j) 0) (mix.getD (4 * j + 1) 0))
          (mix.getD (4 * j + 2) 0)) (mix.getD (4 * j + 3) 0))
      else mix[j]? := by
  induction n generalizing j with
  | zero => simp
  | succ n ih =>
    rw [List.range_succ n, List.foldl_append]
    simp only [List.foldl_cons, List.foldl_nil]
    have hread : ∀ idx, n ≤ idx →
        ((List.range n).foldl (fun m t => compress_step m (4 * t)) mix).getD idx 0 =
          mix.getD idx 0 := by
      intro idx hidx
      rw [List.getD_eq_getElem?_getD, ih (by omega) idx, if_neg (by omega),
        ← List.getD_eq_getElem?_getD]
    have hstep : compress_step ((List.range n).foldl (fun m t => compress_step m (4 * t)) mix)
        (4 * n) =
        ((List.range n).foldl (fun m t => compress_step m (4 * t)) mix).set n
          (fnv_hash (fnv_hash (fnv_hash (mix.getD (4 * n) 0) (mix.getD (4 * n + 1) 0))
            (mix.getD (4 * n + 2) 0)) (mix.getD (4 * n + 3) 0)) := by
      rw [compress_step_def, hread _ (by omega), hread _ (by omega), hread _ (by omega),
        hread _ (by omega), Nat.mul_div_cancel_left n (by omega : 0 < 4)]
    rw [hstep, List.getElem?_set, compress_fold_length]
    by_cases hj : n = j
    · subst hj
      simp [hlen, show n < 32 by omega]
    · rw [if_neg hj, ih (by omega) j]
      by_cases h1 : j < n
      · rw [if_pos h1, if_pos (by omega)]
      · rw [if_neg h1, if_neg (by omega)]

/-- The compression loop of `etschash_hash_value` leaves, in its first 8 words, the 4-to-1
compression of the spec. -/
theorem compress_mix_take (mix : List Nat) (hlen : mix.length = 32) :
    (compress_mix mix).take (MIX_WORDS / 4) = compress_ref mix := by
  have e : List.range' 0 (MIX_WORDS / 4) 4 = (List.range 8).map (fun t => 4 * t) := by decide
  unfold compress_mix
  rw [e, List.foldl_map]
  apply List.ext_getElem?
  intro j
  have h8 : MIX_WORDS / 4 = 8 := by decide
  rw [h8, List.getElem?_take]
  by_cases hj : j < 8
  · rw [if_pos hj, compress_fold_getElem? mix hlen 8 (le_refl _) j, if_pos hj]
    simp [compress_ref, hj]
  · rw [if_neg hj, List.getElem?_eq_none (by simp [compress_ref]; omega)]

/-- The mix state depends on the node fetch only inside the pages. -/
theorem hashimoto_rounds_congr (f g : Nat → Nat → node) (pages : Nat) (s : node) (n : Nat)
    (hp : 0 < pages) (h : ∀ p m, p < pages → m < 2 → f p m = g p m) :
    hashimoto_rounds f pages s n = hashimoto_rounds g pages s n := by
  unfold hashimoto_rounds
  apply List.foldl_ext
  intro mix i _
  apply List.map_congr_left
  intro j hj
  have hj32 : j < 32 := by simpa using hj
  rw [h _ _ (Nat.mod_lt _ hp) (by omega)]

/-- What `etschash_hash_value` returns, in terms of the mix state and compression of the spec, over
the page count and node fetch of the code. -/
theorem etschash_hash_eq_rounds (H : Sha3) (ret : etschash_return_value_t)
    (full_nodes : Option (List node)) (light : etschash_light) (full_size : Nat)
    (header_hash : etschash_h256_t) (nonce : Nat) (h : full_size % MIX_WORDS = 0) :
    etschash_hash_value H ret full_nodes light full_size header_hash nonce =
      (true, { ret with
        mix_hash := words_bytes (compress_ref (hashimoto_rounds
          (hash_dag_node_value H full_nodes light) (num_full_pages full_size)
          (H.SHA3_512 (header_hash ++ le64 nonce)) 64))
        result := H.SHA3_256 (node_bytes (H.SHA3_512 (header_hash ++ le64 nonce)) ++
          words_bytes (compress_ref (hashimoto_rounds
            (hash_dag_node_value H full_nodes light) (num_full_pages full_size)
            (H.SHA3_512 (header_hash ++ le64 nonce)) 64))) }) := by
  rw [etschash_hash_ok H ret full_nodes light full_size header_hash nonce h,
    hash_mix_eq_rounds, compress_mix_take _ (hashimoto_rounds_length _ _ _ _)]

/-- On the values. For every header, nonce and DAG source, with `dataset_size` a positive
multiple of 128 of at most `2^31` pages, `etschash_hash_value` succeeds and returns the mix hash
and the result of Hashimoto as spec section 4.I states it. -/
theorem hash_value_eq_ref (H : Sha3) (ret : etschash_return_value_t)
    (full_nodes : Option (List node)) (light : etschash_light) (full_size : Nat)
    (header_hash : etschash_h256_t) (nonce : Nat)
    (h128 : full_size % 128 = 0) (hpos : 0 < full_size)
    (hb : full_size / 128 ≤ 2147483648) :
    etschash_hash_value H ret full_nodes light full_size header_hash nonce =
      (true, { ret with
        mix_hash := (hashimoto_ref H (hash_resolver H full_nodes light) full_size
          header_hash nonce).2
        result := (hashimoto_ref H (hash_resolver H full_nodes light) full_size
          header_hash nonce).1 }) := by
  rw [etschash_hash_eq_rounds H ret full_nodes light full_size header_hash nonce
    (by rw [MIX_WORDS]; omega)]
  have hpages : num_full_pages full_size = full_size / 128 := by
    unfold num_full_pages; rw [MIX_WORDS]
    exact u32_of_lt (by omega)
  have hc := hashimoto_rounds_congr (hash_dag_node_value H full_nodes light)
    (fun p n => hash_resolver H full_nodes light (2 * p + n)) (full_size / 128)
    (H.SHA3_512 (header_hash ++ le64 nonce)) 64 (by omega)
    (by
      intro p m hp hm
      have e1 : u32 (MIX_NODES * p + m) = 2 * p + m := by
        rw [MIX_NODES]; exact u32_of_lt (by omega)
      have e2 : u32 (p * MIX_NODES + m) = 2 * p + m := by
        rw [MIX_NODES, Nat.mul_comm]; exact u32_of_lt (by omega)
      cases full_nodes with
      | none => simp only [hash_dag_node_value, hash_resolver, e2]
      | some nodes => simp only [hash_dag_node_value, hash_resolver, e1])
  rw [hpages, hc]
  rfl

/-- Invariant rule for a fold over `List.range n`, the step being taken below `n` only. -/
theorem foldl_range_inv_lt {α : Type} (f : α → Nat → α) (Inv : Nat → α → Prop) (n : Nat)
    (h : ∀ i a, i < n → Inv i a → Inv (i + 1) (f a i)) :
    ∀ (m : Nat) (a : α), m ≤ n → Inv 0 a → Inv m ((List.range m).foldl f a) := by
  intro m
  induction m with
  | zero => intro a _ ha; exact ha
  | succ m ih =>
    intro a hm ha
    rw [List.range_succ m, List.foldl_append]
    exact h m _ (by omega) (ih a (by omega) ha)

theorem getD_map_range (g : Nat → Nat) (n j : Nat) (h : j < n) :
    ((List.range n).map g).getD j 0 = g j := by
  rw [List.getD_eq_getElem?_getD, List.getElem?_map, List.getElem?_range h]
  rfl

/-- The shape of the mix over `dag_big`: word 0 of either node carries a value, the other
words are 0. -/
theorem dag_big_round (mix_word : Nat) (nd : Nat → node) (x : Nat)
    (hnd : ∀ j, j < 32 → (nd (j / 16)).getD (j % 16) 0 = if j % 16 = 0 then x else 0) :
    (List.range 32).map (fun j =>
        fnv_hash (((List.range 32).map (fun j => if j % 16 = 0 then mix_word else 0)).getD j 0)
          ((nd (j / 16)).getD (j % 16) 0)) =
      (List.range 32).map (fun j => if j % 16 = 0 then fnv_hash mix_word x else 0) := by
  apply List.map_congr_left
  intro j hj
  have hj32 : j < 32 := by simpa using hj
  rw [getD_map_range _ 32 j hj32, hnd j hj32]
  by_cases h0 : j % 16 = 0
  · simp only [h0, if_true]
  · simp only [h0, if_false]
    rfl

theorem dag_big_page0 (n : Nat) (hn : n < 2) :
    dag_big.getD n [] = [64, 0, 0, 0, 0, 0, 0, 0, 0, 0, 0, 0, 0, 0, 0, 0] := by
  match n with
  | 0 => rfl
  | 1 => rfl

theorem dag_big_other (k w : Nat) (hk : 2 ≤ k) : (dag_big.getD k []).getD w 0 = 0 := by
  obtain ⟨k', rfl⟩ : ∃ k', k = k' + 2 := ⟨k - 2, by omega⟩
  simp only [dag_big, List.getD_eq_getElem?_getD, List.getElem?_cons_succ,
    List.getElem?_replicate]
  split
  · simp only [Option.getD_some]
    rw [← List.getD_eq_getElem?_getD]
    by_cases hw : w < 16
    · interval_cases w <;> rfl
    · exact List.getD_eq_default _ _ (by simp; omega)
  · rfl

theorem page0_node_words (j : Nat) (hj : j < 32) :
    (([64, 0, 0, 0, 0, 0, 0, 0, 0, 0, 0, 0, 0, 0, 0, 0] : node)).getD (j % 16) 0 =
      if j % 16 = 0 then 64 else 0 := by
  interval_cases j <;> rfl

theorem page0_word_succ (i : Nat) : page0_word (i + 1) = fnv_hash (page0_word i) 64 :=
  Function.iterate_succ_apply' _ _ _

/-- With one page only, as the code counts them for `dag_big`, every round reads page 0. -/
theorem rounds_one_page_any (light : etschash_light) (x : List Nat) (n : Nat) :
    hashimoto_rounds (hash_dag_node_value null_hash (some dag_big) light) 1 (null_hash.SHA3_512 x)
        n =
      (List.range 32).map (fun j => if j % 16 = 0 then page0_word n else 0) := by
  unfold hashimoto_rounds
  refine foldl_range_inv_lt _
    (fun i mix => mix = (List.range 32).map (fun j => if j % 16 = 0 then page0_word i else 0))
    n ?_ n _ (le_refl _) ?_
  · intro i a _ ha
    simp only [Nat.mod_one]
    rw [ha, page0_word_succ]
    apply dag_big_round
    intro j hj
    have e : u32 (MIX_NODES * 0 + j / 16) = j / 16 := by
      simp only [MIX_NODES, Nat.mul_zero, Nat.zero_add]
      exact u32_of_lt (by omega)
    simp only [hash_dag_node_value, e]
    rw [dag_big_page0 _ (by omega)]
    exact page0_node_words j hj
  · apply List.map_congr_left
    intro j _
    simp only [null_hash, page0_word, Function.iterate_zero, id_eq, ite_self]
    have hm : j % 16 < 16 := Nat.mod_lt _ (by omega)
    generalize j % 16 = m at hm
    interval_cases m <;> rfl

/-- From round 1 on, the page the spec selects over `2^32 + 1` pages is not page 0. -/
theorem spread_page_ne_zero :
    ∀ i, i < 64 → 1 ≤ i →
      fnv_hash (0 ^^^ i) (if i % 32 % 16 = 0 then spread_word i else 0) % 4294967297 ≠ 0 := by
  decide

/-- Over `2^32 + 1` pages, as the spec counts them for `dag_big`, only round 0 reads page 0. -/
theorem rounds_all_pages (light : etschash_light) (x : List Nat) (n : Nat) (hn : n ≤ 64) :
    hashimoto_rounds (fun p m => hash_resolver null_hash (some dag_big) light (2 * p + m))
        4294967297 (null_hash.SHA3_512 x) n =
      (List.range 32).map (fun j => if j % 16 = 0 then spread_word n else 0) := by
  unfold hashimoto_rounds
  refine foldl_range_inv_lt _
    (fun i mix => mix = (List.range 32).map (fun j => if j % 16 = 0 then spread_word i else 0))
    64 ?_ n _ hn ?_
  · intro i a hi ha
    have hs : (null_hash.SHA3_512 x).getD 0 0 = 0 := rfl
    have hread : a.getD (i % 32) 0 = if i % 32 % 16 = 0 then spread_word i else 0 := by
      rw [ha, getD_map_range _ 32 _ (Nat.mod_lt _ (by omega))]
    simp only [hs, hread]
    rw [ha]
    by_cases h0 : i = 0
    · subst h0
      have hp : fnv_hash (0 ^^^ 0) (if 0 % 32 % 16 = 0 then spread_word 0 else 0) % 4294967297 = 0 := by
        decide
      rw [hp, show spread_word (0 + 1) = fnv_hash (spread_word 0) 64 from rfl]
      apply dag_big_round
      intro j hj
      simp only [hash_resolver, Nat.mul_zero, Nat.zero_add]
      rw [dag_big_page0 _ (by omega)]
      exact page0_node_words j hj
    · have hp := spread_page_ne_zero i hi (by omega)
      rw [show spread_word (i + 1) = fnv_hash (spread_word i) 0 by
        rw [spread_word, if_neg h0]]
      generalize fnv_hash (0 ^^^ i) (if i % 32 % 16 = 0 then spread_word i else 0) %
        4294967297 = q at hp
      refine dag_big_round _
        (fun m => hash_resolver null_hash (some dag_big) light (2 * q + m)) 0 ?_
      intro j _
      simp only [hash_resolver]
      rw [dag_big_other _ _ (by omega)]
      simp
  · apply List.map_congr_left
    intro j _
    simp only [null_hash, spread_word, ite_self]
    have hm : j % 16 < 16 := Nat.mod_lt _ (by omega)
    generalize j % 16 = m at hm
    interval_cases m <;> rfl

theorem mix_hash_first_byte (m : List Nat) :
    (words_bytes (compress_ref m)).getD 0 0 =
      fnv_hash (fnv_hash (fnv_hash (m.getD 0 0) (m.getD 1 0)) (m.getD 2 0)) (m.getD 3 0) % 256 :=
  rfl

theorem pattern_first_byte (v : Nat) :
    (words_bytes (compress_ref
      ((List.range 32).map (fun j => if j % 16 = 0 then v else 0)))).getD 0 0 =
      fnv_hash (fnv_hash (fnv_hash v 0) 0) 0 % 256 := by
  rw [mix_hash_first_byte, getD_map_range _ 32 0 (by omega), getD_map_range _ 32 1 (by omega),
    getD_map_range _ 32 2 (by omega), getD_map_range _ 32 3 (by omega)]
  rfl

set_option maxRecDepth 20000 in
theorem page0_first_byte : fnv_hash (fnv_hash (fnv_hash (page0_word 64) 0) 0) 0 % 256 = 0 := by
  decide

set_option maxRecDepth 20000 in
theorem spread_first_byte : fnv_hash (fnv_hash (fnv_hash (spread_word 64) 0) 0) 0 % 256 = 64 := by
  decide

/-- On the values. A dataset of `128 * (2^32 + 1)` bytes, a positive multiple of 128:
the code reduces the page count to 32 bits, `num_full_pages = 1`, and reads page 0 in every
round, where the spec takes the page modulo `2^32 + 1`; over the region `dag_big`, with
`null_hash` for Keccak, the first byte of the mix hash is 0 in the code and 64 in the
spec. -/
theorem hash_value_truncates_pages :
    549755814016 % 128 = 0 ∧ 0 < 549755814016 ∧
    etschash_hash_value null_hash ⟨[], [], true⟩ (some dag_big) ⟨[], 0, 0⟩ 549755814016
        (List.replicate 32 0) 0 ≠
      (true, { (⟨[], [], true⟩ : etschash_return_value_t) with
        mix_hash := (hashimoto_ref null_hash (hash_resolver null_hash (some dag_big) ⟨[], 0, 0⟩)
          549755814016 (List.replicate 32 0) 0).2
        result := (hashimoto_ref null_hash (hash_resolver null_hash (some dag_big) ⟨[], 0, 0⟩)
          549755814016 (List.replicate 32 0) 0).1 }) := by
  refine ⟨by norm_num, by norm_num, ?_⟩
  rw [etschash_hash_eq_rounds null_hash _ _ _ _ _ _ (by norm_num [MIX_WORDS])]
  have hpages : num_full_pages 549755814016 = 1 := by
    norm_num [num_full_pages, MIX_WORDS, u32]
  have hdiv : 549755814016 / 128 = 4294967297 := by norm_num
  intro h
  have hm := congrArg (fun r => r.2.mix_hash.getD 0 0) h
  simp only [hashimoto_ref, hpages, hdiv] at hm
  rw [rounds_one_page_any, rounds_all_pages _ _ 64 (le_refl _), pattern_first_byte,
    pattern_first_byte, page0_first_byte, spread_first_byte] at hm
  exact absurd hm (by decide)

/-! ## Instances on concrete inputs -/

theorem toy_length (x : List Nat) : (toy.SHA3_512 x).length = 16 := by
  simp [toy]

/-! ## The predecessor index of the cache rounds -/

/-- Up to `2^31` nodes the 32-bit sum `num_nodes - 1 + i` does not wrap and the code takes
the node before `i`, cyclically, as the spec does. -/
theorem cache_prev_index_eq (N i : Nat) (hN : N ≤ 2147483648) (hi : i < N) :
    cache_prev_index N i = (i + N - 1) % N := by
  unfold cache_prev_index
  rw [u32_of_lt (by omega)]
  congr 1
  omega

theorem node_words_eq (l : node) (h : l.length = 16) : node_words l = l := by
  apply List.ext_getElem?
  intro j
  unfold node_words
  rw [NODE_WORDS, List.getElem?_map]
  by_cases hj : j < 16
  · rw [List.getElem?_range hj, List.getElem?_eq_getElem (by omega)]
    simp [List.getD_eq_getElem?_getD, List.getElem?_eq_getElem (show j < l.length by omega)]
  · rw [List.getElem?_eq_none (by simp; omega), List.getElem?_eq_none (by omega)]
    rfl

theorem xor_words_eq_map (a b : node) (ha : a.length = 16) :
    xor_words a b = (List.range 16).map (fun w => a.getD w 0 ^^^ b.getD w 0) := by
  have := fold_set_eq_map (fun w x => x ^^^ b.getD w 0) 16 a ha
  simpa only [Nat.zero_add] using this

theorem zipWith_xor_eq_map (a b : node) (ha : a.length = 16) (hb : b.length = 16) :
    List.zipWith (· ^^^ ·) a b = (List.range 16).map (fun w => a.getD w 0 ^^^ b.getD w 0) := by
  apply List.ext_getElem?
  intro j
  rw [List.getElem?_zipWith, List.getElem?_map]
  by_cases hj : j < 16
  · rw [List.getElem?_range hj, List.getElem?_eq_getElem (by omega),
      List.getElem?_eq_getElem (by omega)]
    simp [List.getD_eq_getElem?_getD, List.getElem?_eq_getElem (show j < a.length by omega),
      List.getElem?_eq_getElem (show j < b.length by omega)]
  · rw [List.getElem?_eq_none (show a.length ≤ j by omega),
      List.getElem?_eq_none (show (List.range 16).length ≤ j by simp; omega)]
    rfl

/-- On whole nodes the word-wise XOR of the code is the node-wise XOR of the spec. -/
theorem node_bytes_xor_words (a b : node) (ha : a.length = 16) (hb : b.length = 16) :
    node_bytes (xor_words a b) = words_bytes (List.zipWith (· ^^^ ·) a b) := by
  rw [node_bytes, node_words_eq _ (by rw [xor_words_eq_map a b ha]; simp),
    xor_words_eq_map a b ha, zipWith_xor_eq_map a b ha hb]

/-- A fold agrees with another one along an invariant, on the elements of the list. -/
theorem foldl_congr_inv_mem {α β : Type} (f g : α → β → α) (P : α → Prop) (l : List β)
    (hP : ∀ a b, b ∈ l → P a → P (g a b)) (hfg : ∀ a b, b ∈ l → P a → f a b = g a b) :
    ∀ (a : α), P a → l.foldl f a = l.foldl g a ∧ P (l.foldl g a) := by
  induction l with
  | nil => intro a ha; exact ⟨rfl, ha⟩
  | cons b l ih =>
    intro a ha
    rw [List.foldl_cons, List.foldl_cons, hfg a b (List.mem_cons_self _ _) ha]
    exact ih (fun a b hb => hP a b (List.mem_cons_of_mem _ hb))
      (fun a b hb => hfg a b (List.mem_cons_of_mem _ hb)) _
      (hP a b (List.mem_cons_self _ _) ha)

theorem getD_mem_of_lt (nodes : List node) (j : Nat) (h : j < nodes.length) :
    nodes.getD j [] ∈ nodes := by
  rw [List.getD_eq_getElem?_getD, List.getElem?_eq_getElem h]
  exact List.getElem_mem _

/-- The rounds are the passes of the spec when the node copied at step `i` is the one at
`(i + N - 1) mod N`. -/
theorem cache_rounds_eq_ref_of_prev (H : Sha3) (seed : etschash_h256_t) (N : Nat)
    (prev : Nat → Nat) (hK : ∀ x, (H.SHA3_512 x).length = 16) (hN1 : 1 ≤ N)
    (hprev : ∀ i, i < N → prev i = (i + N - 1) % N) :
    cache_rounds H N prev (cache_chain H seed N) = cache_ref H seed N := by
  unfold cache_rounds cache_ref cache_chain
  simp only [ETSCHASH_CACHE_ROUNDS]
  have hpass : ∀ nodes : List node,
      (nodes.length = N ∧ ∀ v ∈ nodes, v.length = 16) →
      (List.range N).foldl (cache_round_step H N prev) nodes =
        (List.range N).foldl (fun nodes i =>
          nodes.set i (H.SHA3_512 (words_bytes (List.zipWith (· ^^^ ·)
            (nodes.getD ((i + N - 1) % N) [])
            (nodes.getD ((nodes.getD i []).getD 0 0 % N) []))))) nodes ∧
      (((List.range N).foldl (fun nodes i =>
          nodes.set i (H.SHA3_512 (words_bytes (List.zipWith (· ^^^ ·)
            (nodes.getD ((i + N - 1) % N) [])
            (nodes.getD ((nodes.getD i []).getD 0 0 % N) []))))) nodes).length = N ∧
        ∀ v ∈ (List.range N).foldl (fun nodes i =>
          nodes.set i (H.SHA3_512 (words_bytes (List.zipWith (· ^^^ ·)
            (nodes.getD ((i + N - 1) % N) [])
            (nodes.getD ((nodes.getD i []).getD 0 0 % N) []))))) nodes, v.length = 16) := by
    intro nodes hn
    refine foldl_congr_inv_mem _ _ (fun nodes => nodes.length = N ∧ ∀ v ∈ nodes, v.length = 16)
      (List.range N) ?_ ?_ nodes hn
    · intro a i _ ⟨hl, hwf⟩
      refine ⟨by simpa using hl, ?_⟩
      intro v hv
      rcases List.mem_or_eq_of_mem_set hv with h | h
      · exact hwf v h
      · rw [h]; exact hK _
    · intro a i hi ⟨hl, hwf⟩
      have hiN : i < N := by simpa using hi
      unfold cache_round_step
      rw [hprev i hiN,
        node_bytes_xor_words _ _
          (hwf _ (getD_mem_of_lt a _ (by rw [hl]; exact Nat.mod_lt _ (by omega))))
          (hwf _ (getD_mem_of_lt a _ (by rw [hl]; exact Nat.mod_lt _ (by omega))))]
  have hchain : (List.iterate (fun v => H.SHA3_512 (node_bytes v)) (H.SHA3_512 seed) N).length
        = N ∧
      ∀ v ∈ List.iterate (fun v => H.SHA3_512 (node_bytes v)) (H.SHA3_512 seed) N,
        v.length = 16 := by
    refine ⟨by simp, ?_⟩
    intro v hv
    rw [List.mem_iterate] at hv
    obtain ⟨m, _, rfl⟩ := hv
    cases m with
    | zero => exact hK _
    | succ m => rw [Function.iterate_succ_apply']; exact hK _
  have e : List.range 3 = [0, 1, 2] := by decide
  simp only [e, List.foldl_cons, List.foldl_nil]
  have h1 := hpass _ hchain
  have h2 := hpass _ h1.2
  have h3 := hpass _ h2.2
  rw [h1.1, h2.1, h3.1]

/-- Up to `2^31` nodes, the rounds of the code are the passes of the spec. -/
theorem cache_rounds_eq_ref (H : Sha3) (seed : etschash_h256_t) (N : Nat)
    (hK : ∀ x, (H.SHA3_512 x).length = 16) (hN1 : 1 ≤ N) (hN : N ≤ 2147483648) :
    cache_rounds H N (cache_prev_index N) (cache_chain H seed N) = cache_ref H seed N :=
  cache_rounds_eq_ref_of_prev H seed N _ hK hN1 (fun i hi => cache_prev_index_eq N i hN hi)

/-- The cache builder up to `2^31` nodes: on a buffer of `N_c = cache_size / 64` nodes,
`1 <= N_c <= 2^31`, `etschash_compute_cache_nodes` succeeds and leaves the cache of spec
section 4.F. -/
theorem compute_cache_nodes_eq_ref (H : Sha3) (nodes : List node) (cache_size : Nat)
    (seed : etschash_h256_t) (hK : ∀ x, (H.SHA3_512 x).length = 16)
    (h64 : cache_size % 64 = 0) (hN1 : 1 ≤ cache_size / 64)
    (hN : cache_size / 64 ≤ 2147483648) (hlen : nodes.length = cache_size / 64) :
    etschash_compute_cache_nodes H nodes cache_size seed =
      .ok (true, cache_ref H seed (cache_size / 64)) := by
  rw [compute_cache_nodes_ok H nodes cache_size seed h64 hN1 (by omega) hlen,
    cache_rounds_eq_ref H seed _ hK hN1 hN]

/-! ## The cache builder beyond `2^31` nodes -/

theorem flip_hash_xor (a b : node) (ha : a = flip_P ∨ a = flip_Q)
    (hb : b = flip_P ∨ b = flip_Q) :
    flip_hash.SHA3_512 (node_bytes (xor_words a b)) = flip_xor a b := by
  rcases ha with rfl | rfl <;> rcases hb with rfl | rfl <;> decide

theorem flip_word0 (a : node) (ha : a = flip_P ∨ a = flip_Q) : a.getD 0 0 = 0 := by
  rcases ha with rfl | rfl <;> rfl

theorem flip_xor_bin (a b : node) : flip_xor a b = flip_P ∨ flip_xor a b = flip_Q := by
  unfold flip_xor
  split
  · exact Or.inr rfl
  · exact Or.inl rfl

theorem flip_pattern_bin (a : node) (i : Nat) :
    flip_pattern a i = flip_P ∨ flip_pattern a i = flip_Q := by
  unfold flip_pattern
  split
  · exact Or.inl rfl
  · exact Or.inr rfl

theorem getD_set_nodes (s : List node) (i j : Nat) (v : node) (hi : i < s.length) :
    (s.set i v).getD j [] = if i = j then v else s.getD j [] := by
  rw [List.getD_eq_getElem?_getD, List.getElem?_set]
  by_cases h : i = j
  · rw [if_pos h, if_pos hi, if_pos h]
    rfl
  · rw [if_neg h, if_neg h, List.getD_eq_getElem?_getD]

/-- One step of a round over digests of `flip_hash`: node `i` becomes the digest of the XOR
of the copied node and node 0. -/
theorem flip_round_step (N : Nat) (prev : Nat → Nat) (s : List node) (i : Nat)
    (hi : i < s.length)
    (hcur : s.getD i [] = flip_P ∨ s.getD i [] = flip_Q)
    (hprev : s.getD (prev i) [] = flip_P ∨ s.getD (prev i) [] = flip_Q)
    (h0 : s.getD 0 [] = flip_P ∨ s.getD 0 [] = flip_Q) (j : Nat) :
    (cache_round_step flip_hash N prev s i).getD j [] =
      if i = j then flip_xor (s.getD (prev i) []) (s.getD 0 []) else s.getD j [] := by
  unfold cache_round_step
  rw [getD_set_nodes _ _ _ _ hi, flip_word0 _ hcur, Nat.zero_mod, flip_hash_xor _ _ hprev h0]

/-- The state of a round over digests of `flip_hash` after the steps `0 .. k - 1`, as long as
every step copies the node before it. -/
theorem flip_round_before_last (N : Nat) (prev : Nat → Nat) (s : List node) (hN : 2 ≤ N)
    (hlen : s.length = N)
    (hbin : ∀ i, i < N → s.getD i [] = flip_P ∨ s.getD i [] = flip_Q)
    (hprev0 : prev 0 = N - 1) (hprev : ∀ i, 1 ≤ i → i + 1 < N → prev i = i - 1) :
    ∀ k, k + 2 ≤ N →
      ((List.range (k + 1)).foldl (cache_round_step flip_hash N prev) s).length = N ∧
      ((List.range (k + 1)).foldl (cache_round_step flip_hash N prev) s).getD 0 [] =
        flip_xor (s.getD (N - 1) []) (s.getD 0 []) ∧
      (∀ i, 1 ≤ i → i < k + 1 →
        ((List.range (k + 1)).foldl (cache_round_step flip_hash N prev) s).getD i [] =
          flip_pattern (flip_xor (s.getD (N - 1) []) (s.getD 0 [])) i) ∧
      (∀ i, k + 1 ≤ i →
        ((List.range (k + 1)).foldl (cache_round_step flip_hash N prev) s).getD i [] =
          s.getD i []) := by
  intro k
  induction k with
  | zero =>
    intro _
    have e : List.range (0 + 1) = [0] := by decide
    simp only [e, List.foldl_cons, List.foldl_nil]
    have hstep := flip_round_step N prev s 0 (by omega) (hbin 0 (by omega))
      (by rw [hprev0]; exact hbin _ (by omega)) (hbin 0 (by omega))
    refine ⟨by rw [cache_round_step_length, hlen], ?_, ?_, ?_⟩
    · rw [hstep 0, if_pos rfl, hprev0]
    · intro i h1 h2; omega
    · intro i hi
      rw [hstep i, if_neg (by omega)]
  | succ k ih =>
    intro hk
    obtain ⟨h1, h2, h3, h4⟩ := ih (by omega)
    rw [List.range_succ (k + 1), List.foldl_append]
    simp only [List.foldl_cons, List.foldl_nil]
    have hpk : prev (k + 1) = k := by rw [hprev (k + 1) (by omega) (by omega)]; rfl
    have hprevval : ((List.range (k + 1)).foldl (cache_round_step flip_hash N prev) s).getD
        (prev (k + 1)) [] =
        if k = 0 then flip_xor (s.getD (N - 1) []) (s.getD 0 [])
        else flip_pattern (flip_xor (s.getD (N - 1) []) (s.getD 0 [])) k := by
      rw [hpk]
      by_cases hk0 : k = 0
      · rw [if_pos hk0, hk0]; rw [hk0] at h2; exact h2
      · rw [if_neg hk0]; exact h3 k (by omega) (by omega)
    have hstep := flip_round_step N prev
      ((List.range (k + 1)).foldl (cache_round_step flip_hash N prev) s) (k + 1)
      (by omega) (by rw [h4 (k + 1) (le_refl _)]; exact hbin _ (by omega))
      (by
        rw [hprevval]
        split
        · exact flip_xor_bin _ _
        · exact flip_pattern_bin _ _)
      (by rw [h2]; exact flip_xor_bin _ _)
    refine ⟨by rw [cache_round_step_length, h1], ?_, ?_, ?_⟩
    · rw [hstep 0, if_neg (by omega), h2]
    · intro i hi1 hi2
      rw [hstep i]
      by_cases hik : k + 1 = i
      · rw [if_pos hik, hprevval, h2, ← hik]
        rcases flip_xor_bin (s.getD (N - 1) []) (s.getD 0 []) with ha | ha
        · rw [ha]
          by_cases hk0 : k = 0
          · subst hk0; decide
          · rw [if_neg hk0]
            unfold flip_pattern flip_xor
            rcases Nat.mod_two_eq_zero_or_one k with hm | hm
            · have : (k + 1) % 2 = 1 := by omega
              simp [hm, this]
            · have : (k + 1) % 2 = 0 := by omega
              simp [hm, this]
        · rw [ha]
          by_cases hk0 : k = 0
          · subst hk0; decide
          · rw [if_neg hk0]
            unfold flip_pattern flip_xor
            have : flip_Q ≠ flip_P := by decide
            simp [this]
      · rw [if_neg hik]
        exact h3 i hi1 (by omega)
    · intro i hi
      rw [hstep i, if_neg (by omega)]
      exact h4 i (by omega)

/-- A whole round over an odd number of digests of `flip_hash`: node 0 becomes
`a = flip_xor (last node) (node 0)`; the last node becomes `a` when its step copies the node
before it, and `flip_Q` when its step copies node 0. -/
theorem flip_round_full (N : Nat) (prev : Nat → Nat) (s : List node) (hN : 3 ≤ N)
    (hodd : N % 2 = 1) (hlen : s.length = N)
    (hbin : ∀ i, i < N → s.getD i [] = flip_P ∨ s.getD i [] = flip_Q)
    (hprev0 : prev 0 = N - 1) (hprev : ∀ i, 1 ≤ i → i + 1 < N → prev i = i - 1)
    (hlast : prev (N - 1) = N - 2 ∨ prev (N - 1) = 0) :
    ((List.range N).foldl (cache_round_step flip_hash N prev) s).length = N ∧
    (∀ i, i < N →
      ((List.range N).foldl (cache_round_step flip_hash N prev) s).getD i [] = flip_P ∨
      ((List.range N).foldl (cache_round_step flip_hash N prev) s).getD i [] = flip_Q) ∧
    ((List.range N).foldl (cache_round_step flip_hash N prev) s).getD 0 [] =
      flip_xor (s.getD (N - 1) []) (s.getD 0 []) ∧
    ((List.range N).foldl (cache_round_step flip_hash N prev) s).getD (N - 1) [] =
      if prev (N - 1) = 0 then flip_Q else flip_xor (s.getD (N - 1) []) (s.getD 0 []) := by
  obtain ⟨h1, h2, h3, h4⟩ := flip_round_before_last N prev s (by omega) hlen hbin hprev0 hprev
    (N - 2) (by omega)
  have e1 : N - 2 + 1 = N - 1 := by omega
  rw [e1] at h1 h2 h3 h4
  have e2 : List.range N = List.range (N - 1) ++ [N - 1] := by
    have : N = (N - 1) + 1 := by omega
    conv_lhs => rw [this]
    exact List.range_succ (N - 1)
  rw [e2, List.foldl_append]
  simp only [List.foldl_cons, List.foldl_nil]
  have hpv : ((List.range (N - 1)).foldl (cache_round_step flip_hash N prev) s).getD
      (prev (N - 1)) [] =
      if prev (N - 1) = 0 then flip_xor (s.getD (N - 1) []) (s.getD 0 [])
      else flip_Q := by
    rcases hlast with hl | hl
    · rw [hl, if_neg (by omega), h3 (N - 2) (by omega) (by omega)]
      unfold flip_pattern
      have : (N - 2) % 2 = 1 := by omega
      simp [this]
    · rw [hl, if_pos rfl, h2]
  have hstep := flip_round_step N prev
    ((List.range (N - 1)).foldl (cache_round_step flip_hash N prev) s) (N - 1) (by omega)
    (by rw [h4 (N - 1) (le_refl _)]; exact hbin _ (by omega))
    (by
      rw [hpv]
      split
      · exact flip_xor_bin _ _
      · exact Or.inr rfl)
    (by rw [h2]; exact flip_xor_bin _ _)
  have hlastval : ((cache_round_step flip_hash N prev
      ((List.range (N - 1)).foldl (cache_round_step flip_hash N prev) s) (N - 1)).getD
        (N - 1) []) =
      if prev (N - 1) = 0 then flip_Q else flip_xor (s.getD (N - 1) []) (s.getD 0 []) := by
    rw [hstep (N - 1), if_pos rfl, hpv, h2]
    by_cases hp : prev (N - 1) = 0
    · rw [if_pos hp, if_pos hp]
      unfold flip_xor
      simp
    · rw [if_neg hp, if_neg hp]
      rcases flip_xor_bin (s.getD (N - 1) []) (s.getD 0 []) with ha | ha <;> rw [ha] <;> decide
  refine ⟨by rw [cache_round_step_length, h1], ?_, ?_, hlastval⟩
  · intro i hi
    by_cases hiN : i = N - 1
    · rw [hiN, hlastval]
      split
      · exact Or.inr rfl
      · exact flip_xor_bin _ _
    · rw [hstep i, if_neg (by omega)]
      by_cases hi0 : i = 0
      · rw [hi0, h2]; exact flip_xor_bin _ _
      · rw [h3 i (by omega) (by omega)]; exact flip_pattern_bin _ _
  · rw [hstep 0, if_neg (by omega), h2]

theorem flip_chain_iterate (i : Nat) :
    (fun v => flip_hash.SHA3_512 (node_bytes v))^[i + 1] flip_Q = flip_P := by
  induction i with
  | zero => decide
  | succ i ih => rw [Function.iterate_succ_apply', ih]; decide

/-- The hash chain of `flip_hash` from a zero seed: `flip_Q` followed by `flip_P`s. -/
theorem flip_chain (N : Nat) :
    (cache_chain flip_hash (List.replicate 32 0) N).length = N ∧
    ∀ i, i < N → (cache_chain flip_hash (List.replicate 32 0) N).getD i [] =
      if i = 0 then flip_Q else flip_P := by
  refine ⟨by simp [cache_chain], ?_⟩
  intro i hi
  rw [cache_chain, List.getD_eq_getElem?_getD, List.getElem?_iterate _ _ _ _ hi]
  have hseed : flip_hash.SHA3_512 (List.replicate 32 0) = flip_Q := by decide
  rw [hseed]
  cases i with
  | zero => rfl
  | succ i => rw [flip_chain_iterate i, if_neg (by omega)]; rfl

/-- Node 0 after the three rounds over the hash chain of `flip_hash`, for an odd number of
nodes: `flip_P` when the last step of a round copies node 0, `flip_Q` when it copies the
node before the last. -/
theorem flip_rounds_node0 (N : Nat) (prev : Nat → Nat) (hN : 3 ≤ N) (hodd : N % 2 = 1)
    (hprev0 : prev 0 = N - 1) (hprev : ∀ i, 1 ≤ i → i + 1 < N → prev i = i - 1)
    (hlast : prev (N - 1) = N - 2 ∨ prev (N - 1) = 0) :
    (cache_rounds flip_hash N prev (cache_chain flip_hash (List.replicate 32 0) N)).getD 0 [] =
      if prev (N - 1) = 0 then flip_P else flip_Q := by
  obtain ⟨hc1, hc2⟩ := flip_chain N
  have hcbin : ∀ i, i < N →
      (cache_chain flip_hash (List.replicate 32 0) N).getD i [] = flip_P ∨
      (cache_chain flip_hash (List.replicate 32 0) N).getD i [] = flip_Q := by
    intro i hi
    rw [hc2 i hi]
    split
    · exact Or.inr rfl
    · exact Or.inl rfl
  obtain ⟨a1, a2, a3, a4⟩ := flip_round_full N prev _ hN hodd hc1 hcbin hprev0 hprev hlast
  obtain ⟨b1, b2, b3, b4⟩ := flip_round_full N prev _ hN hodd a1 a2 hprev0 hprev hlast
  obtain ⟨_, _, c3, _⟩ := flip_round_full N prev _ hN hodd b1 b2 hprev0 hprev hlast
  unfold cache_rounds
  have e : List.range ETSCHASH_CACHE_ROUNDS = [0, 1, 2] := by decide
  simp only [e, List.foldl_cons, List.foldl_nil]
  have h0 := hc2 0 (by omega)
  rw [if_pos rfl] at h0
  have hl := hc2 (N - 1) (by omega)
  rw [if_neg (by omega)] at hl
  rw [c3, b3, b4, a3, a4, h0, hl]
  by_cases hp : prev (N - 1) = 0
  · simp only [hp, if_true]; decide
  · simp only [hp, if_false]; decide

theorem cache_prev_index_big :
    cache_prev_index 2147483649 0 = 2147483649 - 1 ∧
    (∀ i, 1 ≤ i → i + 1 < 2147483649 → cache_prev_index 2147483649 i = i - 1) ∧
    cache_prev_index 2147483649 (2147483649 - 1) = 0 := by
  refine ⟨by decide, ?_, by decide⟩
  intro i h1 h2
  unfold cache_prev_index
  rw [u32_of_lt (by omega)]
  omega

theorem flip_hash_length (x : List Nat) : (flip_hash.SHA3_512 x).length = 16 := by
  simp only [flip_hash]
  split <;> rfl

/-- C7 (failing input). A cache of `N_c = 2^31 + 1` nodes (`cache_size = 64 * (2^31 + 1)`,
so `1 <= N_c < 2^32`): at the last step of each round the 32-bit sum `num_nodes - 1 + i`
is `2^32`, which wraps to 0, and the code copies `node[0]` where the spec takes
`node[(i + N_c - 1) mod N_c] = node[N_c - 2]`.  With `flip_hash` for Keccak and a zero seed
the function succeeds and leaves `flip_P` in node 0, while node 0 of the cache of the spec
is `flip_Q`. -/
theorem compute_cache_nodes_wraps :
    137438953536 % 64 = 0 ∧ 1 ≤ 137438953536 / 64 ∧ 137438953536 / 64 < 4294967296 ∧
    ∃ cache, etschash_compute_cache_nodes flip_hash (List.replicate 2147483649 [])
        137438953536 (List.replicate 32 0) = .ok (true, cache) ∧
      cache.getD 0 [] = flip_P ∧
      (cache_ref flip_hash (List.replicate 32 0) (137438953536 / 64)).getD 0 [] = flip_Q := by
  have hdiv : 137438953536 / 64 = 2147483649 := by norm_num
  obtain ⟨p0, p1, p2⟩ := cache_prev_index_big
  refine ⟨by norm_num, by norm_num, by norm_num, _,
    compute_cache_nodes_ok flip_hash _ 137438953536 _ (by norm_num) (by norm_num)
      (by norm_num) (by rw [List.length_replicate, hdiv]), ?_, ?_⟩
  · rw [hdiv, flip_rounds_node0 2147483649 _ (by norm_num) (by norm_num) p0 p1 (Or.inr p2),
      if_pos p2]
  · rw [hdiv, ← cache_rounds_eq_ref_of_prev flip_hash _ 2147483649
      (fun i => (i + 2147483649 - 1) % 2147483649) flip_hash_length (by norm_num)
      (fun _ _ => rfl),
      flip_rounds_node0 2147483649 _ (by norm_num) (by norm_num) (by norm_num)
        (by intro i h1 h2; show (i + 2147483649 - 1) % 2147483649 = i - 1; omega)
        (Or.inl (by norm_num)),
      if_neg (by norm_num)]

/-! ## The cache builder beyond `2^32` nodes -/

/-- With a node count that is 1 modulo `2^32` the code works on one node: it succeeds and
leaves every buffer node but node 0 as it found it. -/
theorem compute_cache_nodes_one_node (H : Sha3) (nodes : List node) (cache_size : Nat)
    (seed : etschash_h256_t) (h64 : cache_size % 64 = 0)
    (h1 : u32 (cache_size / 64) = 1) (hlen : 1 ≤ nodes.length) :
    ∃ cache, etschash_compute_cache_nodes H nodes cache_size seed = .ok (true, cache) ∧
      ∀ j, 1 ≤ j → cache.getD j [] = nodes.getD j [] := by
  have hround : ∀ s : List node, (1 ≤ s.length ∧ ∀ j, 1 ≤ j → s.getD j [] = nodes.getD j []) →
      ∃ s', for_ne (cache_round_body H 1) 1 4294967296 0 s = .ok s' ∧
        (1 ≤ s'.length ∧ ∀ j, 1 ≤ j → s'.getD j [] = nodes.getD j []) := by
    intro s hs
    refine for_ne_inv (cache_round_body H 1) 1
      (fun _ s' => 1 ≤ s'.length ∧ ∀ j, 1 ≤ j → s'.getD j [] = nodes.getD j [])
      (by norm_num) ?_ 4294967296 0 s (by norm_num) (by norm_num) hs
    intro i s' hi ⟨hl, hfr⟩
    have hi0 : i = 0 := by omega
    subst hi0
    have hp : u32 (1 - 1 + 0) % 1 = 0 := by decide
    simp only [cache_round_body, bind, Except.bind, Nat.mod_one, hp, node_read_ok s' 0 hl,
      node_write_ok s' 0 _ hl]
    refine ⟨_, rfl, by simpa using hl, ?_⟩
    intro j hj
    rw [getD_set_nodes _ _ _ _ hl, if_neg (by omega)]
    exact hfr j hj
  have hchain : for_ne (cache_chain_body H) 1 4294967296 1 (nodes.set 0 (H.SHA3_512 seed)) =
      .ok (nodes.set 0 (H.SHA3_512 seed)) := by
    obtain ⟨s', h, _, hs⟩ := for_ne_inv (cache_chain_body H) 1
      (fun i s' => 1 ≤ i ∧ s' = nodes.set 0 (H.SHA3_512 seed)) (by norm_num)
      (by intro i s hi ⟨h1, _⟩; omega) 4294967296 1 _ (le_refl _) (by norm_num)
      ⟨le_refl _, rfl⟩
    rw [h, hs]
  have h0 : 1 ≤ (nodes.set 0 (H.SHA3_512 seed)).length ∧
      ∀ j, 1 ≤ j → (nodes.set 0 (H.SHA3_512 seed)).getD j [] = nodes.getD j [] := by
    refine ⟨by simpa using hlen, ?_⟩
    intro j hj
    rw [getD_set_nodes _ _ _ _ hlen, if_neg (by omega)]
  obtain ⟨s1, e1, hs1⟩ := hround _ h0
  obtain ⟨s2, e2, hs2⟩ := hround _ hs1
  obtain ⟨s3, e3, hs3⟩ := hround _ hs2
  refine ⟨s3, ?_, hs3.2⟩
  unfold etschash_compute_cache_nodes
  rw [if_neg (by simp [h64]), h1]
  have e : List.range ETSCHASH_CACHE_ROUNDS = [0, 1, 2] := by decide
  simp only [bind, Except.bind, node_write_ok nodes 0 _ hlen, hchain, e, List.foldlM_cons,
    List.foldlM_nil, e1, e2, e3, pure, Except.pure, fix_endian_arr32]

/-- C8 (counterexample). Two multiples of 64 at which the claim fails.  With
`cache_size = 0` and the empty buffer that goes with it, the first statement of
`etschash_compute_cache_nodes` stores `SHA3_512(seed)` to `nodes[0]`, outside the buffer.
With `cache_size = 64 * (2^32 + 1)` the function succeeds but, its node count reduced to 32
bits, works on node 0 only: node 1 of the buffer still holds what it held before, so no
cache of `cache_size / 64` nodes is produced. -/
theorem cache_nodes_contract_fails :
    (0 % 64 = 0 ∧
      etschash_compute_cache_nodes toy [] 0 (List.replicate 32 0) = .error .out_of_bounds) ∧
    (274877907008 % 64 = 0 ∧ 274877907008 / 64 = 4294967297 ∧
      ∃ cache, etschash_compute_cache_nodes toy ([] :: [7] :: List.replicate 4294967295 [])
          274877907008 (List.replicate 32 0) = .ok (true, cache) ∧
        cache.getD 1 [] = [7]) := by
  refine ⟨by decide, by norm_num, by norm_num, ?_⟩
  obtain ⟨cache, h1, h2⟩ := compute_cache_nodes_one_node toy
    ([] :: [7] :: List.replicate 4294967295 []) 274877907008 (List.replicate 32 0)
    (by norm_num) (by norm_num [u32]) (by rw [List.length_cons]; exact Nat.le_add_left 1 _)
  exact ⟨cache, h1, by rw [h2 1 (le_refl _)]; rfl⟩

/-- Beyond `2^31` pages the 32-bit node index `index * MIX_NODES + n` wraps: for page
`2^31` the light path computes DAG item 0. -/
theorem hash_dag_node_wraps (H : Sha3) (light : etschash_light) :
    hash_dag_node_value H none light 2147483648 0 = calculate_dag_item_value H 0 light := by
  have e : u32 (2147483648 * MIX_NODES + 0) = 0 := by decide
  simp only [hash_dag_node_value, e]

/-! ## The size check of `etschash_hash_value` -/

/-- The flag `success` after `light_compute_internal_value` is the flag `etschash_hash_value`
returned. -/
theorem light_compute_internal_success (H : Sha3) (uninit : etschash_return_value_t)
    (light : etschash_light) (full_size : Nat) (header_hash : etschash_h256_t) (nonce : Nat) :
    (light_compute_internal_value H uninit light full_size header_hash nonce).success =
      (etschash_hash_value H { uninit with success := true } none light full_size
        header_hash nonce).1 := by
  dsimp only [light_compute_internal_value]
  by_cases h : full_size % MIX_WORDS = 0
  · rw [etschash_hash_ok H _ none light full_size header_hash nonce h]
    simp
  · rw [etschash_hash_fail H _ none light full_size header_hash nonce h]
    simp

/-- The flag `success` after `full_compute_value` is the flag `etschash_hash_value` returned. -/
theorem full_compute_success (H : Sha3) (uninit : etschash_return_value_t)
    (full : etschash_full) (light : etschash_light) (header_hash : etschash_h256_t)
    (nonce : Nat) :
    (full_compute_value H uninit full light header_hash nonce).success =
      (etschash_hash_value H { uninit with success := true } (some full.data) light full.file_size
        header_hash nonce).1 := by
  dsimp only [full_compute_value]
  by_cases h : full.file_size % MIX_WORDS = 0
  · rw [etschash_hash_ok H _ _ light full.file_size header_hash nonce h]
    simp
  · rw [etschash_hash_fail H _ _ light full.file_size header_hash nonce h]
    simp

/-- The flag `etschash_hash_value` returns says whether `full_size` is a multiple of
`MIX_WORDS = 32`. -/
theorem etschash_hash_flag (H : Sha3) (ret : etschash_return_value_t)
    (full_nodes : Option (List node)) (light : etschash_light) (full_size : Nat)
    (header_hash : etschash_h256_t) (nonce : Nat) :
    (etschash_hash_value H ret full_nodes light full_size header_hash nonce).1 =
      decide (full_size % 32 = 0) := by
  by_cases h : full_size % MIX_WORDS = 0
  · rw [etschash_hash_ok H _ _ light full_size header_hash nonce h]
    simpa [MIX_WORDS] using h
  · rw [etschash_hash_fail H _ _ light full_size header_hash nonce h]
    simpa [MIX_WORDS] using h

/-! ## Epoch range -/

/-- C12. Epoch range: for an epoch `block_number / 30000` below 2048 `etschash_get_datasize`
and `etschash_get_cachesize` return the table entry of that epoch; for an epoch of 2048 or
more the assertion fails, whatever the tables hold. -/
theorem epoch_range (dag_sizes cache_sizes : Nat → Nat) (block_number : Nat) :
    (block_number / 30000 < 2048 →
      etschash_get_datasize dag_sizes block_number = .ok (dag_sizes (block_number / 30000)) ∧
      etschash_get_cachesize cache_sizes block_number =
        .ok (cache_sizes (block_number / 30000))) ∧
    (2048 ≤ block_number / 30000 →
      etschash_get_datasize dag_sizes block_number = .error .assertion_failed ∧
      etschash_get_cachesize cache_sizes block_number = .error .assertion_failed) := by
  unfold etschash_get_datasize etschash_get_cachesize ETSCHASH_EPOCH_LENGTH
  constructor
  · intro h
    rw [if_pos h, if_pos h]
    exact ⟨rfl, rfl⟩
  · intro h
    rw [if_neg (by omega), if_neg (by omega)]
    exact ⟨rfl, rfl⟩

/-- C12 (witness). Instances of `epoch_range`: block 61439999 is of epoch 2047, the last one
tabulated; block 61440000 is of epoch 2048. -/
theorem epoch_range_witness :
    61439999 / 30000 < 2048 ∧ 2048 ≤ 61440000 / 30000 ∧
    etschash_get_datasize (fun e => 128 * (e + 1)) 61439999 = .ok (128 * (2047 + 1)) ∧
    etschash_get_cachesize (fun e => 64 * (e + 1)) 61439999 = .ok (64 * (2047 + 1)) ∧
    etschash_get_datasize (fun e => 128 * (e + 1)) 61440000 = .error .assertion_failed ∧
    etschash_get_cachesize (fun e => 64 * (e + 1)) 61440000 = .error .assertion_failed :=
  ⟨by decide, by decide,
    ((epoch_range (fun e => 128 * (e + 1)) (fun e => 64 * (e + 1)) 61439999).1 (by decide)).1,
    ((epoch_range (fun e => 128 * (e + 1)) (fun e => 64 * (e + 1)) 61439999).1 (by decide)).2,
    ((epoch_range (fun e => 128 * (e + 1)) (fun e => 64 * (e + 1)) 61440000).2 (by decide)).1,
    ((epoch_range (fun e => 128 * (e + 1)) (fun e => 64 * (e + 1)) 61440000).2 (by decide)).2⟩

/-! ## `etschash_light_new` on a NULL handle -/

/-- When `etschash_light_new_internal` returns NULL, `etschash_light_new` stores the block
number through the NULL handle. -/
theorem light_new_null (H : Sha3) (cache_sizes : Nat → Nat) (A : Alloc) (fuel : Nat)
    (block_number : Nat) (seedhash : etschash_h256_t) (cache_size : Nat)
    (hs : etschash_get_seedhash H fuel block_number = .ok seedhash)
    (hc : etschash_get_cachesize cache_sizes block_number = .ok cache_size)
    (hn : etschash_light_new_internal H A cache_size seedhash = .ok none) :
    etschash_light_new H cache_sizes A fuel block_number = .error .null_dereference := by
  unfold etschash_light_new
  rw [hs]
  simp only [bind, Except.bind, hc, hn]

/-- When `etschash_light_new_internal` returns a handle, `etschash_light_new` returns it with
the block number stored, the cache size being the table entry. -/
theorem light_new_handle (H : Sha3) (cache_sizes : Nat → Nat) (A : Alloc) (fuel : Nat)
    (block_number : Nat) (light : etschash_light)
    (h : etschash_light_new H cache_sizes A fuel block_number = .ok (some light)) :
    light.block_number = block_number ∧
      light.cache_size = cache_sizes (block_number / 30000) := by
  unfold etschash_light_new at h
  cases hs : etschash_get_seedhash H fuel block_number with
  | error e => rw [hs] at h; simp [bind, Except.bind] at h
  | ok seedhash =>
    rw [hs] at h
    unfold etschash_get_cachesize ETSCHASH_EPOCH_LENGTH at h
    by_cases h2048 : block_number / 30000 < 2048
    · rw [if_pos h2048] at h
      simp only [bind, Except.bind] at h
      unfold etschash_light_new_internal at h
      cases hc : A.calloc_ok
      · simp [hc] at h
      · cases hm : A.malloc with
        | none => simp [hc, hm] at h
        | some junk =>
          simp only [hc, hm, Bool.not_true, Bool.false_eq_true, if_false, bind,
            Except.bind] at h
          cases hcc : etschash_compute_cache_nodes H
              ((List.range (cache_sizes (block_number / 30000) / 64)).map junk)
              (cache_sizes (block_number / 30000)) seedhash with
          | error e => rw [hcc] at h; simp at h
          | ok r =>
            obtain ⟨ok, nodes⟩ := r
            rw [hcc] at h
            cases ok
            · simp [pure, Except.pure] at h
            · simp only [Bool.not_true, Bool.false_eq_true, if_false, pure, Except.pure,
                Except.ok.injEq, Option.some.injEq] at h
              rw [← h]
              exact ⟨rfl, rfl⟩
    · rw [if_neg h2048] at h
      simp [bind, Except.bind] at h

/-- C13 (the code at the failing input). For block 0, when `calloc` fails, and also when the
table holds a cache size that is not a multiple of 64 (65, which
`etschash_compute_cache_nodes` rejects), `etschash_light_new_internal` returns NULL and
`etschash_light_new` dereferences that NULL handle instead of returning it. -/
theorem light_new_dereferences_null (H : Sha3) (cache_sizes : Nat → Nat)
    (malloc : Option (Nat → node)) :
    etschash_light_new_internal H ⟨false, malloc⟩ (cache_sizes 0) etschash_h256_reset =
      .ok none ∧
    etschash_light_new H cache_sizes ⟨false, malloc⟩ 1 0 = .error .null_dereference ∧
    etschash_light_new_internal H alloc_zero 65 etschash_h256_reset = .ok none ∧
    etschash_light_new H (fun _ => 65) alloc_zero 1 0 = .error .null_dereference := by
  have hs : etschash_get_seedhash H 1 0 = .ok etschash_h256_reset := by
    simp [etschash_get_seedhash, seedhash_loop, ETSCHASH_EPOCH_LENGTH]
  have hc : ∀ t : Nat → Nat, etschash_get_cachesize t 0 = .ok (t 0) := by
    intro t
    simp [etschash_get_cachesize, ETSCHASH_EPOCH_LENGTH]
  have h1 : etschash_light_new_internal H ⟨false, malloc⟩ (cache_sizes 0)
      etschash_h256_reset = .ok none := by
    simp [etschash_light_new_internal]
  have h2 : etschash_light_new_internal H alloc_zero 65 etschash_h256_reset = .ok none := by
    simp [etschash_light_new_internal, alloc_zero, etschash_compute_cache_nodes, bind,
      Except.bind, pure, Except.pure]
  exact ⟨h1, light_new_null H cache_sizes _ 1 0 _ _ hs (hc _) h1, h2,
    light_new_null H (fun _ => 65) _ 1 0 _ _ hs (hc _) h2⟩

/-! ## Big-endian host -/

/-- The successful branch of `etschash_hash_be_value`. -/
theorem etschash_hash_be_ok (H : Sha3) (ret : etschash_return_value_t)
    (full_nodes : List node) (light : etschash_light) (full_size : Nat)
    (header_hash : etschash_h256_t) (nonce : Nat) (h : full_size % MIX_WORDS = 0) :
    etschash_hash_be_value H ret full_nodes light full_size header_hash nonce =
      (true, { ret with
        mix_hash := words_bytes_be (fix_endian_arr32_be
          ((compress_mix (hash_mix_value H (some full_nodes) light full_size
            (fix_endian_arr32_be (node_words_be (node_bytes
              (H.SHA3_512 (header_hash ++ be64 (etschash_swap_u64 nonce)))))))).take
            (MIX_WORDS / 4)))
        result := H.SHA3_256 (words_bytes_be (fix_endian_arr32_be (node_words_be (node_bytes
            (H.SHA3_512 (header_hash ++ be64 (etschash_swap_u64 nonce)))))) ++
          words_bytes_be (fix_endian_arr32_be
            ((compress_mix (hash_mix_value H (some full_nodes) light full_size
              (fix_endian_arr32_be (node_words_be (node_bytes
                (H.SHA3_512 (header_hash ++ be64 (etschash_swap_u64 nonce)))))))).take
              (MIX_WORDS / 4)))) }) := by
  unfold etschash_hash_be_value
  rw [if_neg (by simp [h])]

theorem probe_be_byte60 (ret : etschash_return_value_t) (full_nodes : List node)
    (light : etschash_light) :
    (etschash_hash_be_value probe ret full_nodes light 128 (List.replicate 32 1) 42).2.result.getD
      60 0 = 0 := by
  rw [etschash_hash_be_ok probe ret full_nodes light 128 _ 42 (by decide)]
  rfl

theorem probe_le_byte60 (ret : etschash_return_value_t) (full_nodes : List node)
    (light : etschash_light) :
    (etschash_hash_value probe ret (some full_nodes) light 128 (List.replicate 32 1) 42).2.result.getD
      60 0 = 1 := by
  rw [etschash_hash_ok probe ret _ light 128 _ 42 (by decide)]
  rfl

/-- The bytes of a 32-bit word given by its four bytes, most significant first. -/
theorem bytes_of_be32 (b0 b1 b2 b3 : Nat) (h0 : b0 < 256) (h1 : b1 < 256) (h2 : b2 < 256)
    (h3 : b3 < 256) :
    (b0 * 16777216 + b1 * 65536 + b2 * 256 + b3) / 16777216 % 256 = b0 ∧
    (b0 * 16777216 + b1 * 65536 + b2 * 256 + b3) / 65536 % 256 = b1 ∧
    (b0 * 16777216 + b1 * 65536 + b2 * 256 + b3) / 256 % 256 = b2 ∧
    (b0 * 16777216 + b1 * 65536 + b2 * 256 + b3) % 256 = b3 := by
  refine ⟨?_, ?_, ?_, ?_⟩ <;> omega

theorem be32_swap (w : Nat) : be32 (etschash_swap_u32 w) = le32 w := by
  obtain ⟨e0, e1, e2, e3⟩ := bytes_of_be32 (w % 256) (w / 256 % 256) (w / 65536 % 256)
    (w / 16777216 % 256) (Nat.mod_lt _ (by decide)) (Nat.mod_lt _ (by decide))
    (Nat.mod_lt _ (by decide)) (Nat.mod_lt _ (by decide))
  simp only [be32, le32, etschash_swap_u32, e0, e1, e2, e3]

/-- A 32-bit word is the sum of its four bytes. -/
theorem u32_bytes (x : Nat) :
    x / 16777216 % 256 * 16777216 + x / 65536 % 256 * 65536 + x / 256 % 256 * 256 + x % 256 =
      u32 x := by
  unfold u32
  rw [← Nat.mod_mul_right_div_self x 16777216 256, ← Nat.mod_mul_right_div_self x 65536 256,
    ← Nat.mod_mul_right_div_self x 256 256]
  omega

theorem swap_of_le_bytes (x : Nat) :
    etschash_swap_u32 (x % 256 * 16777216 + x / 256 % 256 * 65536 + x / 65536 % 256 * 256 +
      x / 16777216 % 256) = u32 x := by
  obtain ⟨e0, e1, e2, e3⟩ := bytes_of_be32 (x % 256) (x / 256 % 256) (x / 65536 % 256)
    (x / 16777216 % 256) (Nat.mod_lt _ (by decide)) (Nat.mod_lt _ (by decide))
    (Nat.mod_lt _ (by decide)) (Nat.mod_lt _ (by decide))
  rw [etschash_swap_u32, e0, e1, e2, e3]
  exact u32_bytes x

theorem node_words_be_swap (d : node) :
    fix_endian_arr32_be (node_words_be (node_bytes d)) = (node_words d).map u32 := by
  have e : List.range 16 = [0, 1, 2, 3, 4, 5, 6, 7, 8, 9, 10, 11, 12, 13, 14, 15] := by decide
  simp only [fix_endian_arr32_be, node_words_be, node_bytes, words_bytes, node_words,
    NODE_WORDS, e, List.map_cons, List.map_nil, List.flatMap_cons, List.flatMap_nil, le32,
    List.cons_append, List.nil_append, List.append_nil]
  norm_num only [List.getD_cons_succ, List.getD_cons_zero]
  simp only [swap_of_le_bytes]

/-- The bytes of a 64-bit word given by its eight bytes, least significant first. -/
theorem bytes_of_be64 (b0 b1 b2 b3 b4 b5 b6 b7 : Nat) (h0 : b0 < 256) (h1 : b1 < 256)
    (h2 : b2 < 256) (h3 : b3 < 256) (h4 : b4 < 256) (h5 : b5 < 256) (h6 : b6 < 256)
    (h7 : b7 < 256) (y : Nat)
    (hy : y = b0 * 72057594037927936 + (b1 * 281474976710656 + (b2 * 1099511627776 +
      (b3 * 4294967296 + (b4 * 16777216 + (b5 * 65536 + (b6 * 256 + (b7 * 1 + 0)))))))) :
    [y / 72057594037927936 % 256, y / 281474976710656 % 256, y / 1099511627776 % 256,
      y / 4294967296 % 256, y / 16777216 % 256, y / 65536 % 256, y / 256 % 256, y / 1 % 256] =
      [b0, b1, b2, b3, b4, b5, b6, b7] := by
  simp only [List.cons.injEq, and_true]
  refine ⟨?_, ?_, ?_, ?_, ?_, ?_, ?_, ?_⟩ <;> omega

theorem be64_swap (x : Nat) : be64 (etschash_swap_u64 x) = le64 x := by
  have e : List.range 8 = [0, 1, 2, 3, 4, 5, 6, 7] := by decide
  simp only [be64, le64, etschash_swap_u64, e, List.map_cons, List.map_nil, List.sum_cons,
    List.sum_nil]
  norm_num only
  exact bytes_of_be64 _ _ _ _ _ _ _ _ (Nat.mod_lt _ (by decide)) (Nat.mod_lt _ (by decide))
    (Nat.mod_lt _ (by decide)) (Nat.mod_lt _ (by decide)) (Nat.mod_lt _ (by decide))
    (Nat.mod_lt _ (by decide)) (Nat.mod_lt _ (by decide)) (Nat.mod_lt _ (by decide)) _ rfl

theorem words_bytes_be_swap (ws : List Nat) :
    words_bytes_be (fix_endian_arr32_be ws) = words_bytes ws := by
  unfold words_bytes_be fix_endian_arr32_be words_bytes
  induction ws with
  | nil => rfl
  | cons w ws ih =>
    simp only [List.map_cons, List.flatMap_cons, ih, be32_swap]

/-- On a big-endian host `etschash_hash_value` works on the same words as on a little-endian
host and returns the same mix hash; the final `SHA3_256` reads the node `s` in the byte order of
the host, that is with the four bytes of every word reversed.  The Keccak-512 digest of the
header and nonce is taken to be a whole node of 32-bit words. -/
theorem etschash_hash_be_eq (H : Sha3) (ret : etschash_return_value_t)
    (full_nodes : List node) (light : etschash_light) (full_size : Nat)
    (header_hash : etschash_h256_t) (nonce : Nat)
    (hlen : (H.SHA3_512 (header_hash ++ le64 nonce)).length = 16)
    (hw : ∀ w ∈ H.SHA3_512 (header_hash ++ le64 nonce), w < 4294967296)
    (h : full_size % MIX_WORDS = 0) :
    etschash_hash_be_value H ret full_nodes light full_size header_hash nonce =
      (true, { ret with
        mix_hash := (etschash_hash_value H ret (some full_nodes) light full_size header_hash
          nonce).2.mix_hash
        result := H.SHA3_256 (words_bytes_be (H.SHA3_512 (header_hash ++ le64 nonce)) ++
          (etschash_hash_value H ret (some full_nodes) light full_size header_hash
            nonce).2.mix_hash) }) := by
  have hs : fix_endian_arr32_be (node_words_be (node_bytes
      (H.SHA3_512 (header_hash ++ le64 nonce)))) = H.SHA3_512 (header_hash ++ le64 nonce) := by
    rw [node_words_be_swap, node_words_eq _ hlen]
    have : ∀ w ∈ H.SHA3_512 (header_hash ++ le64 nonce), u32 w = id w :=
      fun w hmem => u32_of_lt (hw w hmem)
    rw [List.map_congr_left this, List.map_id]
  rw [etschash_hash_be_ok H ret full_nodes light full_size header_hash nonce h, be64_swap, hs,
    words_bytes_be_swap, etschash_hash_ok H ret _ light full_size header_hash nonce h]

/-- On the values. With a stand-in for Keccak whose `SHA3_256` returns
its input and whose `SHA3_512` digest is zero but for the byte `01` at index 60, header
`01 .. 01`, nonce 42 and a dataset of 128 bytes, `etschash_hash_value` returns the same mix hash on
both hosts but different results: byte 60 of the final Keccak-256 input is `01` on a
little-endian host and `00` on a big-endian host, where the node `s` is still byte-swapped. -/
theorem hash_be_value_differs (ret : etschash_return_value_t) (full_nodes : List node)
    (light : etschash_light) :
    (etschash_hash_be_value probe ret full_nodes light 128 (List.replicate 32 1) 42).2.mix_hash =
      (etschash_hash_value probe ret (some full_nodes) light 128 (List.replicate 32 1)
        42).2.mix_hash ∧
    (etschash_hash_value probe ret (some full_nodes) light 128 (List.replicate 32 1)
      42).2.result.getD 60 0 = 1 ∧
    (etschash_hash_be_value probe ret full_nodes light 128 (List.replicate 32 1)
      42).2.result.getD 60 0 = 0 ∧
    (etschash_hash_be_value probe ret full_nodes light 128 (List.replicate 32 1) 42).2.result ≠
      (etschash_hash_value probe ret (some full_nodes) light 128 (List.replicate 32 1)
        42).2.result := by
  refine ⟨?_, probe_le_byte60 ret full_nodes light, probe_be_byte60 ret full_nodes light, ?_⟩
  · rw [etschash_hash_be_eq probe ret full_nodes light 128 _ 42 (by decide) (by decide)
      (by decide)]
  · intro e
    have h1 := probe_le_byte60 ret full_nodes light
    have h0 := probe_be_byte60 ret full_nodes light
    rw [e, h1] at h0
    exact absurd h0 (by decide)

/-! ## Termination of the seed-hash loop -/

/-- The counted loop is `seedhash_loop` with the count added. -/
theorem seedhash_loop_count_fst (H : Sha3) (epochs : Nat) :
    ∀ (fuel i : Nat) (ret : etschash_h256_t) (count : Nat),
      (seedhash_loop_count H epochs fuel i ret count).map Prod.fst =
        seedhash_loop H epochs fuel i ret := by
  intro fuel
  induction fuel with
  | zero => intro i ret count; rfl
  | succ fuel ih =>
    intro i ret count
    rw [seedhash_loop_count, seedhash_loop]
    by_cases hlt : i < epochs
    · rw [if_pos hlt, if_pos hlt, ih]
    · rw [if_neg hlt, if_neg hlt]
      rfl

/-- With `epochs < 2^32` the loop of `etschash_get_seedhash` ends after exactly the
remaining `epochs - i` executions of its body. -/
theorem seedhash_loop_count_ok (H : Sha3) (epochs : Nat) (he : epochs < 4294967296) :
    ∀ (fuel i : Nat) (ret : etschash_h256_t) (count : Nat), i ≤ epochs → epochs - i < fuel →
      seedhash_loop_count H epochs fuel i ret count =
        .ok (H.SHA3_256^[epochs - i] ret, count + (epochs - i)) := by
  intro fuel
  induction fuel with
  | zero => intro i ret count _ h; omega
  | succ fuel ih =>
    intro i ret count hi hf
    rw [seedhash_loop_count]
    by_cases hlt : i < epochs
    · rw [if_pos hlt, u32_of_lt (by omega), ih (i + 1) _ _ (by omega) (by omega)]
      have : epochs - i = (epochs - (i + 1)) + 1 := by omega
      rw [this, Function.iterate_succ_apply]
      congr 2
      omega
    · rw [if_neg hlt]
      have : epochs - i = 0 := by omega
      rw [this, Function.iterate_zero_apply]
      rfl

/-- With `epochs >= 2^32` the wrapping 32-bit counter stays below `epochs`: the loop of
`etschash_get_seedhash` does not end, whatever the number of tests allowed. -/
theorem seedhash_loop_count_diverges (H : Sha3) (epochs : Nat) (he : 4294967296 ≤ epochs) :
    ∀ (fuel i : Nat) (ret : etschash_h256_t) (count : Nat), i < 4294967296 →
      seedhash_loop_count H epochs fuel i ret count = .error .out_of_fuel := by
  intro fuel
  induction fuel with
  | zero => intro i ret count _; rfl
  | succ fuel ih =>
    intro i ret count hi
    rw [seedhash_loop_count, if_pos (by omega)]
    exact ih _ _ _ (by unfold u32; omega)

/-- C21 (the code at the failing input). For the 64-bit block numbers `30000 * 2^32` (the
least one with `epochs = 2^32`) and `2^64 - 1` (the greatest one, `epochs = 614891469123651`)
the loop of `etschash_get_seedhash` does not end after `epochs` iterations, nor after any
other number: whatever the fuel, the counted loop started as the function starts it runs
out of fuel, and so does `etschash_get_seedhash`.  For the block number just below, `30000 * 2^32 - 1`, it ends after exactly
`epochs = 2^32 - 1` iterations. -/
theorem seedhash_loop_no_exit (H : Sha3) (fuel : Nat) :
    128849018880000 < 2 ^ 64 ∧ 128849018880000 / ETSCHASH_EPOCH_LENGTH = 4294967296 ∧
    seedhash_loop_count H (128849018880000 / ETSCHASH_EPOCH_LENGTH) fuel 0
      etschash_h256_reset 0 = .error .out_of_fuel ∧
    18446744073709551615 / ETSCHASH_EPOCH_LENGTH = 614891469123651 ∧
    seedhash_loop_count H (18446744073709551615 / ETSCHASH_EPOCH_LENGTH) fuel 0
      etschash_h256_reset 0 = .error .out_of_fuel ∧
    etschash_get_seedhash H fuel 18446744073709551615 = .error .out_of_fuel ∧
    seedhash_loop_count H (128849018879999 / ETSCHASH_EPOCH_LENGTH) 4294967296 0
      etschash_h256_reset 0 =
        .ok (H.SHA3_256^[4294967295] etschash_h256_reset, 4294967295) := by
  have e1 : 128849018880000 / ETSCHASH_EPOCH_LENGTH = 4294967296 := by
    norm_num [ETSCHASH_EPOCH_LENGTH]
  have e2 : 18446744073709551615 / ETSCHASH_EPOCH_LENGTH = 614891469123651 := by
    norm_num [ETSCHASH_EPOCH_LENGTH]
  have e3 : 128849018879999 / ETSCHASH_EPOCH_LENGTH = 4294967295 := by
    norm_num [ETSCHASH_EPOCH_LENGTH]
  refine ⟨by norm_num, e1, ?_, e2, ?_, ?_, ?_⟩
  · rw [e1]
    exact seedhash_loop_count_diverges H _ (by norm_num) fuel 0 _ 0 (by norm_num)
  · rw [e2]
    exact seedhash_loop_count_diverges H _ (by norm_num) fuel 0 _ 0 (by norm_num)
  · unfold etschash_get_seedhash
    rw [e2]
    exact seedhash_loop_diverges H _ (by norm_num) fuel 0 _ (by norm_num)
  · rw [e3, seedhash_loop_count_ok H 4294967295 (by norm_num) 4294967296 0 _ 0 (by norm_num)
      (by norm_num)]

/-! ## The functions and their values -/

theorem umod_ok (a b : Nat) (h : b ≠ 0) : umod a b = .ok (a % b) := by
  simp [umod, h]

theorem umod_zero (a : Nat) : umod a 0 = .error .division_by_zero := by
  simp [umod]

/-- A monadic fold whose steps all succeed is the fold of their values. -/
theorem foldlM_ok {α β : Type} (f : α → β → Except Fault α) (g : α → β → α) (l : List β)
    (h : ∀ a b, b ∈ l → f a b = .ok (g a b)) :
    ∀ init, l.foldlM f init = .ok (l.foldl g init) := by
  induction l with
  | nil => intro init; rfl
  | cons x xs ih =>
    intro init
    rw [List.foldlM_cons, h init x (List.mem_cons_self _ _)]
    exact ih (fun a b hb => h a b (List.mem_cons_of_mem _ hb)) _

/-- A monadic fold over a list that is not empty fails when its first step fails. -/
theorem foldlM_error {α β : Type} (f : α → β → Except Fault α) (x : β) (xs : List β)
    (init : α) (e : Fault) (h : f init x = .error e) :
    (x :: xs).foldlM f init = .error e := by
  rw [List.foldlM_cons, h]
  rfl

theorem dag_item_round_eq_value (light : etschash_light) (node_index : Nat) (ret : node)
    (i : Nat) (h : num_parent_nodes light ≠ 0) :
    dag_item_round light node_index ret i =
      .ok (dag_item_round_value light node_index ret i) := by
  unfold dag_item_round dag_item_round_value
  rw [umod_ok _ _ h]
  rfl

/-- With a node count that is not zero `etschash_calculate_dag_item` returns, and what it
returns is `calculate_dag_item_value`. -/
theorem calculate_dag_item_eq_value (H : Sha3) (node_index : Nat) (light : etschash_light)
    (h : num_parent_nodes light ≠ 0) :
    etschash_calculate_dag_item H node_index light =
      .ok (calculate_dag_item_value H node_index light) := by
  unfold etschash_calculate_dag_item calculate_dag_item_value
  rw [umod_ok _ _ h]
  simp only [bind, Except.bind]
  rw [foldlM_ok _ (dag_item_round_value light node_index) _
    (fun a b _ => dag_item_round_eq_value light node_index a b h)]
  rfl

/-- With a node count of zero `etschash_calculate_dag_item` divides by zero. -/
theorem calculate_dag_item_traps (H : Sha3) (node_index : Nat) (light : etschash_light)
    (h : num_parent_nodes light = 0) :
    etschash_calculate_dag_item H node_index light = .error .division_by_zero := by
  unfold etschash_calculate_dag_item
  rw [h, umod_zero]
  rfl

theorem hash_dag_node_eq_value (H : Sha3) (full_nodes : Option (List node))
    (light : etschash_light) (index n : Nat)
    (h : full_nodes = none → num_parent_nodes light ≠ 0) :
    hash_dag_node H full_nodes light index n =
      .ok (hash_dag_node_value H full_nodes light index n) := by
  cases full_nodes with
  | none => exact calculate_dag_item_eq_value H _ light (h rfl)
  | some nodes => rfl

theorem hash_round_eq_value (H : Sha3) (full_nodes : Option (List node))
    (light : etschash_light) (full_size : Nat) (s : node) (mix : List Nat) (i : Nat)
    (hp : num_full_pages full_size ≠ 0)
    (h : full_nodes = none → num_parent_nodes light ≠ 0) :
    hash_round H full_nodes light full_size s mix i =
      .ok (hash_round_value H full_nodes light full_size s mix i) := by
  unfold hash_round hash_round_value
  rw [umod_ok _ _ hp]
  simp only [bind, Except.bind]
  exact foldlM_ok _ _ _ (fun a b _ => by
    rw [hash_dag_node_eq_value H full_nodes light _ b h]
    rfl) mix

theorem hash_round_traps (H : Sha3) (full_nodes : Option (List node))
    (light : etschash_light) (full_size : Nat) (s : node) (mix : List Nat) (i : Nat)
    (hp : num_full_pages full_size = 0) :
    hash_round H full_nodes light full_size s mix i = .error .division_by_zero := by
  unfold hash_round
  rw [hp, umod_zero]
  rfl

theorem hash_mix_eq_value (H : Sha3) (full_nodes : Option (List node))
    (light : etschash_light) (full_size : Nat) (s : node)
    (hp : num_full_pages full_size ≠ 0)
    (h : full_nodes = none → num_parent_nodes light ≠ 0) :
    hash_mix H full_nodes light full_size s =
      .ok (hash_mix_value H full_nodes light full_size s) := by
  unfold hash_mix hash_mix_value
  exact foldlM_ok _ _ _
    (fun a b _ => hash_round_eq_value H full_nodes light full_size s a b hp h) _

theorem hash_mix_traps (H : Sha3) (full_nodes : Option (List node))
    (light : etschash_light) (full_size : Nat) (s : node)
    (hp : num_full_pages full_size = 0) :
    hash_mix H full_nodes light full_size s = .error .division_by_zero := by
  unfold hash_mix
  have e : List.range ETSCHASH_ACCESSES = 0 :: (List.range 63).map (· + 1) := by decide
  rw [e]
  exact foldlM_error _ _ _ _ _ (hash_round_traps H full_nodes light full_size s _ 0 hp)

/-- A size that is not a multiple of `MIX_WORDS`: `etschash_hash` returns false and leaves
`*ret` as it was. -/
theorem etschash_hash_false (H : Sha3) (ret : etschash_return_value_t)
    (full_nodes : Option (List node)) (light : etschash_light) (full_size : Nat)
    (header_hash : etschash_h256_t) (nonce : Nat) (h : full_size % MIX_WORDS ≠ 0) :
    etschash_hash H ret full_nodes light full_size header_hash nonce = .ok (false, ret) := by
  unfold etschash_hash
  rw [if_pos h]

/-- When the page count is not zero and, on the light path, the node count of the cache is
not zero, `etschash_hash` returns, and what it returns is `etschash_hash_value`. -/
theorem etschash_hash_eq_value (H : Sha3) (ret : etschash_return_value_t)
    (full_nodes : Option (List node)) (light : etschash_light) (full_size : Nat)
    (header_hash : etschash_h256_t) (nonce : Nat)
    (hp : num_full_pages full_size ≠ 0)
    (h : full_nodes = none → num_parent_nodes light ≠ 0) :
    etschash_hash H ret full_nodes light full_size header_hash nonce =
      .ok (etschash_hash_value H ret full_nodes light full_size header_hash nonce) := by
  by_cases h32 : full_size % MIX_WORDS = 0
  · rw [etschash_hash_ok H ret full_nodes light full_size header_hash nonce h32]
    unfold etschash_hash
    rw [if_neg (by simp [h32])]
    simp only [fix_endian_arr32, hash_mix_eq_value H full_nodes light full_size _ hp h, bind,
      Except.bind, pure, Except.pure]
  · rw [etschash_hash_fail H ret full_nodes light full_size header_hash nonce h32,
      etschash_hash_false H ret full_nodes light full_size header_hash nonce h32]

/-- A size that passes the check of `etschash_hash` with a page count of zero: the first
round divides by zero. -/
theorem etschash_hash_traps (H : Sha3) (ret : etschash_return_value_t)
    (full_nodes : Option (List node)) (light : etschash_light) (full_size : Nat)
    (header_hash : etschash_h256_t) (nonce : Nat) (h32 : full_size % MIX_WORDS = 0)
    (hp : num_full_pages full_size = 0) :
    etschash_hash H ret full_nodes light full_size header_hash nonce =
      .error .division_by_zero := by
  unfold etschash_hash
  rw [if_neg (by simp [h32])]
  simp only [hash_mix_traps H full_nodes light full_size _ hp, bind, Except.bind]

/-- With a node count that is not zero the loop of `etschash_compute_full_data` is the loop
over the values of the DAG items. -/
theorem compute_full_loop_eq_value {σ : Type} (H : Sha3) (light : etschash_light)
    (callback : Option (σ → Nat → Int × σ)) (pct : Nat → Nat) (max_n : Nat)
    (h : num_parent_nodes light ≠ 0) :
    ∀ (fuel n : Nat) (st : full_state σ),
      compute_full_loop H light callback pct max_n fuel n st =
        compute_full_loop_value H light callback pct max_n fuel n st := by
  intro fuel
  induction fuel with
  | zero => intro n st; rfl
  | succ fuel ih =>
    intro n st
    rw [compute_full_loop, compute_full_loop_value]
    by_cases hn : n = max_n
    · rw [if_pos hn, if_pos hn]
    · rw [if_neg hn, if_neg hn]
      cases hpc : progress_check callback pct max_n n st with
      | error e => rfl
      | ok r =>
        obtain ⟨c, st1⟩ := r
        simp only [bind, Except.bind]
        cases c with
        | true => rfl
        | false =>
          simp only [Bool.false_eq_true, if_false, calculate_dag_item_eq_value H n light h]
          cases hw : node_write st1.full_nodes n (calculate_dag_item_value H n light) with
          | error e => rfl
          | ok nodes => exact ih _ _

theorem compute_full_data_eq_value {σ : Type} (H : Sha3) (mem : List node) (full_size : Nat)
    (light : etschash_light) (callback : Option (σ → Nat → Int × σ)) (pct : Nat → Nat)
    (cb0 : σ) (h : num_parent_nodes light ≠ 0) :
    etschash_compute_full_data H mem full_size light callback pct cb0 =
      compute_full_data_value H mem full_size light callback pct cb0 := by
  unfold etschash_compute_full_data compute_full_data_value
  by_cases hs : full_size % (4 * MIX_WORDS) ≠ 0 ∨ full_size % 64 ≠ 0
  · rw [if_pos hs, if_pos hs]
  · rw [if_neg hs, if_neg hs]
    exact compute_full_loop_eq_value H light callback pct _ h _ _ _

/-- Without a callback, with a node count of zero in the cache and at least one node to
compute, `etschash_compute_full_data` divides by zero in the first DAG item. -/
theorem compute_full_data_traps (H : Sha3) (mem : List node) (full_size : Nat)
    (light : etschash_light) (pct : Nat → Nat) (h128 : full_size % 128 = 0)
    (hpos : 0 < full_size) (hNd : full_size / 64 < 4294967296)
    (h : num_parent_nodes light = 0) :
    etschash_compute_full_data H mem full_size light
      (none : Option (Unit → Nat → Int × Unit)) pct () = .error .division_by_zero := by
  unfold etschash_compute_full_data
  rw [if_neg (by simp only [MIX_WORDS]; omega), u32_of_lt hNd]
  show compute_full_loop H light none pct (full_size / 64) (4294967295 + 1) 0 _ = _
  rw [compute_full_loop, if_neg (by omega)]
  simp only [progress_check, bind, Except.bind, Bool.false_eq_true, if_false,
    calculate_dag_item_traps H 0 light h]

/-- The cache `light_wrap` has `2^32` nodes, and its 32-bit node count is 0. -/
theorem light_wrap_nodes :
    num_parent_nodes light_wrap = 0 ∧
    light_wrap.cache.length = light_wrap.cache_size / 64 := by
  refine ⟨?_, ?_⟩
  · show u32 (64 * 4294967296 / 64) = 0
    norm_num [u32]
  · show (List.replicate 4294967296 _).length = 64 * 4294967296 / 64
    rw [List.length_replicate]

/-- With a callback whose first call returns 0, at least 100 nodes to compute and a node
count of zero in the cache, `etschash_compute_full_data` divides by zero in the first DAG
item. -/
theorem compute_full_data_callback_traps {σ : Type} (H : Sha3) (mem : List node)
    (full_size : Nat) (light : etschash_light) (cb : σ → Nat → Int × σ) (pct : Nat → Nat)
    (cb0 : σ) (h128 : full_size % 128 = 0) (h100 : 100 ≤ full_size / 64)
    (hNd : full_size / 64 < 4294967296) (h0 : (cb cb0 (pct 0)).1 = 0)
    (h : num_parent_nodes light = 0) :
    etschash_compute_full_data H mem full_size light (some cb) pct cb0 =
      .error .division_by_zero := by
  unfold etschash_compute_full_data
  rw [if_neg (by simp only [MIX_WORDS]; omega), u32_of_lt hNd]
  show compute_full_loop H light (some cb) pct (full_size / 64) (4294967295 + 1) 0 _ = _
  rw [compute_full_loop, if_neg (by omega)]
  have hs : full_size / 64 / 100 ≠ 0 := by omega
  simp only [progress_check, hs, if_false, Nat.zero_mod, ne_eq, not_true_eq_false, h0,
    decide_False, bind, Except.bind, Bool.false_eq_true,
    calculate_dag_item_traps H 0 light h]

/-! ## DAG item, quick hash, materialiser -/

theorem num_parent_nodes_ne_zero (light : etschash_light) (h1 : 1 ≤ light.cache_size / 64)
    (h : light.cache_size / 64 < 4294967296) : num_parent_nodes light ≠ 0 := by
  rw [num_parent_nodes, u32_of_lt h]
  omega

theorem one_le_of_num_parent_nodes (light : etschash_light) (h : num_parent_nodes light ≠ 0) :
    1 ≤ light.cache_size / 64 := by
  rcases Nat.eq_zero_or_pos (light.cache_size / 64) with h0 | h0
  · exact absurd (by rw [num_parent_nodes, h0]; rfl) h
  · exact h0

theorem num_full_pages_ne_zero (full_size : Nat) (h128 : full_size % 128 = 0)
    (hpos : 0 < full_size) (hb : full_size / 128 < 4294967296) :
    num_full_pages full_size ≠ 0 := by
  unfold num_full_pages
  rw [MIX_WORDS, u32_of_lt (by omega)]
  omega

/-- C6 (amended). For every cache of `1 <= N_c < 2^32` nodes (`N_c = cache_size / 64`) and
every 32-bit node index `k`, `etschash_calculate_dag_item` returns, and what it returns is
the DAG item of spec section 4.G; `SHA3_512` is any function that yields whole nodes. -/
theorem calculate_dag_item_eq_ref (H : Sha3) (light : etschash_light) (k : Nat)
    (hK : ∀ x, (H.SHA3_512 x).length = 16)
    (hN1 : 1 ≤ light.cache_size / 64) (hN : light.cache_size / 64 < 4294967296)
    (hk : k < 4294967296) :
    etschash_calculate_dag_item H k light =
      .ok (dag_item_ref H light.cache (light.cache_size / 64) k) := by
  rw [calculate_dag_item_eq_value H k light (num_parent_nodes_ne_zero light hN1 hN),
    dag_item_value_eq_ref H light k hK hN1 hN hk]

/-- C6 (witness). An instance of `calculate_dag_item_eq_ref`: DAG item 5 over a cache of one
node. -/
theorem calculate_dag_item_eq_ref_witness :
    1 ≤ light_one.cache_size / 64 ∧ light_one.cache_size / 64 < 4294967296 ∧
    etschash_calculate_dag_item toy 5 light_one =
      .ok (dag_item_ref toy light_one.cache (light_one.cache_size / 64) 5) :=
  ⟨by decide, by decide,
    calculate_dag_item_eq_ref toy light_one 5 toy_length (by decide) (by decide) (by decide)⟩

/-- C6 (counterexample). A cache of `N_c = 2^32 + 1` nodes: the code reduces the node count
to 32 bits, `num_parent_nodes = 1`, and starts DAG item 1 from `cache[0]`, where the spec
takes `cache[1 mod N_c] = cache[1]`; with `probe` for Keccak the function returns a node
that is not the one of the spec. -/
theorem calculate_dag_item_truncates_node_count :
    1 ≤ light_big.cache_size / 64 ∧ (1 : Nat) < 4294967296 ∧
    etschash_calculate_dag_item probe 1 light_big =
      .ok (calculate_dag_item_value probe 1 light_big) ∧
    etschash_calculate_dag_item probe 1 light_big ≠
      .ok (dag_item_ref probe light_big.cache (light_big.cache_size / 64) 1) := by
  obtain ⟨h1, h2, h3⟩ := dag_item_value_truncates
  have hn : num_parent_nodes light_big ≠ 0 := by
    rw [light_big_nodes.1]
    decide
  refine ⟨h1, h2, calculate_dag_item_eq_value probe 1 light_big hn, ?_⟩
  rw [calculate_dag_item_eq_value probe 1 light_big hn]
  intro e
  exact h3 (Except.ok.inj e)

/-- C2. Quick-verify consistency: whenever `etschash_hash` returns true (either DAG source),
`etschash_quick_hash` of the header, the nonce and the returned mix hash is the returned
result. -/
theorem quick_hash_consistent (H : Sha3) (ret : etschash_return_value_t)
    (full_nodes : Option (List node)) (light : etschash_light) (full_size : Nat)
    (header_hash : etschash_h256_t) (nonce : Nat) (r : etschash_return_value_t)
    (hs : etschash_hash H ret full_nodes light full_size header_hash nonce = .ok (true, r)) :
    etschash_quick_hash H header_hash nonce r.mix_hash = r.result := by
  unfold etschash_hash at hs
  by_cases h : full_size % MIX_WORDS = 0
  · rw [if_neg (by simp [h])] at hs
    cases hm : hash_mix H full_nodes light full_size
        (fix_endian_arr32 (H.SHA3_512 (header_hash ++ le64 nonce))) with
    | error e =>
      simp only [hm, bind, Except.bind] at hs
      exact absurd hs (by simp)
    | ok mix =>
      simp only [hm, bind, Except.bind, pure, Except.pure, Except.ok.injEq, Prod.mk.injEq,
        true_and] at hs
      rw [← hs]
      simp only [etschash_quick_hash, fix_endian_arr32]
  · rw [if_pos h] at hs
    simp at hs

/-- C2 (witness). An instance of `quick_hash_consistent`: the light path on a dataset of 128
bytes. -/
theorem quick_hash_consistent_witness :
    etschash_hash toy ⟨[], [], true⟩ none light_one 128 (List.replicate 32 1) 42 =
      .ok (true, (etschash_hash_value toy ⟨[], [], true⟩ none light_one 128
        (List.replicate 32 1) 42).2) ∧
    etschash_quick_hash toy (List.replicate 32 1) 42
        (etschash_hash_value toy ⟨[], [], true⟩ none light_one 128
          (List.replicate 32 1) 42).2.mix_hash =
      (etschash_hash_value toy ⟨[], [], true⟩ none light_one 128
        (List.replicate 32 1) 42).2.result := by
  have h : etschash_hash toy ⟨[], [], true⟩ none light_one 128 (List.replicate 32 1) 42 =
      .ok (true, (etschash_hash_value toy ⟨[], [], true⟩ none light_one 128
        (List.replicate 32 1) 42).2) := by
    rw [etschash_hash_eq_value toy _ none light_one 128 _ 42 (by decide) (fun _ => by decide),
      etschash_hash_ok toy _ none light_one 128 _ 42 (by decide)]
  exact ⟨h, quick_hash_consistent toy ⟨[], [], true⟩ none light_one 128 (List.replicate 32 1)
    42 _ h⟩

/-- C9 (amended). Full-DAG materialiser without a callback: a size that is not a multiple of both 64
and 128 gives `false` with the region untouched and no node computed; otherwise, with
`N_d = full_size / 64 < 2^32` and a cache whose 32-bit node count is not zero, the result is
`true`, the nodes stored are exactly `0, 1, .., N_d - 1`, once each and in order, node `k`
holds what `etschash_calculate_dag_item k light` returns, and the region from index `N_d` on
is unchanged. -/
theorem compute_full_data_no_callback (H : Sha3) (light : etschash_light) (mem : List node)
    (full_size : Nat) (pct : Nat → Nat) :
    (¬ (full_size % 64 = 0 ∧ full_size % 128 = 0) →
      etschash_compute_full_data H mem full_size light
        (none : Option (Unit → Nat → Int × Unit)) pct () = .ok (false, ⟨mem, (), []⟩)) ∧
    (full_size % 64 = 0 → full_size % 128 = 0 → full_size / 64 < 4294967296 →
      full_size / 64 ≤ mem.length → num_parent_nodes light ≠ 0 →
      ∃ st items, etschash_compute_full_data H mem full_size light
          (none : Option (Unit → Nat → Int × Unit)) pct () = .ok (true, st) ∧
        st.trace = (List.range (full_size / 64)).map Event.dag_item ∧
        items.length = full_size / 64 ∧
        (∀ k, k < full_size / 64 →
          etschash_calculate_dag_item H k light = .ok (items.getD k [])) ∧
        st.full_nodes = items ++ mem.drop (full_size / 64)) := by
  constructor
  · intro h
    unfold etschash_compute_full_data
    have : full_size % (4 * MIX_WORDS) ≠ 0 ∨ full_size % 64 ≠ 0 := by
      simp only [MIX_WORDS]
      omega
    rw [if_pos this]
  · intro h64 h128 hNd hlen hn
    obtain ⟨st, h1, h2, h3⟩ := compute_full_data_none_ok H light mem full_size pct h64 h128
      hNd hlen
    refine ⟨st, (List.range (full_size / 64)).map
      (fun k => calculate_dag_item_value H k light), ?_, h2, by simp, ?_, h3⟩
    · rw [compute_full_data_eq_value H mem full_size light _ pct () hn]
      exact h1
    · intro k hk
      rw [calculate_dag_item_eq_value H k light hn, List.getD_eq_getElem?_getD,
        List.getElem?_map, List.getElem?_range hk]
      rfl

/-- C9 (witness). An instance of `compute_full_data_no_callback`: sizes 100 and 128. -/
theorem compute_full_data_no_callback_witness :
    etschash_compute_full_data toy [[]] 100 light_one
        (none : Option (Unit → Nat → Int × Unit)) (fun _ => 0) () =
      .ok (false, ⟨[[]], (), []⟩) ∧
    ∃ st items, etschash_compute_full_data toy [[], [], [9]] 128 light_one
        (none : Option (Unit → Nat → Int × Unit)) (fun _ => 0) () = .ok (true, st) ∧
      st.trace = (List.range (128 / 64)).map Event.dag_item ∧
      items.length = 128 / 64 ∧
      (∀ k, k < 128 / 64 → etschash_calculate_dag_item toy k light_one =
        .ok (items.getD k [])) ∧
      st.full_nodes = items ++ ([[], [], [9]] : List node).drop (128 / 64) :=
  ⟨(compute_full_data_no_callback toy light_one [[]] 100 (fun _ => 0)).1 (by decide),
    (compute_full_data_no_callback toy light_one [[], [], [9]] 128 (fun _ => 0)).2
      (by decide) (by decide) (by decide) (by decide) (by decide)⟩

/-- C9 (counterexample). A dataset of 128 bytes (a multiple of 64 and of 128, with
`N_d = 2`) materialised from a cache of `2^32` nodes: the 32-bit node count of the cache is 0,
the first call of `etschash_calculate_dag_item` divides by it, and
`etschash_compute_full_data` does not return true. -/
theorem compute_full_data_wrapped_cache :
    128 % 64 = 0 ∧ 128 % 128 = 0 ∧ 128 / 64 < 4294967296 ∧
    light_wrap.cache.length = light_wrap.cache_size / 64 ∧
    num_parent_nodes light_wrap = 0 ∧
    etschash_compute_full_data toy [[], []] 128 light_wrap
        (none : Option (Unit → Nat → Int × Unit)) (fun _ => 0) () =
      .error .division_by_zero ∧
    ¬ ∃ st, etschash_compute_full_data toy [[], []] 128 light_wrap
        (none : Option (Unit → Nat → Int × Unit)) (fun _ => 0) () = .ok (true, st) := by
  have h := compute_full_data_traps toy [[], []] 128 light_wrap (fun _ => 0) (by decide)
    (by decide) (by decide) light_wrap_nodes.1
  refine ⟨by decide, by decide, by decide, light_wrap_nodes.2, light_wrap_nodes.1, h, ?_⟩
  rintro ⟨st, hst⟩
  rw [h] at hst
  exact absurd hst (by simp)

/-- C1. Light/Full equivalence: for every light client and a dataset size that is a positive
multiple of 128 with `dataset_size / 64 < 2^32`, whenever `etschash_compute_full_data`
without a callback has filled a region, `etschash_hash` reading that region returns the same
flag, result and mix hash as `etschash_hash` with `full_nodes = NULL`, for every header hash
and nonce; and when the 32-bit node count of the cache is not zero the region is filled and
both calls return true. -/
theorem hash_light_full_equivalence (H : Sha3) (light : etschash_light) (mem : List node)
    (full_size : Nat) (pct : Nat → Nat) (ret : etschash_return_value_t)
    (header_hash : etschash_h256_t) (nonce : Nat)
    (hpos : 0 < full_size) (h128 : full_size % 128 = 0)
    (hNd : full_size / 64 < 4294967296) (hlen : full_size / 64 ≤ mem.length) :
    (∀ st, etschash_compute_full_data H mem full_size light
        (none : Option (Unit → Nat → Int × Unit)) pct () = .ok (true, st) →
      etschash_hash H ret (some st.full_nodes) light full_size header_hash nonce =
        etschash_hash H ret none light full_size header_hash nonce) ∧
    (num_parent_nodes light ≠ 0 →
      ∃ st r, etschash_compute_full_data H mem full_size light
          (none : Option (Unit → Nat → Int × Unit)) pct () = .ok (true, st) ∧
        etschash_hash H ret (some st.full_nodes) light full_size header_hash nonce =
          .ok (true, r) ∧
        etschash_hash H ret none light full_size header_hash nonce = .ok (true, r)) := by
  have hp : num_full_pages full_size ≠ 0 := num_full_pages_ne_zero full_size h128 hpos (by omega)
  have h32 : full_size % MIX_WORDS = 0 := by rw [MIX_WORDS]; omega
  have key : num_parent_nodes light ≠ 0 →
      ∃ st r, etschash_compute_full_data H mem full_size light
          (none : Option (Unit → Nat → Int × Unit)) pct () = .ok (true, st) ∧
        etschash_hash H ret (some st.full_nodes) light full_size header_hash nonce =
          .ok (true, r) ∧
        etschash_hash H ret none light full_size header_hash nonce = .ok (true, r) := by
    intro hn
    obtain ⟨st, h1, h2⟩ := value_light_full_equiv H light mem full_size pct ret header_hash
      nonce (one_le_of_num_parent_nodes light hn) hpos h128 hNd hlen
    refine ⟨st, (etschash_hash_value H ret none light full_size header_hash nonce).2, ?_, ?_,
      ?_⟩
    · rw [compute_full_data_eq_value H mem full_size light _ pct () hn]
      exact h1
    · rw [etschash_hash_eq_value H ret _ light full_size header_hash nonce hp
        (fun e => by simp at e), h2,
        etschash_hash_ok H ret none light full_size header_hash nonce h32]
    · rw [etschash_hash_eq_value H ret none light full_size header_hash nonce hp (fun _ => hn),
        etschash_hash_ok H ret none light full_size header_hash nonce h32]
  refine ⟨?_, key⟩
  intro st hst
  by_cases hn : num_parent_nodes light = 0
  · rw [compute_full_data_traps H mem full_size light pct h128 hpos hNd hn] at hst
    exact absurd hst (by simp)
  · obtain ⟨st', r, h1, h2, h3⟩ := key hn
    rw [h1] at hst
    have e : st' = st := by
      simpa using hst
    rw [← e, h2, h3]

/-- C1 (witness). An instance of `hash_light_full_equivalence`: one cache node, a dataset of
128 bytes. -/
theorem hash_light_full_equivalence_witness :
    0 < 128 ∧ 128 % 128 = 0 ∧ num_parent_nodes light_one ≠ 0 ∧
    ∃ st r, etschash_compute_full_data toy [[], []] 128 light_one
        (none : Option (Unit → Nat → Int × Unit)) (fun _ => 0) () = .ok (true, st) ∧
      etschash_hash toy ⟨[], [], true⟩ (some st.full_nodes) light_one 128
          (List.replicate 32 1) 42 = .ok (true, r) ∧
      etschash_hash toy ⟨[], [], true⟩ none light_one 128 (List.replicate 32 1) 42 =
        .ok (true, r) :=
  ⟨by decide, by decide, by decide,
    (hash_light_full_equivalence toy light_one [[], []] 128 (fun _ => 0) ⟨[], [], true⟩
      (List.replicate 32 1) 42 (by decide) (by decide) (by decide) (by decide)).2
      (by decide)⟩

/-! ## The progress callback -/

/-- The progress test at index `n`, the callback being in the state `callback_state` gives
for `n`: at a multiple of the step the callback is called, and the test says whether it
returned a value other than 0. -/
theorem progress_check_eval {σ : Type} (cb : σ → Nat → Int × σ) (pct : Nat → Nat)
    (max_n : Nat) (cb0 : σ) (n : Nat) (st : full_state σ) (hstep : max_n / 100 ≠ 0)
    (hcb : st.cb = callback_state cb pct (max_n / 100) cb0 n) :
    progress_check (some cb) pct max_n n st =
      if n % (max_n / 100) = 0 then
        .ok (decide (callback_ret cb pct (max_n / 100) cb0 n ≠ 0),
          { st with
            cb := callback_state cb pct (max_n / 100) cb0 (n + 1)
            trace := st.trace ++
              [Event.callback n (pct n) (callback_ret cb pct (max_n / 100) cb0 n)] })
      else .ok (false, st) := by
  unfold progress_check
  simp only [hstep, if_false]
  by_cases hm : n % (max_n / 100) = 0
  · simp only [hm, ne_eq, not_true_eq_false, if_false, if_true, hcb, callback_ret,
      callback_state]
  · simp only [hm, ne_eq, not_false_eq_true, if_true, if_false]

/-- The loop of `etschash_compute_full_data` with a callback, from index `n`, when the call at
index `m` is the first one from `n` on that does not return 0: the loop computes the items
`n .. m - 1`, calling the callback at the multiples of the step, and returns false right
after the call at `m`. -/
theorem full_loop_value_cancelled {σ : Type} (H : Sha3) (light : etschash_light)
    (cb : σ → Nat → Int × σ) (pct : Nat → Nat) (max_n : Nat) (cb0 : σ) (m : Nat)
    (hmax : max_n < 4294967296) (hstep : max_n / 100 ≠ 0) (hm : m < max_n)
    (hmm : m % (max_n / 100) = 0) (hret : callback_ret cb pct (max_n / 100) cb0 m ≠ 0) :
    ∀ (fuel n : Nat) (st : full_state σ), n ≤ m → max_n - n < fuel →
      max_n ≤ st.full_nodes.length →
      st.cb = callback_state cb pct (max_n / 100) cb0 n →
      (∀ k, n ≤ k → k < m → k % (max_n / 100) = 0 →
        callback_ret cb pct (max_n / 100) cb0 k = 0) →
      ∃ st', compute_full_loop_value H light (some cb) pct max_n fuel n st = .ok (false, st') ∧
        st'.trace = st.trace ++ (List.range' n (m - n)).flatMap (fun k =>
            (if k % (max_n / 100) = 0 then [Event.callback k (pct k) 0] else []) ++
              [Event.dag_item k]) ++
          [Event.callback m (pct m) (callback_ret cb pct (max_n / 100) cb0 m)] ∧
        st'.cb = callback_state cb pct (max_n / 100) cb0 (m + 1) ∧
        st'.full_nodes.length = st.full_nodes.length ∧
        (∀ k, n ≤ k → k < m →
          st'.full_nodes[k]? = some (calculate_dag_item_value H k light)) ∧
        (∀ k, k < n ∨ m ≤ k → st'.full_nodes[k]? = st.full_nodes[k]?) := by
  intro fuel
  induction fuel with
  | zero => intro n st _ h; omega
  | succ fuel ih =>
    intro n st hn hf hlen hcb hzero
    have hpc := progress_check_eval cb pct max_n cb0 n st hstep hcb
    by_cases hnm : n = m
    · subst hnm
      rw [if_pos hmm] at hpc
      rw [compute_full_loop_step H light (some cb) pct max_n fuel n st _ _ hm hmax
        (by simpa using hlen) hpc]
      simp only [hret, ne_eq, not_false_eq_true, decide_True, if_true]
      exact ⟨_, rfl, by simp, rfl, rfl, fun k h1 h2 => by omega, fun k _ => rfl⟩
    · have hlt : n < m := by omega
      by_cases hmod : n % (max_n / 100) = 0
      · have hz := hzero n (le_refl _) hlt hmod
        rw [if_pos hmod] at hpc
        rw [compute_full_loop_step H light (some cb) pct max_n fuel n st _ _ (by omega) hmax
          (by simpa using hlen) hpc]
        simp only [hz, ne_eq, not_true_eq_false, decide_False, Bool.false_eq_true, if_false]
        obtain ⟨st', h1, h2, h3, h4, h5, h6⟩ := ih (n + 1)
          { full_nodes := st.full_nodes.set n (calculate_dag_item_value H n light)
            cb := callback_state cb pct (max_n / 100) cb0 (n + 1)
            trace := st.trace ++ [Event.callback n (pct n) 0] ++ [Event.dag_item n] }
          (by omega) (by omega) (by simpa using hlen) rfl
          (fun k hk1 hk2 hk3 => hzero k (by omega) hk2 hk3)
        refine ⟨st', h1, ?_, h3, by simpa using h4, ?_, ?_⟩
        · rw [h2]
          have : m - n = (m - (n + 1)) + 1 := by omega
          rw [this, List.range'_succ]
          simp [hmod]
        · intro k hk1 hk2
          by_cases hkn : k = n
          · subst hkn
            rw [h6 k (Or.inl (by omega))]
            simp only [List.getElem?_set]
            simp
            omega
          · exact h5 k (by omega) hk2
        · intro k hk
          rw [h6 k (by omega)]
          simp only [List.getElem?_set]
          have : n ≠ k := by omega
          simp [this]
      · rw [if_neg hmod] at hpc
        rw [compute_full_loop_step H light (some cb) pct max_n fuel n st _ _ (by omega) hmax
          (by simpa using hlen) hpc]
        simp only [Bool.false_eq_true, if_false]
        have hcb' : st.cb = callback_state cb pct (max_n / 100) cb0 (n + 1) := by
          rw [callback_state, if_neg hmod]
          exact hcb
        obtain ⟨st', h1, h2, h3, h4, h5, h6⟩ := ih (n + 1)
          { st with
            full_nodes := st.full_nodes.set n (calculate_dag_item_value H n light)
            trace := st.trace ++ [Event.dag_item n] }
          (by omega) (by omega) (by simpa using hlen) hcb'
          (fun k hk1 hk2 hk3 => hzero k (by omega) hk2 hk3)
        refine ⟨st', h1, ?_, h3, by simpa using h4, ?_, ?_⟩
        · rw [h2]
          have : m - n = (m - (n + 1)) + 1 := by omega
          rw [this, List.range'_succ]
          simp [hmod]
        · intro k hk1 hk2
          by_cases hkn : k = n
          · subst hkn
            rw [h6 k (Or.inl (by omega))]
            simp only [List.getElem?_set]
            simp
            omega
          · exact h5 k (by omega) hk2
        · intro k hk
          rw [h6 k (by omega)]
          simp only [List.getElem?_set]
          have : n ≠ k := by omega
          simp [this]

/-- The loop of `etschash_compute_full_data` with a callback, from index `n`, when every call
from `n` on returns 0: the loop computes the items `n .. max_n - 1`, calling the callback at
the multiples of the step, and returns true. -/
theorem full_loop_value_completed {σ : Type} (H : Sha3) (light : etschash_light)
    (cb : σ → Nat → Int × σ) (pct : Nat → Nat) (max_n : Nat) (cb0 : σ)
    (hmax : max_n < 4294967296) (hstep : max_n / 100 ≠ 0) :
    ∀ (fuel n : Nat) (st : full_state σ), n ≤ max_n → max_n - n < fuel →
      max_n ≤ st.full_nodes.length →
      st.cb = callback_state cb pct (max_n / 100) cb0 n →
      (∀ k, n ≤ k → k < max_n → k % (max_n / 100) = 0 →
        callback_ret cb pct (max_n / 100) cb0 k = 0) →
      ∃ st', compute_full_loop_value H light (some cb) pct max_n fuel n st = .ok (true, st') ∧
        st'.trace = st.trace ++ (List.range' n (max_n - n)).flatMap (fun k =>
            (if k % (max_n / 100) = 0 then [Event.callback k (pct k) 0] else []) ++
              [Event.dag_item k]) ∧
        st'.cb = callback_state cb pct (max_n / 100) cb0 max_n ∧
        st'.full_nodes.length = st.full_nodes.length ∧
        (∀ k, n ≤ k → k < max_n →
          st'.full_nodes[k]? = some (calculate_dag_item_value H k light)) ∧
        (∀ k, k < n ∨ max_n ≤ k → st'.full_nodes[k]? = st.full_nodes[k]?) := by
  intro fuel
  induction fuel with
  | zero => intro n st _ h; omega
  | succ fuel ih =>
    intro n st hn hf hlen hcb hzero
    by_cases hnm : n = max_n
    · subst hnm
      refine ⟨st, ?_, by simp, hcb, rfl, fun k h1 h2 => by omega, fun k _ => rfl⟩
      simp [compute_full_loop_value]
    · have hlt : n < max_n := by omega
      have hpc := progress_check_eval cb pct max_n cb0 n st hstep hcb
      by_cases hmod : n % (max_n / 100) = 0
      · have hz := hzero n (le_refl _) hlt hmod
        rw [if_pos hmod] at hpc
        rw [compute_full_loop_step H light (some cb) pct max_n fuel n st _ _ hlt hmax
          (by simpa using hlen) hpc]
        simp only [hz, ne_eq, not_true_eq_false, decide_False, Bool.false_eq_true, if_false]
        obtain ⟨st', h1, h2, h3, h4, h5, h6⟩ := ih (n + 1)
          { full_nodes := st.full_nodes.set n (calculate_dag_item_value H n light)
            cb := callback_state cb pct (max_n / 100) cb0 (n + 1)
            trace := st.trace ++ [Event.callback n (pct n) 0] ++ [Event.dag_item n] }
          (by omega) (by omega) (by simpa using hlen) rfl
          (fun k hk1 hk2 hk3 => hzero k (by omega) hk2 hk3)
        refine ⟨st', h1, ?_, h3, by simpa using h4, ?_, ?_⟩
        · rw [h2]
          have : max_n - n = (max_n - (n + 1)) + 1 := by omega
          rw [this, List.range'_succ]
          simp [hmod]
        · intro k hk1 hk2
          by_cases hkn : k = n
          · subst hkn
            rw [h6 k (Or.inl (by omega))]
            simp only [List.getElem?_set]
            simp
            omega
          · exact h5 k (by omega) hk2
        · intro k hk
          rw [h6 k (by omega)]
          simp only [List.getElem?_set]
          have : n ≠ k := by omega
          simp [this]
      · rw [if_neg hmod] at hpc
        rw [compute_full_loop_step H light (some cb) pct max_n fuel n st _ _ hlt hmax
          (by simpa using hlen) hpc]
        simp only [Bool.false_eq_true, if_false]
        have hcb' : st.cb = callback_state cb pct (max_n / 100) cb0 (n + 1) := by
          rw [callback_state, if_neg hmod]
          exact hcb
        obtain ⟨st', h1, h2, h3, h4, h5, h6⟩ := ih (n + 1)
          { st with
            full_nodes := st.full_nodes.set n (calculate_dag_item_value H n light)
            trace := st.trace ++ [Event.dag_item n] }
          (by omega) (by omega) (by simpa using hlen) hcb'
          (fun k hk1 hk2 hk3 => hzero k (by omega) hk2 hk3)
        refine ⟨st', h1, ?_, h3, by simpa using h4, ?_, ?_⟩
        · rw [h2]
          have : max_n - n = (max_n - (n + 1)) + 1 := by omega
          rw [this, List.range'_succ]
          simp [hmod]
        · intro k hk1 hk2
          by_cases hkn : k = n
          · subst hkn
            rw [h6 k (Or.inl (by omega))]
            simp only [List.getElem?_set]
            simp
            omega
          · exact h5 k (by omega) hk2
        · intro k hk
          rw [h6 k (by omega)]
          simp only [List.getElem?_set]
          have : n ≠ k := by omega
          simp [this]

/-- The region after a run that stored the items below `m`: those items, then the rest of
the region as it was. -/
theorem region_of_getElem? (H : Sha3) (light : etschash_light) (mem nodes : List node)
    (m : Nat)
    (h1 : ∀ k, 0 ≤ k → k < m → nodes[k]? = some (calculate_dag_item_value H k light))
    (h2 : ∀ k, k < 0 ∨ m ≤ k → nodes[k]? = mem[k]?) :
    nodes = (List.range m).map (fun k => calculate_dag_item_value H k light) ++ mem.drop m := by
  apply List.ext_getElem?
  intro k
  by_cases hk : k < m
  · rw [h1 k (Nat.zero_le _) hk, List.getElem?_append_left (by simpa using hk)]
    simp [hk]
  · rw [h2 k (Or.inr (by omega)), List.getElem?_append_right (by simp; omega)]
    simp only [List.length_map, List.length_range, List.getElem?_drop]
    congr 1
    omega

/-- C10 (amended). Cancellation: for a valid `full_size` (a multiple of 128 with
`100 <= N_d = full_size / 64 < 2^32`), a cache whose 32-bit node count is not zero and every
callback, `etschash_compute_full_data` calls the callback at the indices that are multiples
of `N_d / 100`, in order and each time in the state the previous call left.  If the call at
index `m` is the first to return a value other than 0, the function returns false right after
that call: the events are the calls and the DAG items of the indices below `m` followed by
the call at `m`, the region holds the items below `m` and is unchanged from `m` on.  If every
call returns 0 the function returns true with all `N_d` items stored. -/
theorem compute_full_data_cancellation {σ : Type} (H : Sha3) (light : etschash_light)
    (mem : List node) (full_size : Nat) (cb : σ → Nat → Int × σ) (pct : Nat → Nat) (cb0 : σ)
    (h128 : full_size % 128 = 0) (h100 : 100 ≤ full_size / 64)
    (hNd : full_size / 64 < 4294967296) (hlen : full_size / 64 ≤ mem.length)
    (hn : num_parent_nodes light ≠ 0) :
    (∀ m, m < full_size / 64 → m % (full_size / 64 / 100) = 0 →
      callback_ret cb pct (full_size / 64 / 100) cb0 m ≠ 0 →
      (∀ k, k < m → k % (full_size / 64 / 100) = 0 →
        callback_ret cb pct (full_size / 64 / 100) cb0 k = 0) →
      ∃ items, items.length = m ∧
        (∀ k, k < m → etschash_calculate_dag_item H k light = .ok (items.getD k [])) ∧
        etschash_compute_full_data H mem full_size light (some cb) pct cb0 =
          .ok (false,
            { full_nodes := items ++ mem.drop m
              cb := callback_state cb pct (full_size / 64 / 100) cb0 (m + 1)
              trace := progress_trace pct (full_size / 64 / 100) m ++
                [Event.callback m (pct m)
                  (callback_ret cb pct (full_size / 64 / 100) cb0 m)] })) ∧
    ((∀ k, k < full_size / 64 → k % (full_size / 64 / 100) = 0 →
        callback_ret cb pct (full_size / 64 / 100) cb0 k = 0) →
      ∃ items, items.length = full_size / 64 ∧
        (∀ k, k < full_size / 64 →
          etschash_calculate_dag_item H k light = .ok (items.getD k [])) ∧
        etschash_compute_full_data H mem full_size light (some cb) pct cb0 =
          .ok (true,
            { full_nodes := items ++ mem.drop (full_size / 64)
              cb := callback_state cb pct (full_size / 64 / 100) cb0 (full_size / 64)
              trace := progress_trace pct (full_size / 64 / 100) (full_size / 64) })) := by
  have hstep : full_size / 64 / 100 ≠ 0 := by omega
  have hdata : etschash_compute_full_data H mem full_size light (some cb) pct cb0 =
      compute_full_loop_value H light (some cb) pct (full_size / 64) 4294967296 0
        ⟨mem, cb0, []⟩ := by
    rw [compute_full_data_eq_value H mem full_size light _ pct cb0 hn]
    unfold compute_full_data_value
    rw [if_neg (by simp only [MIX_WORDS]; omega), u32_of_lt hNd]
  have hitems : ∀ m k, k < m → etschash_calculate_dag_item H k light =
      .ok (((List.range m).map (fun k => calculate_dag_item_value H k light)).getD k []) := by
    intro m k hk
    rw [calculate_dag_item_eq_value H k light hn, List.getD_eq_getElem?_getD,
      List.getElem?_map, List.getElem?_range hk]
    rfl
  constructor
  · intro m hm hmm hret hzero
    obtain ⟨st, h1, h2, h3, _, h5, h6⟩ := full_loop_value_cancelled H light cb pct
      (full_size / 64) cb0 m hNd hstep hm hmm hret 4294967296 0 ⟨mem, cb0, []⟩ (Nat.zero_le _)
      (by omega) hlen rfl (fun k _ hk1 hk2 => hzero k hk1 hk2)
    refine ⟨(List.range m).map (fun k => calculate_dag_item_value H k light), by simp,
      hitems m, ?_⟩
    rw [hdata, h1]
    have e := region_of_getElem? H light mem st.full_nodes m h5 h6
    obtain ⟨nodes, c, tr⟩ := st
    simp only at h2 h3 e
    rw [h2, h3, e, progress_trace, List.range_eq_range']
    simp
  · intro hzero
    obtain ⟨st, h1, h2, h3, _, h5, h6⟩ := full_loop_value_completed H light cb pct
      (full_size / 64) cb0 hNd hstep 4294967296 0 ⟨mem, cb0, []⟩ (Nat.zero_le _)
      (by omega) hlen rfl (fun k _ hk1 hk2 => hzero k hk1 hk2)
    refine ⟨(List.range (full_size / 64)).map (fun k => calculate_dag_item_value H k light),
      by simp, hitems _, ?_⟩
    rw [hdata, h1]
    have e := region_of_getElem? H light mem st.full_nodes (full_size / 64) h5 h6
    obtain ⟨nodes, c, tr⟩ := st
    simp only at h2 h3 e
    rw [h2, h3, e, progress_trace, List.range_eq_range']
    simp

/-- C10 (witness). An instance of `compute_full_data_cancellation`: a dataset of 100 nodes
(the step is 1) and a callback that cancels on its third call, the call at index 2. -/
theorem compute_full_data_cancellation_witness :
    6400 % 128 = 0 ∧ 100 ≤ 6400 / 64 ∧ num_parent_nodes light_one ≠ 0 ∧
    callback_ret cancel_third (fun n => n) (6400 / 64 / 100) 0 2 ≠ 0 ∧
    (∀ k, k < 2 → k % (6400 / 64 / 100) = 0 →
      callback_ret cancel_third (fun n => n) (6400 / 64 / 100) 0 k = 0) ∧
    ∃ items, items.length = 2 ∧
      (∀ k, k < 2 → etschash_calculate_dag_item toy k light_one = .ok (items.getD k [])) ∧
      etschash_compute_full_data toy (List.replicate 100 []) 6400 light_one
          (some cancel_third) (fun n => n) 0 =
        .ok (false,
          { full_nodes := items ++ (List.replicate 100 ([] : node)).drop 2
            cb := callback_state cancel_third (fun n => n) (6400 / 64 / 100) 0 (2 + 1)
            trace := progress_trace (fun n => n) (6400 / 64 / 100) 2 ++
              [Event.callback 2 2
                (callback_ret cancel_third (fun n => n) (6400 / 64 / 100) 0 2)] }) :=
  ⟨by decide, by decide, by decide, by decide, by decide,
    (compute_full_data_cancellation toy light_one (List.replicate 100 []) 6400 cancel_third
      (fun n => n) 0 (by decide) (by decide) (by decide) (by simp) (by decide)).1 2
      (by decide) (by decide) (by decide) (by decide)⟩

/-- C10 (counterexample). A dataset of 6400 bytes (`N_d = 100`, the step is 1) materialised
from a cache of `2^32` nodes with a callback that returns 0 at every call: the first call,
at index 0, returns 0, then the first call of `etschash_calculate_dag_item` divides by the
32-bit node count of the cache, which is 0, and `etschash_compute_full_data` does not return
true. -/
theorem compute_full_data_callback_wrapped_cache :
    6400 % 128 = 0 ∧ 100 ≤ 6400 / 64 ∧ 6400 / 64 < 4294967296 ∧
    (∀ calls pct, (never_cancel calls pct).1 = 0) ∧
    light_wrap.cache.length = light_wrap.cache_size / 64 ∧
    num_parent_nodes light_wrap = 0 ∧
    etschash_compute_full_data toy (List.replicate 100 []) 6400 light_wrap
        (some never_cancel) (fun n => n) 0 = .error .division_by_zero ∧
    ¬ ∃ st, etschash_compute_full_data toy (List.replicate 100 []) 6400 light_wrap
        (some never_cancel) (fun n => n) 0 = .ok (true, st) := by
  have h := compute_full_data_callback_traps toy (List.replicate 100 []) 6400 light_wrap
    never_cancel (fun n => n) 0 (by decide) (by decide) (by decide) rfl light_wrap_nodes.1
  refine ⟨by decide, by decide, by decide, fun _ _ => rfl, light_wrap_nodes.2,
    light_wrap_nodes.1, h, ?_⟩
  rintro ⟨st, hst⟩
  rw [h] at hst
  exact absurd hst (by simp)

/-! ## Hashimoto and the compute entry points -/

/-- On the light path, with a node count of zero in the cache and a page count that is not
zero, `etschash_hash` divides by zero in the first DAG item. -/
theorem etschash_hash_light_traps (H : Sha3) (ret : etschash_return_value_t)
    (light : etschash_light) (full_size : Nat) (header_hash : etschash_h256_t) (nonce : Nat)
    (h32 : full_size % MIX_WORDS = 0) (hp : num_full_pages full_size ≠ 0)
    (hn : num_parent_nodes light = 0) :
    etschash_hash H ret none light full_size header_hash nonce = .error .division_by_zero := by
  have hround : ∀ s mix i, hash_round H none light full_size s mix i =
      .error .division_by_zero := by
    intro s mix i
    unfold hash_round
    rw [umod_ok _ _ hp]
    have e : List.range MIX_NODES = [0, 1] := by decide
    simp only [bind, Except.bind, e]
    exact foldlM_error _ _ _ _ _ (by
      simp only [hash_dag_node, calculate_dag_item_traps H _ light hn, bind, Except.bind])
  unfold etschash_hash
  rw [if_neg (by simp [h32])]
  have e : List.range ETSCHASH_ACCESSES = 0 :: (List.range 63).map (· + 1) := by decide
  have hmix : ∀ s, hash_mix H none light full_size s = .error .division_by_zero := by
    intro s
    unfold hash_mix
    rw [e]
    exact foldlM_error _ _ _ _ _ (hround _ _ _)
  simp only [hmix, bind, Except.bind]

theorem light_compute_internal_eq_value (H : Sha3) (uninit : etschash_return_value_t)
    (light : etschash_light) (full_size : Nat) (header_hash : etschash_h256_t) (nonce : Nat)
    (hp : num_full_pages full_size ≠ 0) (hn : num_parent_nodes light ≠ 0) :
    etschash_light_compute_internal H uninit light full_size header_hash nonce =
      .ok (light_compute_internal_value H uninit light full_size header_hash nonce) := by
  unfold etschash_light_compute_internal
  simp only [etschash_hash_eq_value H _ none light full_size header_hash nonce hp
    (fun _ => hn), bind, Except.bind]
  dsimp only [light_compute_internal_value]
  split <;> rfl

theorem full_compute_eq_value (H : Sha3) (uninit : etschash_return_value_t)
    (full : etschash_full) (light : etschash_light) (header_hash : etschash_h256_t)
    (nonce : Nat) (hp : num_full_pages full.file_size ≠ 0) :
    etschash_full_compute H uninit full light header_hash nonce =
      .ok (full_compute_value H uninit full light header_hash nonce) := by
  unfold etschash_full_compute
  simp only [etschash_hash_eq_value H _ (some full.data) light full.file_size header_hash nonce
    hp (fun e => by simp at e), bind, Except.bind]
  dsimp only [full_compute_value]
  split <;> rfl

/-- C5 (amended). For every header, nonce and DAG source, with `dataset_size` a positive
multiple of 128 of at most `2^31` pages and, on the light path, a cache whose 32-bit node
count is not zero, `etschash_hash` returns true with the mix hash and the result of
Hashimoto as spec section 4.I states it. -/
theorem etschash_hash_eq_ref (H : Sha3) (ret : etschash_return_value_t)
    (full_nodes : Option (List node)) (light : etschash_light) (full_size : Nat)
    (header_hash : etschash_h256_t) (nonce : Nat)
    (h128 : full_size % 128 = 0) (hpos : 0 < full_size)
    (hb : full_size / 128 ≤ 2147483648)
    (hsrc : full_nodes = none → num_parent_nodes light ≠ 0) :
    etschash_hash H ret full_nodes light full_size header_hash nonce =
      .ok (true, { ret with
        mix_hash := (hashimoto_ref H (hash_resolver H full_nodes light) full_size
          header_hash nonce).2
        result := (hashimoto_ref H (hash_resolver H full_nodes light) full_size
          header_hash nonce).1 }) := by
  rw [etschash_hash_eq_value H ret full_nodes light full_size header_hash nonce
    (num_full_pages_ne_zero full_size h128 hpos (by omega)) hsrc,
    hash_value_eq_ref H ret full_nodes light full_size header_hash nonce h128 hpos hb]

/-- C5 (witness). An instance of `etschash_hash_eq_ref`: the light path on a dataset of 256
bytes. -/
theorem etschash_hash_eq_ref_witness :
    256 % 128 = 0 ∧ 256 / 128 ≤ 2147483648 ∧ num_parent_nodes light_one ≠ 0 ∧
    etschash_hash toy ⟨[], [], true⟩ none light_one 256 (List.replicate 32 1) 42 =
      .ok (true, { (⟨[], [], true⟩ : etschash_return_value_t) with
        mix_hash := (hashimoto_ref toy (hash_resolver toy none light_one) 256
          (List.replicate 32 1) 42).2
        result := (hashimoto_ref toy (hash_resolver toy none light_one) 256
          (List.replicate 32 1) 42).1 }) :=
  ⟨by decide, by decide, by decide,
    etschash_hash_eq_ref toy ⟨[], [], true⟩ none light_one 256 (List.replicate 32 1) 42
      (by decide) (by decide) (by decide) (fun _ => by decide)⟩

/-- C5 (counterexample). Two inputs.  A dataset of `128 * (2^32 + 1)` bytes, a positive
multiple of 128: the code reduces the page count to 32 bits, `num_full_pages = 1`, and reads
page 0 in every round, where the spec takes the page modulo `2^32 + 1`; over the region
`dag_big`, with `null_hash` for Keccak, `etschash_hash` returns true with a mix hash whose
first byte is 0, where the first byte of the mix hash of the spec is 64.  A dataset of 128
bytes read through a cache of `2^32` nodes (`full_nodes = NULL`): the 32-bit node count is 0
and the first DAG item divides by it, so that `etschash_hash` returns nothing. -/
theorem etschash_hash_truncates_page_count :
    549755814016 % 128 = 0 ∧ 0 < 549755814016 ∧
    etschash_hash null_hash ⟨[], [], true⟩ (some dag_big) ⟨[], 0, 0⟩ 549755814016
        (List.replicate 32 0) 0 =
      .ok (etschash_hash_value null_hash ⟨[], [], true⟩ (some dag_big) ⟨[], 0, 0⟩ 549755814016
        (List.replicate 32 0) 0) ∧
    etschash_hash null_hash ⟨[], [], true⟩ (some dag_big) ⟨[], 0, 0⟩ 549755814016
        (List.replicate 32 0) 0 ≠
      .ok (true, { (⟨[], [], true⟩ : etschash_return_value_t) with
        mix_hash := (hashimoto_ref null_hash (hash_resolver null_hash (some dag_big) ⟨[], 0, 0⟩)
          549755814016 (List.replicate 32 0) 0).2
        result := (hashimoto_ref null_hash (hash_resolver null_hash (some dag_big) ⟨[], 0, 0⟩)
          549755814016 (List.replicate 32 0) 0).1 }) ∧
    128 % 128 = 0 ∧ light_wrap.cache.length = light_wrap.cache_size / 64 ∧
    num_parent_nodes light_wrap = 0 ∧
    etschash_hash null_hash ⟨[], [], true⟩ none light_wrap 128 (List.replicate 32 0) 0 =
      .error .division_by_zero := by
  obtain ⟨h1, h2, h3⟩ := hash_value_truncates_pages
  have hp : num_full_pages 549755814016 ≠ 0 := by
    norm_num [num_full_pages, MIX_WORDS, u32]
  have e := etschash_hash_eq_value null_hash ⟨[], [], true⟩ (some dag_big) ⟨[], 0, 0⟩
    549755814016 (List.replicate 32 0) 0 hp (fun e => by simp at e)
  refine ⟨h1, h2, e, ?_, by decide, light_wrap_nodes.2, light_wrap_nodes.1,
    etschash_hash_light_traps null_hash _ light_wrap 128 _ 0 (by decide) (by decide)
      light_wrap_nodes.1⟩
  rw [e]
  intro hc
  exact h3 (Except.ok.inj hc)

/-- What `etschash_light_compute` does on a valid table entry: with a page count of zero it
divides by zero in the first round, otherwise it returns what `light_compute_value` gives. -/
theorem light_compute_cases (H : Sha3) (dag_sizes : Nat → Nat) (u : etschash_return_value_t)
    (cache : List node) (cache_size b : Nat) (header_hash : etschash_h256_t) (nonce : Nat)
    (h2048 : b / 30000 < 2048) (h32 : dag_sizes (b / 30000) % MIX_WORDS = 0)
    (hn : num_parent_nodes ⟨cache, cache_size, b⟩ ≠ 0) :
    etschash_light_compute H dag_sizes u ⟨cache, cache_size, b⟩ header_hash nonce =
      if num_full_pages (dag_sizes (b / 30000)) = 0 then .error .division_by_zero
      else .ok (etschash_hash_value H ⟨[], [], true⟩ none ⟨cache, cache_size, 0⟩
        (dag_sizes (b / 30000)) header_hash nonce).2 := by
  by_cases hp : num_full_pages (dag_sizes (b / 30000)) = 0
  · rw [if_pos hp]
    simp only [etschash_light_compute, etschash_get_datasize, ETSCHASH_EPOCH_LENGTH, h2048,
      if_true, bind, Except.bind, etschash_light_compute_internal,
      etschash_hash_traps H _ none _ _ header_hash nonce h32 hp]
  · rw [if_neg hp, ← light_compute_ok H dag_sizes u cache cache_size b header_hash nonce h2048
      h32]
    simp only [etschash_light_compute, light_compute_value, etschash_get_datasize,
      ETSCHASH_EPOCH_LENGTH, h2048, if_true, bind, Except.bind, pure, Except.pure]
    exact light_compute_internal_eq_value H u _ _ header_hash nonce hp hn

/-- C4. Epoch stability: two block numbers of the same epoch (below 2048) give, through
`etschash_light_new`, light clients on which `etschash_light_compute` does the same for every
header hash and nonce; when the page count of the epoch is not zero it returns, with the same
result, mix hash and success flag on both.  The allocator is taken to succeed in both calls
(with arbitrary initial buffer contents), and the table entries of the epoch are as section 3
of the spec states them: the cache size a multiple of 64 with between 1 and `2^32 - 1` nodes,
the dataset size a multiple of 128. -/
theorem light_compute_epoch_stable (H : Sha3) (cache_sizes dag_sizes : Nat → Nat)
    (A₁ A₂ : Alloc) (junk₁ junk₂ : Nat → node) (fuel b₁ b₂ : Nat)
    (he : b₁ / 30000 = b₂ / 30000) (h2048 : b₁ / 30000 < 2048) (hfuel : 2048 ≤ fuel)
    (hc₁ : A₁.calloc_ok = true) (hm₁ : A₁.malloc = some junk₁)
    (hc₂ : A₂.calloc_ok = true) (hm₂ : A₂.malloc = some junk₂)
    (h64 : cache_sizes (b₁ / 30000) % 64 = 0) (hN1 : 1 ≤ cache_sizes (b₁ / 30000) / 64)
    (hN : cache_sizes (b₁ / 30000) / 64 < 4294967296)
    (hd : dag_sizes (b₁ / 30000) % 128 = 0) :
    ∃ l₁ l₂, etschash_light_new H cache_sizes A₁ fuel b₁ = .ok (some l₁) ∧
      etschash_light_new H cache_sizes A₂ fuel b₂ = .ok (some l₂) ∧
      ∀ (u₁ u₂ : etschash_return_value_t) (header_hash : etschash_h256_t) (nonce : Nat),
        etschash_light_compute H dag_sizes u₁ l₁ header_hash nonce =
          etschash_light_compute H dag_sizes u₂ l₂ header_hash nonce ∧
        (num_full_pages (dag_sizes (b₁ / 30000)) ≠ 0 →
          ∃ r, etschash_light_compute H dag_sizes u₁ l₁ header_hash nonce = .ok r ∧
            etschash_light_compute H dag_sizes u₂ l₂ header_hash nonce = .ok r) := by
  refine ⟨_, _, light_new_ok H cache_sizes A₁ junk₁ fuel b₁ h2048 hfuel hc₁ hm₁ h64 hN1 hN,
    light_new_ok H cache_sizes A₂ junk₂ fuel b₂ (he ▸ h2048) hfuel hc₂ hm₂ (he ▸ h64)
      (he ▸ hN1) (he ▸ hN), ?_⟩
  intro u₁ u₂ header_hash nonce
  have h32 : dag_sizes (b₁ / 30000) % MIX_WORDS = 0 := by
    rw [MIX_WORDS]; omega
  rw [← he]
  generalize cache_rounds H (cache_sizes (b₁ / 30000) / 64)
    (cache_prev_index (cache_sizes (b₁ / 30000) / 64))
    (cache_chain H (H.SHA3_256^[b₁ / 30000] (List.replicate 32 0))
      (cache_sizes (b₁ / 30000) / 64)) = c
  have e₁ := light_compute_cases H dag_sizes u₁ c (cache_sizes (b₁ / 30000)) b₁ header_hash
    nonce h2048 h32 (num_parent_nodes_ne_zero _ hN1 hN)
  have e₂ := light_compute_cases H dag_sizes u₂ c (cache_sizes (b₁ / 30000)) b₂ header_hash
    nonce (he ▸ h2048) (he ▸ h32) (num_parent_nodes_ne_zero _ hN1 hN)
  rw [← he] at e₂
  refine ⟨by rw [e₁, e₂], ?_⟩
  intro hp
  rw [if_neg hp] at e₁ e₂
  exact ⟨_, e₁, e₂⟩

/-- C4 (witness). An instance of `light_compute_epoch_stable`: blocks 0 and 29999, both of
epoch 0, a cache of one node and a dataset of one page, two allocators with different
memory. -/
theorem light_compute_epoch_stable_witness :
    0 / 30000 = 29999 / 30000 ∧ num_full_pages 128 ≠ 0 ∧
    ∃ l₁ l₂, etschash_light_new toy (fun _ => 64) alloc_zero 2048 0 = .ok (some l₁) ∧
      etschash_light_new toy (fun _ => 64) alloc_junk 2048 29999 = .ok (some l₂) ∧
      ∀ (u₁ u₂ : etschash_return_value_t) (header_hash : etschash_h256_t) (nonce : Nat),
        etschash_light_compute toy (fun _ => 128) u₁ l₁ header_hash nonce =
          etschash_light_compute toy (fun _ => 128) u₂ l₂ header_hash nonce ∧
        (num_full_pages 128 ≠ 0 →
          ∃ r, etschash_light_compute toy (fun _ => 128) u₁ l₁ header_hash nonce = .ok r ∧
            etschash_light_compute toy (fun _ => 128) u₂ l₂ header_hash nonce = .ok r) :=
  ⟨by decide, by decide,
    light_compute_epoch_stable toy (fun _ => 64) (fun _ => 128) alloc_zero alloc_junk
      (fun _ => []) (fun k => [k, 7]) 2048 0 29999 (by decide) (by decide) (by decide) rfl rfl
      rfl rfl (by decide) (by decide) (by decide) (by decide)⟩

theorem return_value_eta (r : etschash_return_value_t) (h : r.success = true) :
    r = ⟨r.result, r.mix_hash, true⟩ := by
  cases r
  simp_all

/-- C11 (the code at the failing input). With `dataset_size = 160`, which is not a multiple of
128, `etschash_hash` does not report failure: on a region it returns true for every header
and nonce; with `full_nodes = NULL` it returns true as well, unless the 32-bit node count of the
cache is zero, when it divides by zero.  `etschash_full_compute` and
`etschash_light_compute_internal` report success accordingly, while the sibling
`etschash_compute_full_data` rejects the same size. -/
theorem hash_accepts_size_160 (H : Sha3) (ret : etschash_return_value_t)
    (nodes data : List node) (light : etschash_light)
    (header_hash : etschash_h256_t) (nonce : Nat) :
    160 % 128 ≠ 0 ∧
    (∃ r, etschash_hash H ret (some nodes) light 160 header_hash nonce = .ok (true, r)) ∧
    (∃ r, etschash_hash H ret none light 160 header_hash nonce =
      if num_parent_nodes light = 0 then .error .division_by_zero else .ok (true, r)) ∧
    (∃ result mix_hash, etschash_full_compute H ret ⟨160, data⟩ light header_hash nonce =
      .ok ⟨result, mix_hash, true⟩) ∧
    (∃ result mix_hash, etschash_light_compute_internal H ret light 160 header_hash nonce =
      if num_parent_nodes light = 0 then .error .division_by_zero
      else .ok ⟨result, mix_hash, true⟩) ∧
    etschash_compute_full_data H data 160 light (none : Option (Unit → Nat → Int × Unit))
      (fun _ => 0) () = .ok (false, ⟨data, (), []⟩) := by
  have hp : num_full_pages 160 ≠ 0 := by decide
  have h32 : 160 % MIX_WORDS = 0 := by decide
  refine ⟨by decide, ?_, ?_, ?_, ?_, ?_⟩
  · exact ⟨_, by
      rw [etschash_hash_eq_value H ret (some nodes) light 160 header_hash nonce hp
        (fun e => by simp at e), etschash_hash_ok H ret _ light 160 header_hash nonce h32]⟩
  · by_cases hn : num_parent_nodes light = 0
    · exact ⟨ret, by
        rw [if_pos hn, etschash_hash_light_traps H ret light 160 header_hash nonce h32 hp hn]⟩
    · exact ⟨_, by
        rw [if_neg hn, etschash_hash_eq_value H ret none light 160 header_hash nonce hp
          (fun _ => hn), etschash_hash_ok H ret _ light 160 header_hash nonce h32]⟩
  · refine ⟨(full_compute_value H ret ⟨160, data⟩ light header_hash nonce).result,
      (full_compute_value H ret ⟨160, data⟩ light header_hash nonce).mix_hash, ?_⟩
    rw [full_compute_eq_value H ret ⟨160, data⟩ light header_hash nonce hp]
    exact congrArg Except.ok (return_value_eta _ (by
      rw [full_compute_success, etschash_hash_flag]
      exact decide_eq_true (show 160 % 32 = 0 by decide)))
  · by_cases hn : num_parent_nodes light = 0
    · refine ⟨[], [], ?_⟩
      rw [if_pos hn]
      unfold etschash_light_compute_internal
      simp only [etschash_hash_light_traps H _ light 160 header_hash nonce h32 hp hn, bind,
        Except.bind]
    · refine ⟨(light_compute_internal_value H ret light 160 header_hash nonce).result,
        (light_compute_internal_value H ret light 160 header_hash nonce).mix_hash, ?_⟩
      rw [if_neg hn, light_compute_internal_eq_value H ret light 160 header_hash nonce hp hn]
      exact congrArg Except.ok (return_value_eta _ (by
        rw [light_compute_internal_success, etschash_hash_flag]
        exact decide_eq_true (show 160 % 32 = 0 by decide)))
  · unfold etschash_compute_full_data
    rw [if_pos (by decide)]

/-- C19 (the code at the failing input). The sizes 0 and 32 pass the size check of
`etschash_hash`, the page count `num_full_pages` is 0 for both, and the first round divides
by it: the function traps, for every header, nonce and DAG source. -/
theorem hash_page_count_zero (H : Sha3) (ret : etschash_return_value_t)
    (full_nodes : Option (List node)) (light : etschash_light)
    (header_hash : etschash_h256_t) (nonce : Nat) :
    32 % MIX_WORDS = 0 ∧ num_full_pages 32 = 0 ∧
    etschash_hash H ret full_nodes light 32 header_hash nonce = .error .division_by_zero ∧
    0 % MIX_WORDS = 0 ∧ num_full_pages 0 = 0 ∧
    etschash_hash H ret full_nodes light 0 header_hash nonce = .error .division_by_zero :=
  ⟨by decide, by decide,
    etschash_hash_traps H ret full_nodes light 32 header_hash nonce (by decide) (by decide),
    by decide, by decide,
    etschash_hash_traps H ret full_nodes light 0 header_hash nonce (by decide) (by decide)⟩

/-! ## The quick hash -/

/-- C14 (amended). For every header hash, nonce and mix hash, `etschash_quick_hash` returns
Keccak-256 of the 96 bytes `Keccak-512(header32 | nonce as 8 little-endian bytes) | mix_hash32`:
the Keccak-512 digest is written over the header at the start of the buffer. -/
theorem quick_hash_formula (H : Sha3) (header_hash : etschash_h256_t) (nonce : Nat)
    (mix_hash : etschash_h256_t) :
    etschash_quick_hash H header_hash nonce mix_hash =
      H.SHA3_256 (node_bytes (H.SHA3_512 (header_hash ++ le64 nonce)) ++ mix_hash) := by
  simp only [etschash_quick_hash]

/-- C14 (counterexample). With a stand-in for Keccak whose `SHA3_256` returns its input, the
quick hash of the code is the 96 bytes digest | mix hash, while the formula with the header in
front yields 128 bytes. -/
theorem quick_hash_omits_header :
    etschash_quick_hash probe (List.replicate 32 1) 42 (List.replicate 32 2) ≠
      quick_hash_ref probe (List.replicate 32 1) 42 (List.replicate 32 2) := by
  decide

/-! ## The compression loop -/

/-- C18. In-place mix compression: for a mix array `M` of 32 words, after the compression loop
of `etschash_hash` word `j`, for `j` in `0..7`, is
`fnv(fnv(fnv(M[4j], M[4j+1]), M[4j+2]), M[4j+3])` over the words of `M` as they were before
the loop. -/
theorem compress_mix_in_place (M : List Nat) (hlen : M.length = 32) (j : Nat) (hj : j < 8) :
    (compress_mix M).getD j 0 =
      fnv_hash (fnv_hash (fnv_hash (M.getD (4 * j) 0) (M.getD (4 * j + 1) 0))
        (M.getD (4 * j + 2) 0)) (M.getD (4 * j + 3) 0) := by
  have e : List.range' 0 (MIX_WORDS / 4) 4 = (List.range 8).map (fun t => 4 * t) := by decide
  unfold compress_mix
  rw [e, List.foldl_map, List.getD_eq_getElem?_getD,
    compress_fold_getElem? M hlen 8 (le_refl _) j, if_pos hj]
  rfl

/-- C18 (witness). An instance of `compress_mix_in_place`: the mix array `0, 1, .., 31`,
word 3. -/
theorem compress_mix_in_place_witness :
    (List.range 32).length = 32 ∧ 3 < 8 ∧
    (compress_mix (List.range 32)).getD 3 0 =
      fnv_hash (fnv_hash (fnv_hash ((List.range 32).getD (4 * 3) 0)
        ((List.range 32).getD (4 * 3 + 1) 0)) ((List.range 32).getD (4 * 3 + 2) 0))
        ((List.range 32).getD (4 * 3 + 3) 0) :=
  ⟨by decide, by decide, compress_mix_in_place (List.range 32) (by decide) 3 (by decide)⟩

/-! ## The page count of `etschash_hash` -/

/-- With at least one page and at most 2^31 pages, every node index `MIX_NODES * index + n`
that a round of `etschash_hash` forms is below `full_size / 64`. -/
theorem hash_node_index_lt (full_size x n : Nat) (h1 : 1 ≤ full_size / 128)
    (h31 : full_size / 128 ≤ 2147483648) (hn : n < MIX_NODES) :
    u32 (MIX_NODES * (x % num_full_pages full_size) + n) < full_size / 64 := by
  unfold MIX_NODES at hn ⊢
  have hp : num_full_pages full_size = full_size / 128 := by
    unfold num_full_pages MIX_WORDS
    exact u32_of_lt (by omega)
  rw [hp]
  have hlt : x % (full_size / 128) < full_size / 128 := Nat.mod_lt _ (by omega)
  rw [u32_of_lt (by omega)]
  omega

/-! ## The progress test of `etschash_compute_full_data` -/

/-- With a callback and fewer than 100 nodes to compute, the first progress test of
`etschash_compute_full_data` divides by `max_n / 100 = 0`. -/
theorem compute_full_data_zero_divisor {σ : Type} (H : Sha3) (mem : List node)
    (full_size : Nat) (light : etschash_light) (cb : σ → Nat → Int × σ) (pct : Nat → Nat)
    (cb0 : σ) (h128 : full_size % 128 = 0) (hpos : 0 < full_size)
    (h100 : full_size / 64 < 100) :
    etschash_compute_full_data H mem full_size light (some cb) pct cb0 =
      .error .division_by_zero := by
  unfold etschash_compute_full_data
  rw [if_neg (by simp only [MIX_WORDS]; omega), u32_of_lt (by omega)]
  show compute_full_loop H light (some cb) pct (full_size / 64) (4294967295 + 1) 0 _ = _
  rw [compute_full_loop, if_neg (by omega)]
  have hz : full_size / 64 / 100 = 0 := by omega
  simp only [progress_check, hz, if_true, bind, Except.bind]

/-- C20 (the code at the failing input). With `full_size = 128`, a positive multiple of 128,
and any callback, `etschash_compute_full_data` divides by zero in its first progress test:
`max_n = 2` and `max_n / 100 = 0`.  No node is computed and the callback is not called. -/
theorem compute_full_data_progress_traps {σ : Type} (H : Sha3) (mem : List node)
    (light : etschash_light) (cb : σ → Nat → Int × σ) (pct : Nat → Nat) (cb0 : σ) :
    128 % 128 = 0 ∧ 128 / 64 / 100 = 0 ∧
    etschash_compute_full_data H mem 128 light (some cb) pct cb0 =
      .error .division_by_zero :=
  ⟨by decide, by decide,
    compute_full_data_zero_divisor H mem 128 light cb pct cb0 (by decide) (by decide)
      (by decide)⟩

/-! ## Construction of the full client -/

/-- A list that splits at `x` behind a part `init` free of `x` has `init` before the split. -/
theorem split_after_init {α : Type} (x : α) (init : List α) (hx : x ∉ init) :
    ∀ (rest pre post : List α), init ++ rest = pre ++ x :: post → ∃ t, pre = init ++ t := by
  induction init with
  | nil => intro rest pre post _; exact ⟨pre, rfl⟩
  | cons y ys ih =>
    intro rest pre post h
    cases pre with
    | nil =>
      simp only [List.cons_append, List.nil_append, List.cons.injEq] at h
      exact absurd h.1.symm (fun e => hx (by simp [e]))
    | cons p ps =>
      simp only [List.cons_append, List.cons.injEq] at h
      obtain ⟨t, ht⟩ := ih (fun hm => hx (List.mem_cons_of_mem _ hm)) rest ps post h.2
      exact ⟨t, by rw [h.1, ht]; rfl⟩

/-- The executions of the part of `etschash_full_new_internal` after the `switch`: a trap
inside the materialisation; a materialisation that returned false; or one that returned
true, followed by `fseek` and then by the steps up to the first failure. -/
theorem full_new_finish_shape {σ : Type} (H : Sha3) (E : Collab) (f : Nat) (data : List node)
    (full_size : Nat) (light : etschash_light) (callback : Option (σ → Nat → Int × σ))
    (pct : Nat → Nat) (cb0 : σ) (tr0 : List Action) :
    (∃ e, etschash_compute_full_data H data full_size light callback pct cb0 = .error e ∧
      full_new_finish H E f data full_size light callback pct cb0 tr0 = ⟨tr0, .error e⟩) ∨
    (∃ st, etschash_compute_full_data H data full_size light callback pct cb0 =
        .ok (false, st) ∧
      full_new_finish H E f data full_size light callback pct cb0 tr0 =
        ⟨tr0 ++ [Action.compute_full_data false, Action.munmap, Action.fclose f, Action.free],
          .ok none⟩) ∨
    (∃ st, etschash_compute_full_data H data full_size light callback pct cb0 =
        .ok (true, st) ∧
      ∃ rest r, full_new_finish H E f data full_size light callback pct cb0 tr0 =
          ⟨tr0 ++ Action.compute_full_data true :: Action.fseek f :: rest, .ok r⟩ ∧
        (∀ ok, Action.compute_full_data ok ∉ rest) ∧
        (∀ b, Action.io_prepare b ∉ rest) ∧
        (r = none ∨ (r = some { file_size := full_size, data := st.full_nodes } ∧
          rest = [Action.fwrite_magic f, Action.fflush f] ∧ E.fseek_ok = true ∧
          E.fwrite_ok = true ∧ E.fflush_ok = true))) := by
  unfold full_new_finish fail_free_full_data
  split
  · rename_i e he
    exact Or.inl ⟨e, he, rfl⟩
  · rename_i st he
    exact Or.inr (Or.inl ⟨st, he, by simp⟩)
  · rename_i st he
    refine Or.inr (Or.inr ⟨st, he, ?_⟩)
    split_ifs with h1 h2 h3
    · exact ⟨[Action.munmap, Action.fclose f, Action.free], none, by simp, by simp, by simp,
        Or.inl rfl⟩
    · exact ⟨[Action.fwrite_magic f, Action.munmap, Action.fclose f, Action.free], none,
        by simp, by simp, by simp, Or.inl rfl⟩
    · exact ⟨[Action.fwrite_magic f, Action.fflush f, Action.munmap, Action.fclose f,
        Action.free], none, by simp, by simp, by simp, Or.inl rfl⟩
    · refine ⟨[Action.fwrite_magic f, Action.fflush f], _, by simp, by simp, by simp,
        Or.inr ⟨rfl, rfl, ?_, ?_, ?_⟩⟩
      · simpa using h1
      · simpa using h2
      · simpa using h3

/-- What holds of the `case ETSCHASH_IO_MEMO_MISMATCH` part of an execution that starts with
the calls `tr0`, none of which is a materialisation or a write of the magic number. -/
theorem full_new_mismatch_facts {σ : Type} (H : Sha3) (E : Collab) (f : Nat)
    (full_size : Nat) (light : etschash_light) (callback : Option (σ → Nat → Int × σ))
    (pct : Nat → Nat) (cb0 : σ) (tr0 : List Action)
    (hm0 : ∀ g, Action.fwrite_magic g ∉ tr0) (hc0 : ∀ ok, Action.compute_full_data ok ∉ tr0)
    (R : full_new_run)
    (hR : full_new_mismatch H E f full_size light callback pct cb0 tr0 = R) :
    (∀ pre g post, R.trace = pre ++ Action.fwrite_magic g :: post →
      Action.compute_full_data true ∈ pre) ∧
    (∀ ok, Action.compute_full_data ok ∈ R.trace → ∃ data st, E.mmap f = some data ∧
      etschash_compute_full_data H data full_size light callback pct cb0 = .ok (ok, st)) ∧
    (Action.compute_full_data false ∈ R.trace →
      (∀ g, Action.fwrite_magic g ∉ R.trace) ∧ R.ret = .ok none) ∧
    (∀ e, R.ret = .error e → ∀ g, Action.fwrite_magic g ∉ R.trace) := by
  have key : ∀ (tr : List Action), (∀ g, Action.fwrite_magic g ∉ tr) →
      ∀ pre g post, tr = pre ++ Action.fwrite_magic g :: post → False := by
    intro tr h pre g post e
    exact h g (by rw [e]; simp)
  unfold full_new_mismatch at hR
  cases hmap : E.mmap f with
  | none =>
    rw [hmap] at hR
    simp only [fail_close_file] at hR
    subst hR
    have hno : ∀ g, Action.fwrite_magic g ∉
        tr0 ++ [Action.mmap f] ++ [Action.fclose f, Action.free] := by
      intro g; simp [hm0 g]
    refine ⟨fun pre g post h => (key _ hno pre g post h).elim, ?_, ?_, fun _ _ => hno⟩
    · intro ok h
      simp [hc0 ok] at h
    · intro h
      simp [hc0 false] at h
  | some data =>
    rw [hmap] at hR
    simp only at hR
    rcases full_new_finish_shape H E f data full_size light callback pct cb0
      (tr0 ++ [Action.mmap f]) with ⟨e, he, hrun⟩ | ⟨st, he, hrun⟩ | ⟨st, he, rest, r, hrun, hrest, _, _⟩
    · rw [hrun] at hR
      subst hR
      have hno : ∀ g, Action.fwrite_magic g ∉ tr0 ++ [Action.mmap f] := by
        intro g; simp [hm0 g]
      refine ⟨fun pre g post h => (key _ hno pre g post h).elim, ?_, ?_, fun _ _ => hno⟩
      · intro ok h
        simp [hc0 ok] at h
      · intro h
        simp [hc0 false] at h
    · rw [hrun] at hR
      subst hR
      have hno : ∀ g, Action.fwrite_magic g ∉ tr0 ++ [Action.mmap f] ++
          [Action.compute_full_data false, Action.munmap, Action.fclose f, Action.free] := by
        intro g; simp [hm0 g]
      refine ⟨fun pre g post h => (key _ hno pre g post h).elim, ?_, fun _ => ⟨hno, rfl⟩,
        fun _ _ => hno⟩
      intro ok h
      have hok : ok = false := by
        simpa [hc0 ok] using h
      subst hok
      exact ⟨data, st, rfl, he⟩
    · rw [hrun] at hR
      subst hR
      refine ⟨?_, ?_, ?_, ?_⟩
      · intro pre g post h
        have hinit : Action.fwrite_magic g ∉
            tr0 ++ [Action.mmap f] ++ [Action.compute_full_data true] := by
          simp [hm0 g]
        obtain ⟨t, ht⟩ := split_after_init (Action.fwrite_magic g) _ hinit
          (Action.fseek f :: rest) pre post (by rw [← h]; simp)
        rw [ht]
        simp
      · intro ok h
        have hok : ok = true := by
          simpa [hc0 ok, hrest ok] using h
        subst hok
        exact ⟨data, st, rfl, he⟩
      · intro h
        simp [hc0 false, hrest false] at h
      · intro e h
        simp at h

/-- An execution without a materialisation and without a write of the magic number. -/
theorem plain_run_facts {σ : Type} (H : Sha3) (E : Collab) (full_size : Nat)
    (light : etschash_light) (callback : Option (σ → Nat → Int × σ)) (pct : Nat → Nat)
    (cb0 : σ) (tr : List Action) (r : Except Fault (Option etschash_full))
    (hm : ∀ g, Action.fwrite_magic g ∉ tr) (hc : ∀ ok, Action.compute_full_data ok ∉ tr) :
    (∀ pre g post, tr = pre ++ Action.fwrite_magic g :: post →
      Action.compute_full_data true ∈ pre) ∧
    (∀ ok, Action.compute_full_data ok ∈ tr → ∃ g data st, E.mmap g = some data ∧
      etschash_compute_full_data H data full_size light callback pct cb0 = .ok (ok, st)) ∧
    (Action.compute_full_data false ∈ tr → (∀ g, Action.fwrite_magic g ∉ tr) ∧ r = .ok none) ∧
    (∀ e, r = .error e → ∀ g, Action.fwrite_magic g ∉ tr) :=
  ⟨fun pre g _ e => (hm g (by rw [e]; simp)).elim, fun ok h => (hc ok h).elim,
    fun h => (hc false h).elim, fun _ _ => hm⟩

/-- C15. Magic-after-body: in every execution of `etschash_full_new_internal`, a write of the
magic number is preceded by a call of `etschash_compute_full_data` that returned true (and
every such call recorded in the trace is a run of that function on the mapped region); if the
materialisation returns false (failure, or cancellation by the callback) or traps, or if the
first `etschash_io_prepare` reported `ETSCHASH_IO_MEMO_MATCH` or `ETSCHASH_IO_FAIL`, the magic
number is not written; NULL is returned when the materialisation returns false and when
`etschash_io_prepare` reported `ETSCHASH_IO_FAIL`. -/
theorem magic_after_body {σ : Type} (H : Sha3) (E : Collab) (full_size : Nat)
    (light : etschash_light) (callback : Option (σ → Nat → Int × σ)) (pct : Nat → Nat)
    (cb0 : σ) (run : full_new_run)
    (hrun : etschash_full_new_internal H E full_size light callback pct cb0 = run) :
    (∀ pre g post, run.trace = pre ++ Action.fwrite_magic g :: post →
      Action.compute_full_data true ∈ pre) ∧
    (∀ ok, Action.compute_full_data ok ∈ run.trace → ∃ g data st, E.mmap g = some data ∧
      etschash_compute_full_data H data full_size light callback pct cb0 = .ok (ok, st)) ∧
    (Action.compute_full_data false ∈ run.trace →
      (∀ g, Action.fwrite_magic g ∉ run.trace) ∧ run.ret = .ok none) ∧
    (∀ e, run.ret = .error e → ∀ g, Action.fwrite_magic g ∉ run.trace) ∧
    ((E.io_prepare false).1 = .ETSCHASH_IO_MEMO_MATCH ∨
        (E.io_prepare false).1 = .ETSCHASH_IO_FAIL →
      (∀ g, Action.fwrite_magic g ∉ run.trace) ∧
      ∀ ok, Action.compute_full_data ok ∉ run.trace) ∧
    ((E.io_prepare false).1 = .ETSCHASH_IO_FAIL → run.ret = .ok none) := by
  have lift : ∀ (f : Nat) (R : full_new_run),
      ((∀ pre g post, R.trace = pre ++ Action.fwrite_magic g :: post →
        Action.compute_full_data true ∈ pre) ∧
      (∀ ok, Action.compute_full_data ok ∈ R.trace → ∃ data st, E.mmap f = some data ∧
        etschash_compute_full_data H data full_size light callback pct cb0 = .ok (ok, st)) ∧
      (Action.compute_full_data false ∈ R.trace →
        (∀ g, Action.fwrite_magic g ∉ R.trace) ∧ R.ret = .ok none) ∧
      (∀ e, R.ret = .error e → ∀ g, Action.fwrite_magic g ∉ R.trace)) →
      ((∀ pre g post, R.trace = pre ++ Action.fwrite_magic g :: post →
        Action.compute_full_data true ∈ pre) ∧
      (∀ ok, Action.compute_full_data ok ∈ R.trace → ∃ g data st, E.mmap g = some data ∧
        etschash_compute_full_data H data full_size light callback pct cb0 = .ok (ok, st)) ∧
      (Action.compute_full_data false ∈ R.trace →
        (∀ g, Action.fwrite_magic g ∉ R.trace) ∧ R.ret = .ok none) ∧
      (∀ e, R.ret = .error e → ∀ g, Action.fwrite_magic g ∉ R.trace)) := by
    intro f R ⟨h1, h2, h3, h4⟩
    exact ⟨h1, fun ok h => ⟨f, h2 ok h⟩, h3, h4⟩
  unfold etschash_full_new_internal at hrun
  cases hc : E.calloc_ok with
  | false =>
    simp only [hc, Bool.not_false, if_true] at hrun
    subst hrun
    obtain ⟨h1, h2, h3, h4⟩ := plain_run_facts H E full_size light callback pct cb0
      [Action.calloc] (.ok none) (by simp) (by simp)
    exact ⟨h1, h2, h3, h4, fun _ => ⟨by simp, by simp⟩, fun _ => rfl⟩
  | true =>
    simp only [hc, Bool.not_true, Bool.false_eq_true, if_false] at hrun
    rcases hp : E.io_prepare false with ⟨rc, f⟩
    rw [hp] at hrun
    cases rc with
    | ETSCHASH_IO_FAIL =>
      simp only [fail_free_full] at hrun
      subst hrun
      obtain ⟨h1, h2, h3, h4⟩ := plain_run_facts H E full_size light callback pct cb0
        ([Action.calloc, Action.io_prepare false] ++ [Action.free]) (.ok none) (by simp)
        (by simp)
      exact ⟨h1, h2, h3, h4, fun _ => ⟨by simp, by simp⟩, fun _ => rfl⟩
    | ETSCHASH_IO_MEMO_MATCH =>
      simp only at hrun
      cases hmap : E.mmap f with
      | none =>
        rw [hmap] at hrun
        simp only [fail_close_file] at hrun
        subst hrun
        obtain ⟨h1, h2, h3, h4⟩ := plain_run_facts H E full_size light callback pct cb0
          ([Action.calloc, Action.io_prepare false] ++ [Action.mmap f] ++
            [Action.fclose f, Action.free]) (.ok none) (by simp) (by simp)
        exact ⟨h1, h2, h3, h4, fun _ => ⟨by simp, by simp⟩, fun h => by simp at h⟩
      | some data =>
        rw [hmap] at hrun
        simp only at hrun
        subst hrun
        obtain ⟨h1, h2, h3, h4⟩ := plain_run_facts H E full_size light callback pct cb0
          ([Action.calloc, Action.io_prepare false] ++ [Action.mmap f])
          (.ok (some { file_size := full_size, data := data })) (by simp) (by simp)
        exact ⟨h1, h2, h3, h4, fun _ => ⟨by simp, by simp⟩, fun h => by simp at h⟩
    | ETSCHASH_IO_MEMO_MISMATCH =>
      simp only at hrun
      obtain ⟨h1, h2, h3, h4⟩ := lift f run (full_new_mismatch_facts H E f full_size light
        callback pct cb0 _ (by simp) (by simp) run hrun)
      exact ⟨h1, h2, h3, h4, fun h => by simp at h, fun h => by simp at h⟩
    | ETSCHASH_IO_MEMO_SIZE_MISMATCH =>
      simp only at hrun
      rcases hp2 : E.io_prepare true with ⟨rc2, f2⟩
      rw [hp2] at hrun
      by_cases h2 : rc2 = .ETSCHASH_IO_MEMO_MISMATCH
      · subst h2
        simp only at hrun
        obtain ⟨h1, h2, h3, h4⟩ := lift f2 run (full_new_mismatch_facts H E f2 full_size light
          callback pct cb0 _ (by simp) (by simp) run hrun)
        exact ⟨h1, h2, h3, h4, fun h => by simp at h, fun h => by simp at h⟩
      · have e : run = ⟨[Action.calloc, Action.io_prepare false] ++
            [Action.io_prepare true] ++ [Action.free], .ok none⟩ := by
          rw [← hrun]
          cases rc2
          · rfl
          · rfl
          · exact absurd rfl h2
          · rfl
        subst e
        obtain ⟨h1, h2, h3, h4⟩ := plain_run_facts H E full_size light callback pct cb0
          ([Action.calloc, Action.io_prepare false] ++ [Action.io_prepare true] ++
            [Action.free]) (.ok none) (by simp) (by simp)
        exact ⟨h1, h2, h3, h4, fun h => by simp at h, fun h => by simp at h⟩

/-- The `case ETSCHASH_IO_MEMO_MISMATCH` part appends the same calls and returns the same
handle whatever calls came before it; it does not call `etschash_io_prepare`. -/
theorem full_new_mismatch_tail {σ : Type} (H : Sha3) (E : Collab) (f : Nat)
    (full_size : Nat) (light : etschash_light) (callback : Option (σ → Nat → Int × σ))
    (pct : Nat → Nat) (cb0 : σ) :
    ∃ tail ret, (∀ tr0, full_new_mismatch H E f full_size light callback pct cb0 tr0 =
        ⟨tr0 ++ tail, ret⟩) ∧ ∀ b, Action.io_prepare b ∉ tail := by
  unfold full_new_mismatch
  cases hmap : E.mmap f with
  | none =>
    exact ⟨[Action.mmap f, Action.fclose f, Action.free], .ok none,
      fun tr0 => by simp [fail_close_file], by simp⟩
  | some data =>
    simp only
    unfold full_new_finish
    cases hcomp : etschash_compute_full_data H data full_size light callback pct cb0 with
    | error e => exact ⟨[Action.mmap f], .error e, fun tr0 => rfl, by simp⟩
    | ok r =>
      obtain ⟨ok, st⟩ := r
      cases ok with
      | false =>
        exact ⟨[Action.mmap f, Action.compute_full_data false, Action.munmap, Action.fclose f,
          Action.free], .ok none, fun tr0 => by simp [fail_free_full_data], by simp⟩
      | true =>
        simp only
        cases h1 : E.fseek_ok
        · exact ⟨[Action.mmap f, Action.compute_full_data true, Action.fseek f, Action.munmap,
            Action.fclose f, Action.free], .ok none,
            fun tr0 => by simp [fail_free_full_data], by simp⟩
        · cases h2 : E.fwrite_ok
          · exact ⟨[Action.mmap f, Action.compute_full_data true, Action.fseek f,
              Action.fwrite_magic f, Action.munmap, Action.fclose f, Action.free], .ok none,
              fun tr0 => by simp [fail_free_full_data], by simp⟩
          · cases h3 : E.fflush_ok
            · exact ⟨[Action.mmap f, Action.compute_full_data true, Action.fseek f,
                Action.fwrite_magic f, Action.fflush f, Action.munmap, Action.fclose f,
                Action.free], .ok none, fun tr0 => by simp [fail_free_full_data], by simp⟩
            · exact ⟨[Action.mmap f, Action.compute_full_data true, Action.fseek f,
                Action.fwrite_magic f, Action.fflush f],
                .ok (some { file_size := full_size, data := st.full_nodes }),
                fun tr0 => by simp, by simp⟩

/-- The execution in which every collaborator succeeds on a fresh file: the magic number is
written after the materialisation, and the handle holds the materialised region. -/
theorem full_new_internal_fresh {σ : Type} (H : Sha3) (E : Collab) (full_size : Nat)
    (light : etschash_light) (callback : Option (σ → Nat → Int × σ)) (pct : Nat → Nat)
    (cb0 : σ) (f : Nat) (data : List node) (st : full_state σ) (hc : E.calloc_ok = true)
    (hp : E.io_prepare false = (.ETSCHASH_IO_MEMO_MISMATCH, f)) (hm : E.mmap f = some data)
    (hd : etschash_compute_full_data H data full_size light callback pct cb0 = .ok (true, st))
    (h1 : E.fseek_ok = true) (h2 : E.fwrite_ok = true) (h3 : E.fflush_ok = true) :
    etschash_full_new_internal H E full_size light callback pct cb0 =
      ⟨[Action.calloc, Action.io_prepare false, Action.mmap f, Action.compute_full_data true,
          Action.fseek f, Action.fwrite_magic f, Action.fflush f],
        .ok (some { file_size := full_size, data := st.full_nodes })⟩ := by
  unfold etschash_full_new_internal
  simp only [hc, Bool.not_true, Bool.false_eq_true, if_false, hp]
  unfold full_new_mismatch
  simp only [hm]
  unfold full_new_finish
  simp [hd, h1, h2, h3]

/-- The `case ETSCHASH_IO_MEMO_MISMATCH` part on file `f`, after the calls `tr0`, whatever
the collaborators answer: `etschash_mmap`; then, on the mapped region, the materialisation;
then, when that returned true, `fseek`, the `fwrite` of the magic number and `fflush`, up to
the first failure. -/
theorem full_new_mismatch_run {σ : Type} (H : Sha3) (E : Collab) (f : Nat)
    (full_size : Nat) (light : etschash_light) (callback : Option (σ → Nat → Int × σ))
    (pct : Nat → Nat) (cb0 : σ) (tr0 : List Action) :
    (E.mmap f = none →
      full_new_mismatch H E f full_size light callback pct cb0 tr0 =
        ⟨tr0 ++ [Action.mmap f, Action.fclose f, Action.free], .ok none⟩) ∧
    (∀ data, E.mmap f = some data →
      (∀ e, etschash_compute_full_data H data full_size light callback pct cb0 = .error e →
        full_new_mismatch H E f full_size light callback pct cb0 tr0 =
          ⟨tr0 ++ [Action.mmap f], .error e⟩) ∧
      (∀ st, etschash_compute_full_data H data full_size light callback pct cb0 =
          .ok (false, st) →
        full_new_mismatch H E f full_size light callback pct cb0 tr0 =
          ⟨tr0 ++ [Action.mmap f, Action.compute_full_data false, Action.munmap,
            Action.fclose f, Action.free], .ok none⟩) ∧
      (∀ st, etschash_compute_full_data H data full_size light callback pct cb0 =
          .ok (true, st) →
        full_new_mismatch H E f full_size light callback pct cb0 tr0 =
          if E.fseek_ok = false then
            ⟨tr0 ++ [Action.mmap f, Action.compute_full_data true, Action.fseek f,
              Action.munmap, Action.fclose f, Action.free], .ok none⟩
          else if E.fwrite_ok = false then
            ⟨tr0 ++ [Action.mmap f, Action.compute_full_data true, Action.fseek f,
              Action.fwrite_magic f, Action.munmap, Action.fclose f, Action.free], .ok none⟩
          else if E.fflush_ok = false then
            ⟨tr0 ++ [Action.mmap f, Action.compute_full_data true, Action.fseek f,
              Action.fwrite_magic f, Action.fflush f, Action.munmap, Action.fclose f,
              Action.free], .ok none⟩
          else
            ⟨tr0 ++ [Action.mmap f, Action.compute_full_data true, Action.fseek f,
              Action.fwrite_magic f, Action.fflush f],
              .ok (some { file_size := full_size, data := st.full_nodes })⟩)) := by
  refine ⟨?_, ?_⟩
  · intro hm
    unfold full_new_mismatch
    simp [hm, fail_close_file]
  · intro data hm
    refine ⟨?_, ?_, ?_⟩
    · intro e he
      unfold full_new_mismatch full_new_finish
      simp [hm, he]
    · intro st he
      unfold full_new_mismatch full_new_finish
      simp [hm, he, fail_free_full_data]
    · intro st he
      unfold full_new_mismatch full_new_finish
      cases h1 : E.fseek_ok <;> cases h2 : E.fwrite_ok <;> cases h3 : E.fflush_ok <;>
        simp [hm, he, h1, h2, h3, fail_free_full_data]

/-- C16. Size-mismatch recovery: when the first `etschash_io_prepare` call (`force = false`)
reports `ETSCHASH_IO_MEMO_SIZE_MISMATCH`, `etschash_full_new_internal` calls
`etschash_io_prepare` once more, with `force = true`, and never again; if that call reports
anything but `ETSCHASH_IO_MEMO_MISMATCH` the constructor frees the handle and returns NULL
without `mmap` or materialisation; if it reports `ETSCHASH_IO_MEMO_MISMATCH` with file `f2`,
the rest of the execution and the returned handle are those of an execution whose first call
reports `ETSCHASH_IO_MEMO_MISMATCH` with file `f2`, namely: `etschash_mmap` on `f2` (NULL
when it fails); the materialisation into the mapped region (NULL when it returns false);
then `fseek`, the `fwrite` of the magic number and `fflush` on `f2` (NULL at the first
failure); and at last the handle with the materialised region. -/
theorem size_mismatch_recovery {σ : Type} (H : Sha3) (E : Collab) (full_size : Nat)
    (light : etschash_light) (callback : Option (σ → Nat → Int × σ)) (pct : Nat → Nat)
    (cb0 : σ) (f1 : Nat) (hc : E.calloc_ok = true)
    (h1 : E.io_prepare false = (.ETSCHASH_IO_MEMO_SIZE_MISMATCH, f1)) :
    (∃ rest, (etschash_full_new_internal H E full_size light callback pct cb0).trace =
        [Action.calloc, Action.io_prepare false, Action.io_prepare true] ++ rest ∧
      ∀ b, Action.io_prepare b ∉ rest) ∧
    ((E.io_prepare true).1 ≠ .ETSCHASH_IO_MEMO_MISMATCH →
      etschash_full_new_internal H E full_size light callback pct cb0 =
        ⟨[Action.calloc, Action.io_prepare false, Action.io_prepare true, Action.free],
          .ok none⟩) ∧
    (∀ f2, E.io_prepare true = (.ETSCHASH_IO_MEMO_MISMATCH, f2) →
      (∃ rest ret,
        etschash_full_new_internal H E full_size light callback pct cb0 =
          ⟨[Action.calloc, Action.io_prepare false, Action.io_prepare true] ++ rest, ret⟩ ∧
        etschash_full_new_internal H
            { E with io_prepare := fun _ => (.ETSCHASH_IO_MEMO_MISMATCH, f2) }
            full_size light callback pct cb0 =
          ⟨[Action.calloc, Action.io_prepare false] ++ rest, ret⟩) ∧
      (E.mmap f2 = none →
        etschash_full_new_internal H E full_size light callback pct cb0 =
          ⟨[Action.calloc, Action.io_prepare false, Action.io_prepare true, Action.mmap f2,
            Action.fclose f2, Action.free], .ok none⟩) ∧
      (∀ data, E.mmap f2 = some data →
        (∀ e, etschash_compute_full_data H data full_size light callback pct cb0 = .error e →
          etschash_full_new_internal H E full_size light callback pct cb0 =
            ⟨[Action.calloc, Action.io_prepare false, Action.io_prepare true, Action.mmap f2],
              .error e⟩) ∧
        (∀ st, etschash_compute_full_data H data full_size light callback pct cb0 =
            .ok (false, st) →
          etschash_full_new_internal H E full_size light callback pct cb0 =
            ⟨[Action.calloc, Action.io_prepare false, Action.io_prepare true, Action.mmap f2,
              Action.compute_full_data false, Action.munmap, Action.fclose f2, Action.free],
              .ok none⟩) ∧
        (∀ st, etschash_compute_full_data H data full_size light callback pct cb0 =
            .ok (true, st) →
          etschash_full_new_internal H E full_size light callback pct cb0 =
            if E.fseek_ok = false then
              ⟨[Action.calloc, Action.io_prepare false, Action.io_prepare true,
                Action.mmap f2, Action.compute_full_data true, Action.fseek f2,
                Action.munmap, Action.fclose f2, Action.free], .ok none⟩
            else if E.fwrite_ok = false then
              ⟨[Action.calloc, Action.io_prepare false, Action.io_prepare true,
                Action.mmap f2, Action.compute_full_data true, Action.fseek f2,
                Action.fwrite_magic f2, Action.munmap, Action.fclose f2, Action.free],
                .ok none⟩
            else if E.fflush_ok = false then
              ⟨[Action.calloc, Action.io_prepare false, Action.io_prepare true,
                Action.mmap f2, Action.compute_full_data true, Action.fseek f2,
                Action.fwrite_magic f2, Action.fflush f2, Action.munmap, Action.fclose f2,
                Action.free], .ok none⟩
            else
              ⟨[Action.calloc, Action.io_prepare false, Action.io_prepare true,
                Action.mmap f2, Action.compute_full_data true, Action.fseek f2,
                Action.fwrite_magic f2, Action.fflush f2],
                .ok (some { file_size := full_size, data := st.full_nodes })⟩))) := by
  have hfail : (E.io_prepare true).1 ≠ .ETSCHASH_IO_MEMO_MISMATCH →
      etschash_full_new_internal H E full_size light callback pct cb0 =
        ⟨[Action.calloc, Action.io_prepare false, Action.io_prepare true, Action.free],
          .ok none⟩ := by
    intro h2
    unfold etschash_full_new_internal
    simp only [hc, Bool.not_true, Bool.false_eq_true, if_false, h1]
    rcases hp2 : E.io_prepare true with ⟨rc2, f2⟩
    rw [hp2] at h2
    cases rc2
    · rfl
    · rfl
    · exact absurd rfl h2
    · rfl
  have hrun : ∀ f2, E.io_prepare true = (.ETSCHASH_IO_MEMO_MISMATCH, f2) →
      etschash_full_new_internal H E full_size light callback pct cb0 =
        full_new_mismatch H E f2 full_size light callback pct cb0
          [Action.calloc, Action.io_prepare false, Action.io_prepare true] := by
    intro f2 h2
    unfold etschash_full_new_internal
    simp only [hc, Bool.not_true, Bool.false_eq_true, if_false, h1, h2]
    rfl
  have hgo : ∀ f2, E.io_prepare true = (.ETSCHASH_IO_MEMO_MISMATCH, f2) →
      ∃ rest ret, (∀ b, Action.io_prepare b ∉ rest) ∧
        etschash_full_new_internal H E full_size light callback pct cb0 =
          ⟨[Action.calloc, Action.io_prepare false, Action.io_prepare true] ++ rest, ret⟩ ∧
        etschash_full_new_internal H
            { E with io_prepare := fun _ => (.ETSCHASH_IO_MEMO_MISMATCH, f2) }
            full_size light callback pct cb0 =
          ⟨[Action.calloc, Action.io_prepare false] ++ rest, ret⟩ := by
    intro f2 h2
    obtain ⟨tail, ret, ht, hno⟩ :=
      full_new_mismatch_tail H E f2 full_size light callback pct cb0
    refine ⟨tail, ret, hno, ?_, ?_⟩
    · rw [hrun f2 h2, ht]
    · unfold etschash_full_new_internal
      simp only [hc, Bool.not_true, Bool.false_eq_true, if_false]
      exact ht _
  refine ⟨?_, hfail, ?_⟩
  · by_cases h2 : (E.io_prepare true).1 = .ETSCHASH_IO_MEMO_MISMATCH
    · obtain ⟨rest, ret, hno, hr, _⟩ := hgo (E.io_prepare true).2 (by rw [← h2])
      exact ⟨rest, by rw [hr], hno⟩
    · exact ⟨[Action.free], by rw [hfail h2]; rfl, by simp⟩
  · intro f2 h2
    obtain ⟨rest, ret, _, hr, hr2⟩ := hgo f2 h2
    obtain ⟨ha, hb⟩ := full_new_mismatch_run H E f2 full_size light callback pct cb0
      [Action.calloc, Action.io_prepare false, Action.io_prepare true]
    refine ⟨⟨rest, ret, hr, hr2⟩, ?_, ?_⟩
    · intro hm
      rw [hrun f2 h2, ha hm]
      rfl
    · intro data hm
      obtain ⟨hb1, hb2, hb3⟩ := hb data hm
      refine ⟨?_, ?_, ?_⟩
      · intro e he
        rw [hrun f2 h2, hb1 e he]
        rfl
      · intro st he
        rw [hrun f2 h2, hb2 st he]
        rfl
      · intro st he
        rw [hrun f2 h2, hb3 st he]
        rfl

/-- The materialisation used in the instances below returns true. -/
theorem compute_full_data_toy :
    ∃ st, etschash_compute_full_data toy [[], []] 128 light_one
      (none : Option (Unit → Nat → Int × Unit)) (fun _ => 0) () = .ok (true, st) := by
  obtain ⟨st, hst, _⟩ := compute_full_data_none_ok toy light_one [[], []] 128 (fun _ => 0)
    (by decide) (by decide) (by decide) (by decide)
  exact ⟨st, by
    rw [compute_full_data_eq_value toy [[], []] 128 light_one _ (fun _ => 0) () (by decide)]
    exact hst⟩

/-- C15 (witness). An instance of `magic_after_body`: every collaborator succeeds on a fresh
file for a dataset of 128 bytes; the magic number is written, after the materialisation. -/
theorem magic_after_body_witness :
    (etschash_full_new_internal toy (collab_ok .ETSCHASH_IO_MEMO_MISMATCH) 128 light_one
        (none : Option (Unit → Nat → Int × Unit)) (fun _ => 0) ()).trace =
      [Action.calloc, Action.io_prepare false, Action.mmap 1, Action.compute_full_data true,
        Action.fseek 1] ++ Action.fwrite_magic 1 :: [Action.fflush 1] ∧
    Action.compute_full_data true ∈
      [Action.calloc, Action.io_prepare false, Action.mmap 1, Action.compute_full_data true,
        Action.fseek 1] := by
  have htr : (etschash_full_new_internal toy (collab_ok .ETSCHASH_IO_MEMO_MISMATCH) 128
      light_one (none : Option (Unit → Nat → Int × Unit)) (fun _ => 0) ()).trace =
      [Action.calloc, Action.io_prepare false, Action.mmap 1, Action.compute_full_data true,
        Action.fseek 1] ++ Action.fwrite_magic 1 :: [Action.fflush 1] := by
    obtain ⟨st, hst⟩ := compute_full_data_toy
    rw [full_new_internal_fresh toy (collab_ok _) 128 light_one none (fun _ => 0) () 1
      [[], []] st rfl rfl rfl hst rfl rfl rfl]
    rfl
  exact ⟨htr, (magic_after_body toy _ 128 light_one none (fun _ => 0) () _ rfl).1 _ 1 _ htr⟩

/-- C16 (witness). An instance of `size_mismatch_recovery`: the first call reports a size
mismatch with file 1, the forced call a fresh file 2, and every later step succeeds: the region
is mapped from file 2 and materialised, and the magic number is written to file 2. -/
theorem size_mismatch_recovery_witness :
    (collab_ok .ETSCHASH_IO_MEMO_SIZE_MISMATCH).calloc_ok = true ∧
    (collab_ok .ETSCHASH_IO_MEMO_SIZE_MISMATCH).io_prepare false =
      (.ETSCHASH_IO_MEMO_SIZE_MISMATCH, 1) ∧
    (collab_ok .ETSCHASH_IO_MEMO_SIZE_MISMATCH).io_prepare true =
      (.ETSCHASH_IO_MEMO_MISMATCH, 2) ∧
    (collab_ok .ETSCHASH_IO_MEMO_SIZE_MISMATCH).mmap 2 = some [[], []] ∧
    ∃ st, etschash_compute_full_data toy [[], []] 128 light_one
        (none : Option (Unit → Nat → Int × Unit)) (fun _ => 0) () = .ok (true, st) ∧
      etschash_full_new_internal toy (collab_ok .ETSCHASH_IO_MEMO_SIZE_MISMATCH) 128 light_one
          (none : Option (Unit → Nat → Int × Unit)) (fun _ => 0) () =
        ⟨[Action.calloc, Action.io_prepare false, Action.io_prepare true, Action.mmap 2,
            Action.compute_full_data true, Action.fseek 2, Action.fwrite_magic 2,
            Action.fflush 2],
          .ok (some { file_size := 128, data := st.full_nodes })⟩ := by
  obtain ⟨st, hst⟩ := compute_full_data_toy
  exact ⟨rfl, rfl, rfl, rfl, st, hst,
    ((((size_mismatch_recovery toy (collab_ok .ETSCHASH_IO_MEMO_SIZE_MISMATCH) 128 light_one
      (none : Option (Unit → Nat → Int × Unit)) (fun _ => 0) () 1 rfl rfl).2.2 2 rfl).2.2
      [[], []] rfl).2.2 st hst).trans rfl⟩

/-! ## The big-endian host, with the traps -/

/-- When the page count is not zero, `etschash_hash_be` returns, and what it returns is
`etschash_hash_be_value`. -/
theorem etschash_hash_be_eq_value (H : Sha3) (ret : etschash_return_value_t)
    (full_nodes : List node) (light : etschash_light) (full_size : Nat)
    (header_hash : etschash_h256_t) (nonce : Nat) (hp : num_full_pages full_size ≠ 0) :
    etschash_hash_be H ret full_nodes light full_size header_hash nonce =
      .ok (etschash_hash_be_value H ret full_nodes light full_size header_hash nonce) := by
  unfold etschash_hash_be etschash_hash_be_value
  by_cases h32 : full_size % MIX_WORDS = 0
  · rw [if_neg (by simp [h32]), if_neg (by simp [h32])]
    simp only [hash_mix_eq_value H (some full_nodes) light full_size _ hp (by simp), bind,
      Except.bind, pure, Except.pure]
  · rw [if_pos h32, if_pos h32]

/-- C17 (the code at the failing input). With a stand-in for Keccak whose `SHA3_256` returns
its input and whose `SHA3_512` digest is zero but for the byte `01` at index 60, header
`01 .. 01`, nonce 42 and a dataset of 128 bytes, `etschash_hash` returns true on both hosts,
with the same mix hash but different results: byte 60 of the final Keccak-256 input is `01` on
a little-endian host and `00` on a big-endian host, where the node `s` is still
byte-swapped. -/
theorem hash_be_result_differs (ret : etschash_return_value_t) (full_nodes : List node)
    (light : etschash_light) :
    ∃ r_be r_le,
      etschash_hash_be probe ret full_nodes light 128 (List.replicate 32 1) 42 =
        .ok (true, r_be) ∧
      etschash_hash probe ret (some full_nodes) light 128 (List.replicate 32 1) 42 =
        .ok (true, r_le) ∧
      r_be.mix_hash = r_le.mix_hash ∧
      r_le.result.getD 60 0 = 1 ∧
      r_be.result.getD 60 0 = 0 ∧
      r_be.result ≠ r_le.result := by
  have hp : num_full_pages 128 ≠ 0 := by decide
  have hbe := etschash_hash_be_eq_value probe ret full_nodes light 128 (List.replicate 32 1) 42
    hp
  have hle := etschash_hash_eq_value probe ret (some full_nodes) light 128
    (List.replicate 32 1) 42 hp (by simp)
  have fbe : (etschash_hash_be_value probe ret full_nodes light 128 (List.replicate 32 1)
      42).1 = true := by
    rw [etschash_hash_be_ok probe ret full_nodes light 128 _ 42 (by decide)]
  have fle : (etschash_hash_value probe ret (some full_nodes) light 128 (List.replicate 32 1)
      42).1 = true := by
    rw [etschash_hash_ok probe ret _ light 128 _ 42 (by decide)]
  obtain ⟨hm, h1, h0, hne⟩ := hash_be_value_differs ret full_nodes light
  refine ⟨_, _, ?_, ?_, hm, h1, h0, hne⟩
  · rw [hbe, ← fbe]
  · rw [hle, ← fle]

end Etschash
